import Mathlib

/-!
Shallow embedding of dbpl.py, a codec for the DBPL binary playlist format.

Modelling conventions:
* A byte stream is a `List Nat` (each element intended `< 256`) together with
  an explicit read position; `f.read(n)` returns the available bytes (short at
  EOF) and advances the position by the number of bytes actually read.
* Python `str` values are lists of Unicode code points (`PyStr`); `.encode()` /
  `.decode()` are a strict UTF-8 codec.
* Python dicts are insertion-ordered association lists; updating an existing
  key keeps its position, a new key is appended.
* 32-bit floats are carried as their 4-byte little-endian bit patterns
  (a `Nat < 2^32`); the only float operations the code performs are equality
  tests with 0 and 1, which are decided on the pattern.
* Fallible operations return `Except Err`; each Python exception that the code
  can raise has its own constructor.
-/

/-- Unicode code points of a Python `str`. -/
abbrev PyStr := List Nat

/-- A Python value stored in a metadata dict: the code stores either `str`
(from `value.decode()`) or `int` (via `set_startsample`/`set_endsample`). -/
inductive PyVal where
  | str (s : PyStr)
  | int (n : Int)
deriving DecidableEq, Repr

/-- Exceptions the Python code can raise, one constructor per raise site /
builtin failure. `invalidMagic .. invalidLength` are the `ValueError`s raised
explicitly by `Playlist.read` (the spec's FormatError). -/
inductive Err where
  | invalidMagic          -- raise ValueError('invalid magic value')
  | invalidMajor          -- raise ValueError('invalid major version %d')
  | invalidMinor          -- raise ValueError('invalid minor version %d')
  | invalidDecoderLength  -- raise ValueError('invalid decoder length %d')
  | invalidKeyLength      -- raise ValueError('invalid key length')
  | invalidLength         -- raise ValueError('invalid length')
  | structError           -- struct.error from pack/unpack
  | typeError             -- TypeError (int |= Enum member)
  | unicodeDecodeError    -- UnicodeDecodeError from bytes.decode()
  | indexError            -- IndexError from key[0] on an empty string
  | intValueError         -- ValueError from int(value) on non-numeric bytes
  | osError               -- OSError from f.seek to a negative position
  | assertError           -- AssertionError from the track-count assert
  | byteRange             -- ValueError from bytearray.append(n) with n > 255
  | attributeError        -- AttributeError from .encode() on a non-str
deriving DecidableEq, Repr

/-! ### Little-endian scalars -/

/-- Value of a little-endian byte list. -/
def leNat (l : List Nat) : Nat := l.foldr (fun b acc => b + 256 * acc) 0

/-- Two little-endian bytes of `n` (for `n < 2^16` this is exact). -/
def u16le (n : Nat) : List Nat := [n % 256, n / 256 % 256]

/-- Four little-endian bytes of `n` (for `n < 2^32` this is exact). -/
def u32le (n : Nat) : List Nat :=
  [n % 256, n / 256 % 256, n / 65536 % 256, n / 16777216 % 256]

/-- Reinterpret a `w`-bit unsigned value as signed (two's complement). -/
def toSigned (w : Nat) (n : Nat) : Int :=
  if n < 2 ^ (w - 1) then (n : Int) else (n : Int) - 2 ^ w

/-- Two's-complement `w`-bit representation of an integer. -/
def toUnsigned (w : Nat) (i : Int) : Nat := (i % ((2 : Int) ^ w)).toNat

/-- `struct.pack('H', n)`. -/
def packU16 (n : Nat) : Except Err (List Nat) :=
  if n < 65536 then .ok (u16le n) else .error .structError

/-- `struct.pack('I', n)`. -/
def packU32 (n : Nat) : Except Err (List Nat) :=
  if n < 4294967296 then .ok (u32le n) else .error .structError

/-- `struct.pack('h', i)`. -/
def packI16 (i : Int) : Except Err (List Nat) :=
  if -32768 ≤ i ∧ i < 32768 then .ok (u16le (toUnsigned 16 i)) else .error .structError

/-- `struct.pack('i', i)`. -/
def packI32 (i : Int) : Except Err (List Nat) :=
  if -2147483648 ≤ i ∧ i < 2147483648 then .ok (u32le (toUnsigned 32 i))
  else .error .structError

/-- `bytearray.append(n)`: one byte, `ValueError` when out of range. -/
def appendByte (n : Nat) : Except Err (List Nat) :=
  if n < 256 then .ok [n] else .error .byteRange

/-! ### Stream reads -/

/-- `f.read(n)` at position `pos`: the next `n` bytes, short at EOF. -/
def pyRead (bytes : List Nat) (pos n : Nat) : List Nat := (bytes.drop pos).take n

/-- Read exactly `n` bytes or fail like `struct.unpack` on a short buffer. -/
def readExactN (bytes : List Nat) (pos n : Nat) : Except Err (List Nat × Nat) :=
  let b := pyRead bytes pos n
  if b.length = n then .ok (b, pos + n) else .error .structError

/-- `unpack('B', f.read(1))`. -/
def readU8 (bytes : List Nat) (pos : Nat) : Except Err (Nat × Nat) :=
  match readExactN bytes pos 1 with
  | .error e => .error e
  | .ok (b, p) => .ok (leNat b, p)

/-- `unpack('H', f.read(2))`. -/
def readU16 (bytes : List Nat) (pos : Nat) : Except Err (Nat × Nat) :=
  match readExactN bytes pos 2 with
  | .error e => .error e
  | .ok (b, p) => .ok (leNat b, p)

/-- `unpack('h', f.read(2))`. -/
def readI16 (bytes : List Nat) (pos : Nat) : Except Err (Int × Nat) :=
  match readExactN bytes pos 2 with
  | .error e => .error e
  | .ok (b, p) => .ok (toSigned 16 (leNat b), p)

/-- `unpack('I', f.read(4))`. -/
def readU32 (bytes : List Nat) (pos : Nat) : Except Err (Nat × Nat) :=
  match readExactN bytes pos 4 with
  | .error e => .error e
  | .ok (b, p) => .ok (leNat b, p)

/-! ### UTF-8 codec (`str.encode` / `bytes.decode`) -/

/-- UTF-8 bytes of one code point (standard 1-4 byte forms). -/
def utf8EncodeChar (c : Nat) : List Nat :=
  if c < 128 then [c]
  else if c < 2048 then [192 + c / 64, 128 + c % 64]
  else if c < 65536 then [224 + c / 4096, 128 + c / 64 % 64, 128 + c % 64]
  else [240 + c / 262144, 128 + c / 4096 % 64, 128 + c / 64 % 64, 128 + c % 64]

/-- `str.encode()`. -/
def utf8Encode (s : PyStr) : List Nat := (s.map utf8EncodeChar).flatten

/-- Is `b` a UTF-8 continuation byte? -/
def isCont (b : Nat) : Bool := 128 ≤ b && b < 192

/-- Strict UTF-8 decoding, fuel-driven (each step consumes at least one byte,
so fuel = input length always suffices): `none` on any malformed input
(truncated sequences, overlong forms, surrogates, out-of-range leads). -/
def utf8DecodeAux : Nat → List Nat → Option PyStr
  | _, [] => some []
  | 0, _ :: _ => none
  | fuel + 1, b :: rest =>
    if b < 128 then (utf8DecodeAux fuel rest).map (fun s => b :: s)
    else if b < 194 then none
    else if b < 224 then
      match rest with
      | b1 :: rest1 =>
        if isCont b1 then
          (utf8DecodeAux fuel rest1).map
            (fun s => ((b - 192) * 64 + (b1 - 128)) :: s)
        else none
      | [] => none
    else if b < 240 then
      match rest with
      | b1 :: b2 :: rest2 =>
        if (if b = 224 then 160 ≤ b1 && b1 < 192
            else if b = 237 then 128 ≤ b1 && b1 < 160
            else isCont b1) && isCont b2 then
          (utf8DecodeAux fuel rest2).map
            (fun s => ((b - 224) * 4096 + (b1 - 128) * 64 + (b2 - 128)) :: s)
        else none
      | _ => none
    else if b < 245 then
      match rest with
      | b1 :: b2 :: b3 :: rest3 =>
        if (if b = 240 then 144 ≤ b1 && b1 < 192
            else if b = 244 then 128 ≤ b1 && b1 < 144
            else isCont b1) && isCont b2 && isCont b3 then
          (utf8DecodeAux fuel rest3).map
            (fun s => ((b - 240) * 262144 + (b1 - 128) * 4096
                        + (b2 - 128) * 64 + (b3 - 128)) :: s)
        else none
      | _ => none
    else none

/-- `bytes.decode()`: strict UTF-8 decoding of a byte list. -/
def utf8Decode (l : List Nat) : Option PyStr := utf8DecodeAux l.length l

/-! ### Decimal conversion (`str(int)` and `int(bytes)`) -/

/-- Decimal digit code points of `n`, most significant first (empty for 0);
specification-level definition, recursion on `n / 10`. -/
def digitsList (n : Nat) : List Nat :=
  if h : n = 0 then [] else digitsList (n / 10) ++ [48 + n % 10]
decreasing_by exact Nat.div_lt_self (Nat.pos_of_ne_zero h) (by omega)

/-- Fuel-driven accumulator version of `digitsList` (kernel-evaluable). -/
def natDigitsAux : Nat → Nat → List Nat → List Nat
  | 0, _, acc => acc
  | fuel + 1, n, acc =>
    if n = 0 then acc else natDigitsAux fuel (n / 10) ((48 + n % 10) :: acc)

/-- Decimal code points of a natural number, `"0"` for zero. -/
def natToStr (n : Nat) : PyStr := if n = 0 then [48] else natDigitsAux n n []

/-- `str(i)` for an integer. -/
def intToStr (i : Int) : PyStr :=
  if i < 0 then 45 :: natToStr (-i).toNat else natToStr i.toNat

/-- `str(value)` for a stored metadata value. -/
def pyStrOf : PyVal → PyStr
  | .str s => s
  | .int n => intToStr n

/-- ASCII whitespace accepted by `int(bytes)`. -/
def isWs (b : Nat) : Bool := b = 32 || b = 9 || b = 10 || b = 13 || b = 11 || b = 12

/-- ASCII decimal digit. -/
def isDigit (b : Nat) : Bool := 48 ≤ b && b ≤ 57

/-- Parse a nonempty all-digit byte list. -/
def parseDigits (l : List Nat) : Option Nat :=
  if l ≠ [] ∧ l.all isDigit then
    some (l.foldl (fun acc d => acc * 10 + (d - 48)) 0)
  else none

/-- `int(value)` on bytes: optional surrounding ASCII whitespace, optional
sign, a nonempty run of decimal digits. -/
def parseInt (l : List Nat) : Option Int :=
  match ((l.dropWhile isWs).reverse.dropWhile isWs).reverse with
  | [] => none
  | d :: rest =>
    if d = 43 then (parseDigits rest).map (fun n => (n : Int))
    else if d = 45 then (parseDigits rest).map (fun n => -(n : Int))
    else (parseDigits (d :: rest)).map (fun n => (n : Int))

/-! ### Python dict as insertion-ordered association list -/

/-- Dict assignment `m[k] = v`: update in place, else append. -/
def dictInsert (m : List (PyStr × PyVal)) (k : PyStr) (v : PyVal) :
    List (PyStr × PyVal) :=
  match m with
  | [] => [(k, v)]
  | (k0, v0) :: rest =>
    if k0 = k then (k, v) :: rest else (k0, v0) :: dictInsert rest k v

/-- Dict lookup `m[k]` / `k in m`. -/
def dictLookup (m : List (PyStr × PyVal)) (k : PyStr) : Option PyVal :=
  match m with
  | [] => none
  | (k0, v0) :: rest => if k0 = k then some v0 else dictLookup rest k

/-! ### String constants -/

/-- Code points of `":STARTSAMPLE"`. -/
def sSS : PyStr := [58, 83, 84, 65, 82, 84, 83, 65, 77, 80, 76, 69]

/-- Code points of `":ENDSAMPLE"`. -/
def sES : PyStr := [58, 69, 78, 68, 83, 65, 77, 80, 76, 69]

/-- Code points of `":URI"`. -/
def sURI : PyStr := [58, 85, 82, 73]

/-- The bytes `b"DBPL"`. -/
def magicDBPL : List Nat := [68, 66, 80, 76]

/-! ### Track (class `Track` in dbpl.py) -/

/-- One playlist entry; float fields hold 32-bit patterns, `0` both for the
integer default of `__init__` and for the pattern of `+0.0`. -/
structure Track where
  uri : PyStr
  decoder : PyStr
  num : Int
  startsample : Int
  endsample : Int
  duration : Nat
  filetype : PyStr
  replaygain_albumgain : Nat
  replaygain_albumpeak : Nat
  replaygain_trackgain : Nat
  replaygain_trackpeak : Nat
  flags : Nat
  meta : List (PyStr × PyVal)
deriving DecidableEq, Repr

/-- `Track.__init__`. -/
def Track.init : Track :=
  { uri := [], decoder := [], num := 0, startsample := 0, endsample := 0,
    duration := 0, filetype := [], replaygain_albumgain := 0,
    replaygain_albumpeak := 0, replaygain_trackgain := 0,
    replaygain_trackpeak := 0, flags := 0, meta := [] }

/-- `Track.get_uri`: the `:URI` shadow entry when present, else the field. -/
def Track.get_uri (t : Track) : PyVal :=
  match dictLookup t.meta sURI with
  | some v => v
  | none => .str t.uri

/-- `Track.set_uri`: writes the field and the `:URI` shadow entry. -/
def Track.set_uri (t : Track) (uri : PyStr) : Track :=
  { t with uri := uri, meta := dictInsert t.meta sURI (.str uri) }

/-- `Track.get_startsample`. -/
def Track.get_startsample (t : Track) : PyVal :=
  match dictLookup t.meta sSS with
  | some v => v
  | none => .int t.startsample

/-- `Track.set_startsample`. -/
def Track.set_startsample (t : Track) (v : Int) : Track :=
  { t with startsample := v, meta := dictInsert t.meta sSS (.int v) }

/-- `Track.get_endsample`. -/
def Track.get_endsample (t : Track) : PyVal :=
  match dictLookup t.meta sES with
  | some v => v
  | none => .int t.endsample

/-- `Track.set_endsample`. -/
def Track.set_endsample (t : Track) (v : Int) : Track :=
  { t with endsample := v, meta := dictInsert t.meta sES (.int v) }

/-- `Track.get_writable_meta`: keep entries whose key starts with neither
`'_'` (95) nor `'!'` (33); `key[0]` on an empty key raises IndexError. -/
def writableMeta : List (PyStr × PyVal) → Except Err (List (PyStr × PyVal))
  | [] => .ok []
  | (k, v) :: rest =>
    match k with
    | [] => .error .indexError
    | c :: _ =>
      match writableMeta rest with
      | .error e => .error e
      | .ok m => if c ≠ 95 ∧ c ≠ 33 then .ok ((k, v) :: m) else .ok m

/-- `Track.get_writable_meta` as a method on the track. -/
def Track.get_writable_meta (t : Track) : Except Err (List (PyStr × PyVal)) :=
  writableMeta t.meta

/-- Sequencing of fallible encoding steps (Python raising semantics). -/
def bindE {α β : Type} (a : Except Err α) (f : α → Except Err β) : Except Err β :=
  match a with
  | .error e => .error e
  | .ok x => f x

/-- One key/value pair of `Track.pack`'s metadata loop: length prefixes are
taken from the **encoded** byte strings. -/
def packTrackMetaEntry (k : PyStr) (v : PyVal) : Except Err (List Nat) :=
  bindE (packU16 (utf8Encode k).length) (fun klb =>
  bindE (packU16 (utf8Encode (pyStrOf v)).length) (fun vlb =>
  .ok (klb ++ (if (utf8Encode k).length ≠ 0 then utf8Encode k else [])
        ++ vlb
        ++ (if (utf8Encode (pyStrOf v)).length ≠ 0 then utf8Encode (pyStrOf v) else []))))

/-- Concatenate the encodings of a list of items, propagating failures. -/
def packList {α : Type} (f : α → Except Err (List Nat)) :
    List α → Except Err (List Nat)
  | [] => .ok []
  | x :: xs =>
    bindE (f x) (fun b =>
    bindE (packList f xs) (fun bs =>
    .ok (b ++ bs)))

/-- `struct.pack('i', x)` applied to a stored value: non-int arguments raise
struct.error. -/
def packI32Val : PyVal → Except Err (List Nat)
  | .int n => packI32 n
  | .str _ => .error .structError

/-- `Track.pack`: serialize one track in the current (minor = 2) layout. -/
def Track.pack (t : Track) : Except Err (List Nat) :=
  match t.get_uri with
  | .int _ => .error .attributeError   -- int has no .encode()
  | .str u =>
    bindE (packU16 (utf8Encode u).length) (fun ulb =>
    bindE (if t.decoder ≠ [] then appendByte (utf8Encode t.decoder).length
           else .ok [0]) (fun dlb =>
    bindE (packI16 t.num) (fun nb =>
    bindE (packI32Val t.get_startsample) (fun ssb =>
    bindE (packI32Val t.get_endsample) (fun esb =>
    bindE (appendByte (utf8Encode t.filetype).length) (fun ftlb =>
    bindE (packU32 t.flags) (fun flb =>
    bindE (writableMeta t.meta) (fun wm =>
    bindE (packI16 (wm.length : Int)) (fun mcb =>
    bindE (packList (fun p => packTrackMetaEntry p.1 p.2) wm) (fun mb =>
    .ok (ulb ++ utf8Encode u ++ dlb
          ++ (if t.decoder ≠ [] then utf8Encode t.decoder else [])
          ++ nb ++ ssb ++ esb
          ++ u32le t.duration
          ++ ftlb
          ++ (if t.filetype ≠ [] then utf8Encode t.filetype else [])
          ++ u32le t.replaygain_albumgain
          ++ u32le t.replaygain_albumpeak
          ++ u32le t.replaygain_trackgain
          ++ u32le t.replaygain_trackpeak
          ++ flb ++ mcb ++ mb)))))))))))

/-! ### Playlist (class `Playlist` in dbpl.py) -/

/-- In-memory playlist: versions read from the header, ordered tracks,
playlist-level metadata dict. -/
structure Playlist where
  major_version : Nat
  minor_version : Nat
  tracks : List Track
  meta : List (PyStr × PyVal)
deriving DecidableEq, Repr

/-- `Playlist.MAJOR_VERSION`. -/
def Playlist.MAJOR_VERSION : Nat := 1

/-- `Playlist.MINOR_VERSION`. -/
def Playlist.MINOR_VERSION : Nat := 2

/-- One key/value pair of `Playlist.save`'s metadata loop: the length
prefixes are the **character** counts `len(key)`/`len(str(value))`, while the
bytes written are the UTF-8 encodings. -/
def savePlaylistMetaEntry (k : PyStr) (v : PyVal) : Except Err (List Nat) :=
  bindE (packU16 k.length) (fun klb =>
  bindE (packU16 (pyStrOf v).length) (fun vlb =>
  .ok (klb ++ (if k.length ≠ 0 then utf8Encode k else [])
        ++ vlb ++ (if (pyStrOf v).length ≠ 0 then utf8Encode (pyStrOf v) else []))))

/-- `Playlist.save`: magic, constant current version, track count, packed
tracks, playlist metadata. -/
def Playlist.save (pl : Playlist) : Except Err (List Nat) :=
  bindE (packU32 pl.tracks.length) (fun tcb =>
  bindE (packList Track.pack pl.tracks) (fun tb =>
  bindE (packI16 (pl.meta.length : Int)) (fun mcb =>
  bindE (packList (fun p => savePlaylistMetaEntry p.1 p.2) pl.meta) (fun mb =>
  .ok (magicDBPL ++ [Playlist.MAJOR_VERSION, Playlist.MINOR_VERSION]
        ++ tcb ++ tb ++ mcb ++ mb)))))

/-! ### Decoding (`Playlist.read`) -/

/-- Track-scope metadata loop (dbpl.py lines 228-250): key length unsigned
16-bit, `>= 20000` fatal; value length unsigned 16-bit, `>= 20000` skipped by
seeking; `:STARTSAMPLE`/`:ENDSAMPLE` intercepted through the setters; other
keys stored verbatim; `key[0]` on an empty key raises IndexError. -/
def decodeTrackMetaLoop (bytes : List Nat) :
    Nat → Track → Nat → Except Err (Track × Nat)
  | 0, t, pos => .ok (t, pos)
  | c + 1, t, pos =>
    match readU16 bytes pos with
    | .error e => .error e
    | .ok (kl, p1) =>
      if 20000 ≤ kl then .error .invalidKeyLength
      else
        let kb := pyRead bytes p1 kl
        match utf8Decode kb with
        | none => .error .unicodeDecodeError
        | some key =>
          let p2 := p1 + kb.length
          match readU16 bytes p2 with
          | .error e => .error e
          | .ok (vl, p3) =>
            if 20000 ≤ vl then
              decodeTrackMetaLoop bytes c t (p3 + vl)
            else
              let vb := pyRead bytes p3 vl
              let p4 := p3 + vb.length
              match key with
              | [] => .error .indexError
              | c0 :: _ =>
                if c0 = 58 then
                  if key = sSS then
                    match parseInt vb with
                    | none => .error .intValueError
                    | some n =>
                      decodeTrackMetaLoop bytes c (t.set_startsample n) p4
                  else if key = sES then
                    match parseInt vb with
                    | none => .error .intValueError
                    | some n =>
                      decodeTrackMetaLoop bytes c (t.set_endsample n) p4
                  else
                    match utf8Decode vb with
                    | none => .error .unicodeDecodeError
                    | some v =>
                      decodeTrackMetaLoop bytes c
                        { t with meta := dictInsert t.meta key (.str v) } p4
                else
                  match utf8Decode vb with
                  | none => .error .unicodeDecodeError
                  | some v =>
                    decodeTrackMetaLoop bytes c
                      { t with meta := dictInsert t.meta key (.str v) } p4

/-- Whether a 32-bit float pattern compares equal to `0` (`+0.0` or `-0.0`). -/
def f32IsZero (b : Nat) : Prop := b = 0 ∨ b = 2147483648

instance (b : Nat) : Decidable (f32IsZero b) := by
  unfold f32IsZero; infer_instance

/-- The 32-bit pattern of `1.0`. -/
def f32One : Nat := 1065353216

/-- Decode of a track from the start samples onward (dbpl.py lines 195-250):
samples, duration, version-gated legacy fields, flags, metadata. On the
minor < 2 path with a subtrack condition, `track.flags |= Flag.IS_SUBTRACK`
or-s an `int` with an `Enum` member, which Python rejects with TypeError. -/
def decodeTrackBody (bytes : List Nat) (minor : Nat) (t : Track) (pos : Nat) :
    Except Err (Track × Nat) :=
  match readExactN bytes pos 8 with
  | .error e => .error e
  | .ok (sb, p1) =>
    let ss := toSigned 32 (leNat (sb.take 4))
    let es := toSigned 32 (leNat (sb.drop 4))
    let t1 := (t.set_startsample ss).set_endsample es
    match readExactN bytes p1 4 with
    | .error e => .error e
    | .ok (db, p2) =>
      let t2 := { t1 with duration := leNat db }
      match
        ((if minor ≤ 2 then
          match readU8 bytes p2 with
          | .error e => .error e
          | .ok (ftl, p3) =>
            let ftb := pyRead bytes p3 ftl
            match (if ftl ≠ 0 then utf8Decode ftb else some t2.filetype) with
            | none => .error .unicodeDecodeError
            | some ft =>
              let p4 := p3 + ftb.length
              match readExactN bytes p4 16 with
              | .error e => .error e
              | .ok (gb, p5) =>
                let ag := leNat (gb.take 4)
                let ap := leNat ((gb.drop 4).take 4)
                let tg := leNat ((gb.drop 8).take 4)
                let tp := leNat ((gb.drop 12).take 4)
                let t3 := { t2 with filetype := ft }
                let t4 := if ¬f32IsZero ag then
                            { t3 with replaygain_albumgain := ag } else t3
                let t5 := if ¬f32IsZero ap ∧ ap ≠ f32One then
                            { t4 with replaygain_albumpeak := ap } else t4
                let t6 := if ¬f32IsZero tg then
                            { t5 with replaygain_trackgain := tg } else t5
                let t7 := if ¬f32IsZero tp ∧ tp ≠ f32One then
                            { t6 with replaygain_trackpeak := tp } else t6
                .ok (t7, p5)
        else .ok (t2, p2)) : Except Err (Track × Nat)) with
      | .error e => .error e
      | .ok (t8, p6) =>
        match
          ((if 2 ≤ minor then
            match readU32 bytes p6 with
            | .error e => .error e
            | .ok (fl, p7) => .ok ({ t8 with flags := fl }, p7)
          else if 0 < t8.startsample ∨ 0 < t8.endsample ∨ 0 < t8.num then
            .error .typeError   -- track.flags |= Flag.IS_SUBTRACK on an int
          else .ok (t8, p6)) : Except Err (Track × Nat)) with
        | .error e => .error e
        | .ok (t9, p8) =>
          match readI16 bytes p8 with
          | .error e => .error e
          | .ok (mc, p9) => decodeTrackMetaLoop bytes mc.toNat t9 p9

/-- Decode one track record (dbpl.py lines 177-250): on minor ≤ 2 the
identity fields (uri, decoder with its fatal length check, track number),
then the common body. -/
def decodeTrack (bytes : List Nat) (minor : Nat) (pos : Nat) :
    Except Err (Track × Nat) :=
  if minor ≤ 2 then
    match readU16 bytes pos with
    | .error e => .error e
    | .ok (ul, p1) =>
      let ub := pyRead bytes p1 ul
      match utf8Decode ub with
      | none => .error .unicodeDecodeError
      | some u =>
        let p2 := p1 + ub.length
        match readU8 bytes p2 with
        | .error e => .error e
        | .ok (dl, p3) =>
          if 20 ≤ dl then .error .invalidDecoderLength
          else
            let dbb := pyRead bytes p3 dl
            match (if dl ≠ 0 then utf8Decode dbb else some Track.init.decoder) with
            | none => .error .unicodeDecodeError
            | some dec =>
              let p4 := if dl ≠ 0 then p3 + dbb.length else p3
              match readI16 bytes p4 with
              | .error e => .error e
              | .ok (num, p5) =>
                decodeTrackBody bytes minor
                  { Track.init with uri := u, decoder := dec, num := num } p5
  else decodeTrackBody bytes minor Track.init pos

/-- The `for i in range(tracks_count)` loop of `Playlist.read`. -/
def decodeTracksLoop (bytes : List Nat) (minor : Nat) :
    Nat → List Track → Nat → Except Err (List Track × Nat)
  | 0, acc, pos => .ok (acc, pos)
  | n + 1, acc, pos =>
    match decodeTrack bytes minor pos with
    | .error e => .error e
    | .ok (t, p) => decodeTracksLoop bytes minor n (acc ++ [t]) p

/-- Playlist-scope metadata loop (dbpl.py lines 259-273): both lengths read
as **signed** 16-bit; a negative or `>= 20000` key length raises
`ValueError('invalid length')`; such a value length is skipped with
`f.seek(value_len, SEEK_CUR)` (OSError when the target is negative). -/
def decodePlaylistMetaLoop (bytes : List Nat) :
    Nat → List (PyStr × PyVal) → Nat → Except Err (List (PyStr × PyVal) × Nat)
  | 0, m, pos => .ok (m, pos)
  | c + 1, m, pos =>
    match readI16 bytes pos with
    | .error e => .error e
    | .ok (kl, p1) =>
      if kl < 0 ∨ 20000 ≤ kl then .error .invalidLength
      else
        let kb := pyRead bytes p1 kl.toNat
        match utf8Decode kb with
        | none => .error .unicodeDecodeError
        | some key =>
          let p2 := p1 + kb.length
          match readI16 bytes p2 with
          | .error e => .error e
          | .ok (vl, p3) =>
            if vl < 0 ∨ 20000 ≤ vl then
              let np : Int := (p3 : Int) + vl
              if np < 0 then .error .osError
              else decodePlaylistMetaLoop bytes c m np.toNat
            else
              let vb := pyRead bytes p3 vl.toNat
              match utf8Decode vb with
              | none => .error .unicodeDecodeError
              | some v =>
                decodePlaylistMetaLoop bytes c
                  (dictInsert m key (.str v)) (p3 + vb.length)

/-- `Playlist.read` over a whole byte stream: header validation, track loop,
count assert, playlist metadata. -/
def decodePlaylist (bytes : List Nat) : Except Err Playlist :=
  if pyRead bytes 0 4 ≠ magicDBPL then .error .invalidMagic
  else
    match readExactN bytes 4 2 with
    | .error e => .error e
    | .ok (vb, p1) =>
      let major := vb.getD 0 0
      let minor := vb.getD 1 0
      if major ≠ 1 then .error .invalidMajor
      else if minor < 1 then .error .invalidMinor
      else
        match readU32 bytes p1 with
        | .error e => .error e
        | .ok (tc, p2) =>
          match decodeTracksLoop bytes minor tc [] p2 with
          | .error e => .error e
          | .ok (tracks, p3) =>
            if tc ≠ tracks.length then .error .assertError
            else
              match readU16 bytes p3 with
              | .error e => .error e
              | .ok (mc, p4) =>
                match decodePlaylistMetaLoop bytes mc [] p4 with
                | .error e => .error e
                | .ok (meta, _) =>
                  .ok { major_version := major, minor_version := minor,
                        tracks := tracks, meta := meta }

/-! ### Concrete byte streams used to exercise the codec -/

/-- A stream whose single playlist-scope metadata entry declares key length
20000: magic, version 1.2, zero tracks, one metadata entry, `key_len = 20000`
(bytes `32 78` little-endian). -/
def plBadKeyBytes : List Nat :=
  magicDBPL ++ [1, 2] ++ [0, 0, 0, 0] ++ [1, 0] ++ [32, 78]

/-- A minor-version-1 stream with one track whose start sample is 1: uri
length 0, decoder length 0, track number 0, `startsample = 1`, `endsample`,
duration and the legacy filetype/replay-gain block all zero. -/
def subtrackV1Bytes : List Nat :=
  magicDBPL ++ [1, 1] ++ [1, 0, 0, 0]
    ++ [0, 0] ++ [0] ++ [0, 0]
    ++ [1, 0, 0, 0] ++ [0, 0, 0, 0]
    ++ [0, 0, 0, 0]
    ++ [0] ++ List.replicate 16 0

/-- A stream whose playlist metadata holds the single entry `é ↦ ""`:
the key is one character of two UTF-8 bytes (`C3 A9`). -/
def nonAsciiMetaBytes : List Nat :=
  magicDBPL ++ [1, 2] ++ [0, 0, 0, 0] ++ [1, 0] ++ [2, 0] ++ [195, 169] ++ [0, 0]

/-- The playlist decoded from `nonAsciiMetaBytes`. -/
def nonAsciiPl : Playlist :=
  { major_version := 1, minor_version := 2, tracks := [],
    meta := [([233], .str [])] }

/-- The bytes produced by saving `nonAsciiPl`: the key length prefix is the
character count 1, but two key bytes follow. -/
def nonAsciiSaved : List Nat :=
  magicDBPL ++ [1, 2] ++ [0, 0, 0, 0] ++ [1, 0] ++ [1, 0] ++ [195, 169] ++ [0, 0]

/-- A stream with one track carrying a metadata entry with an empty key
(key length 0) and value `"x"`. -/
def emptyKeyBytes : List Nat :=
  magicDBPL ++ [1, 2] ++ [1, 0, 0, 0]
    ++ [0, 0] ++ [0] ++ [0, 0]
    ++ [0, 0, 0, 0] ++ [0, 0, 0, 0]
    ++ [0, 0, 0, 0]
    ++ [0] ++ List.replicate 16 0
    ++ [0, 0, 0, 0]
    ++ [1, 0] ++ [0, 0] ++ [1, 0] ++ [120]

/-! ### Invariants satisfied by every decoded playlist -/

/-- A string survives an encode/decode round trip (true of every string the
decoder produces, since strict UTF-8 is a bijection on its image). -/
def StrGood (s : PyStr) : Prop := utf8Decode (utf8Encode s) = some s

/-- The integer carried by a stored value (unused for strings). -/
def intOfVal : PyVal → Int
  | .int n => n
  | .str _ => 0

/-- What holds of every entry that `Track.pack` writes from a decoded track:
nonempty round-trippable key under the key-length limit, value bytes under
the value-length limit, shadow keys carry ints, string values round-trip. -/
def EntryInv (p : PyStr × PyVal) : Prop :=
  p.1 ≠ [] ∧ StrGood p.1 ∧ (utf8Encode p.1).length < 20000
    ∧ (utf8Encode (pyStrOf p.2)).length < 20000
    ∧ ((p.1 = sSS ∨ p.1 = sES) → ∃ n, p.2 = .int n)
    ∧ (∀ s, p.2 = .str s → StrGood s)

/-- The effect of re-decoding one written metadata pair on the track under
construction: the shadow keys go through the setters, everything else is a
dict insert of the string form. -/
def applyEntry (t : Track) (k : PyStr) (v : PyVal) : Track :=
  if k = sSS then t.set_startsample (intOfVal v)
  else if k = sES then t.set_endsample (intOfVal v)
  else { t with meta := dictInsert t.meta k (.str (pyStrOf v)) }

/-- The shape of every metadata dict the decoder builds: the two integer
shadow entries up front, then well-formed string pairs with distinct
non-shadow keys. -/
def MetaShape (m : List (PyStr × PyVal)) : Prop :=
  ∃ n1 n2 tail, m = (sSS, .int n1) :: (sES, .int n2) :: tail
    ∧ (∀ p ∈ tail, p.1 ≠ sSS ∧ p.1 ≠ sES ∧ EntryInv p
        ∧ ∃ s, p.2 = PyVal.str s)
    ∧ (tail.map Prod.fst).Nodup

/-- Invariant of every track produced by `Playlist.read`: the metadata dict
starts with the two integer shadow entries, the remaining entries are
well-formed string pairs with distinct non-shadow keys, and the plain string
fields round-trip (the decoder never stores more than 19 decoder bytes). -/
def TrackInv (t : Track) : Prop :=
  MetaShape t.meta
  ∧ StrGood t.uri ∧ StrGood t.decoder
  ∧ (utf8Encode t.decoder).length < 20
  ∧ StrGood t.filetype

/-- Invariant of every playlist-scope metadata entry produced by
`Playlist.read`. -/
def PlMetaInv (p : PyStr × PyVal) : Prop :=
  StrGood p.1 ∧ (utf8Encode p.1).length < 20000
    ∧ ∃ s, p.2 = PyVal.str s ∧ StrGood s ∧ (utf8Encode s).length < 20000

/-- Invariant of every playlist produced by `Playlist.read`. -/
def PlaylistInv (pl : Playlist) : Prop :=
  (∀ t ∈ pl.tracks, TrackInv t) ∧ (∀ p ∈ pl.meta, PlMetaInv p)
    ∧ (pl.meta.map Prod.fst).Nodup

/-- All playlist-level metadata entries consist of characters that UTF-8
encodes to one byte each. -/
def PlAsciiMeta (pl : Playlist) : Prop :=
  ∀ p ∈ pl.meta, (∀ c ∈ p.1, c < 128) ∧ (∀ c ∈ pyStrOf p.2, c < 128)

/-- The per-track correspondence the round trip preserves: same flags, same
effective (shadow-aware) start and end samples, same writable metadata. -/
def trackMatch (t t2 : Track) : Prop :=
  t2.flags = t.flags ∧ t2.get_startsample = t.get_startsample
    ∧ t2.get_endsample = t.get_endsample
    ∧ writableMeta t2.meta = writableMeta t.meta

/-- A track whose `uri` field is `"b"` while its `:URI` shadow metadata entry
says `"a"`. -/
def uriShadowTrack : Track :=
  { Track.init with uri := [98], meta := [(sURI, .str [97])] }

/-- The bytes `Track.pack` produces for `uriShadowTrack`: the uri section
carries `"a"` from the shadow entry, not the field's `"b"`. -/
def uriShadowPacked : List Nat :=
  [1, 0, 97, 0, 0, 0, 0, 0, 0, 0, 0, 0, 0, 0, 0, 0, 0, 0, 0, 0, 0, 0, 0, 0, 0,
   0, 0, 0, 0, 0, 0, 0, 0, 0, 0, 0, 0, 0, 0, 1, 0, 4, 0, 58, 85, 82, 73, 1, 0, 97]

/-- A header-only stream: magic, version 1.2, zero tracks, zero playlist
metadata entries. -/
def emptyPlBytes : List Nat :=
  magicDBPL ++ [1, 2] ++ [0, 0, 0, 0] ++ [0, 0]

/-- The playlist decoded from `emptyPlBytes`. -/
def emptyPl : Playlist :=
  { major_version := 1, minor_version := 2, tracks := [], meta := [] }

/-! ### Basic lemmas about reads at segment boundaries -/

theorem pyRead_at (pre mid rest : List Nat) :
    pyRead (pre ++ (mid ++ rest)) pre.length mid.length = mid := by
  unfold pyRead
  rw [List.drop_left, List.take_left]

theorem readExactN_at (pre mid rest : List Nat) :
    readExactN (pre ++ (mid ++ rest)) pre.length mid.length
      = .ok (mid, pre.length + mid.length) := by
  unfold readExactN
  simp [pyRead_at]

theorem leNat_pair (a b : Nat) : leNat [a, b] = a + 256 * b := by
  simp [leNat]

theorem leNat_quad (a b c d : Nat) :
    leNat [a, b, c, d] = a + 256 * b + 65536 * c + 16777216 * d := by
  simp [leNat]; ring

theorem u16le_length (n : Nat) : (u16le n).length = 2 := rfl

theorem u32le_length (n : Nat) : (u32le n).length = 4 := rfl

theorem leNat_u16le (n : Nat) (h : n < 65536) : leNat (u16le n) = n := by
  simp [u16le, leNat_pair]; omega

theorem leNat_u32le (n : Nat) (h : n < 4294967296) : leNat (u32le n) = n := by
  simp [u32le, leNat_quad]; omega

theorem readU16_at (pre rest : List Nat) (n : Nat) (h : n < 65536) :
    readU16 (pre ++ (u16le n ++ rest)) pre.length = .ok (n, pre.length + 2) := by
  unfold readU16
  have h2 := readExactN_at pre (u16le n) rest
  rw [u16le_length] at h2
  rw [h2]
  simp [leNat_u16le n h]

theorem readU32_at (pre rest : List Nat) (n : Nat) (h : n < 4294967296) :
    readU32 (pre ++ (u32le n ++ rest)) pre.length = .ok (n, pre.length + 4) := by
  unfold readU32
  have h2 := readExactN_at pre (u32le n) rest
  rw [u32le_length] at h2
  rw [h2]
  simp [leNat_u32le n h]

theorem readU8_at (pre rest : List Nat) (b : Nat) :
    readU8 (pre ++ ([b] ++ rest)) pre.length = .ok (b, pre.length + 1) := by
  unfold readU8
  have h2 := readExactN_at pre [b] rest
  simp at h2
  simp [h2, leNat]

theorem toSigned16_toUnsigned16 (i : Int) (h1 : -32768 ≤ i) (h2 : i < 32768) :
    toSigned 16 (toUnsigned 16 i) = i := by
  unfold toSigned toUnsigned
  norm_num
  omega

theorem toSigned32_toUnsigned32 (i : Int)
    (h1 : -2147483648 ≤ i) (h2 : i < 2147483648) :
    toSigned 32 (toUnsigned 32 i) = i := by
  unfold toSigned toUnsigned
  norm_num
  omega

theorem toUnsigned16_lt (i : Int) : toUnsigned 16 i < 65536 := by
  unfold toUnsigned
  norm_num
  omega

theorem toUnsigned32_lt (i : Int) : toUnsigned 32 i < 4294967296 := by
  unfold toUnsigned
  norm_num
  omega

theorem readI16_at (pre rest : List Nat) (i : Int)
    (h1 : -32768 ≤ i) (h2 : i < 32768) :
    readI16 (pre ++ (u16le (toUnsigned 16 i) ++ rest)) pre.length
      = .ok (i, pre.length + 2) := by
  unfold readI16
  have h3 := readExactN_at pre (u16le (toUnsigned 16 i)) rest
  rw [u16le_length] at h3
  rw [h3]
  simp [leNat_u16le _ (toUnsigned16_lt i), toSigned16_toUnsigned16 i h1 h2]

theorem readI16_raw_at (pre rest : List Nat) (n : Nat) (h : n < 65536) :
    readI16 (pre ++ (u16le n ++ rest)) pre.length
      = .ok (toSigned 16 n, pre.length + 2) := by
  unfold readI16
  have h3 := readExactN_at pre (u16le n) rest
  rw [u16le_length] at h3
  rw [h3]
  simp [leNat_u16le n h]

theorem toSigned16_of_lt (n : Nat) (h : n < 32768) : toSigned 16 n = n := by
  unfold toSigned
  norm_num
  omega

theorem bindE_ok {A B : Type} (a : Except Err A) (f : A → Except Err B) (b : B)
    (h : bindE a f = .ok b) : ∃ x, a = .ok x ∧ f x = .ok b := by
  cases a with
  | error e => exact Except.noConfusion h
  | ok x => exact ⟨x, rfl, h⟩

theorem bindE_okArg {A B : Type} (x : A) (f : A → Except Err B) :
    bindE (.ok x) f = f x := rfl

theorem bindE_errArg {A B : Type} (e : Err) (f : A → Except Err B) :
    bindE (.error e) f = .error e := rfl

/-- Inversion for `Playlist.save`: a successful save is the header followed
by the four variable sections, and each section's encoder succeeded. -/
theorem save_ok_shape (pl : Playlist) (B : List Nat)
    (h : pl.save = .ok B) :
    ∃ tcb tb mcb mb,
      packU32 pl.tracks.length = .ok tcb
      ∧ packList Track.pack pl.tracks = .ok tb
      ∧ packI16 (pl.meta.length : Int) = .ok mcb
      ∧ packList (fun p => savePlaylistMetaEntry p.1 p.2) pl.meta = .ok mb
      ∧ B = magicDBPL ++ [1, 2] ++ tcb ++ tb ++ mcb ++ mb := by
  unfold Playlist.save at h
  obtain ⟨tcb, hq1, h⟩ := bindE_ok _ _ _ h
  obtain ⟨tb, hq2, h⟩ := bindE_ok _ _ _ h
  obtain ⟨mcb, hq3, h⟩ := bindE_ok _ _ _ h
  obtain ⟨mb, hq4, h⟩ := bindE_ok _ _ _ h
  injection h with h2
  exact ⟨tcb, tb, mcb, mb, hq1, hq2, hq3, hq4, h2.symm⟩

/-! ### The claims -/

/-- Claim C8: for every playlist, regardless of the version it was decoded
with, encoding writes the constant current version bytes major = 1 and
minor = 2 immediately after the magic — never the version that was read
(`Playlist.save` does not consult `major_version`/`minor_version`). -/
theorem save_writes_current_version (pl : Playlist) (B : List Nat)
    (h : pl.save = .ok B) : B.take 6 = [68, 66, 80, 76, 1, 2] := by
  obtain ⟨tcb, tb, mcb, mb, _, _, _, _, hB⟩ := save_ok_shape pl B h
  subst hB
  rfl

/-- Witness for C8 at the empty playlist. -/
theorem save_writes_current_version_witness :
    ([68, 66, 80, 76, 1, 2, 0, 0, 0, 0, 0, 0] : List Nat).take 6
      = [68, 66, 80, 76, 1, 2] :=
  save_writes_current_version
    { major_version := 7, minor_version := 9, tracks := [], meta := [] } _ rfl

/-- Claim C6: a stream whose first 4 bytes differ from `DBPL` fails with the
invalid-magic FormatError, and a `DBPL` stream with major ≠ 1 or minor = 0
fails with the corresponding version FormatError; no Playlist is produced. -/
theorem decode_rejects_bad_header :
    (∀ bytes : List Nat, bytes.take 4 ≠ magicDBPL →
      decodePlaylist bytes = .error .invalidMagic)
    ∧ (∀ (ma mi : Nat) (rest : List Nat), ma ≠ 1 ∨ mi = 0 →
      decodePlaylist (magicDBPL ++ ([ma, mi] ++ rest))
        = .error (if ma = 1 then .invalidMinor else .invalidMajor)) := by
  constructor
  · intro bytes h
    unfold decodePlaylist
    have hp : pyRead bytes 0 4 = bytes.take 4 := by simp [pyRead]
    rw [if_pos]
    rw [hp]
    exact h
  · intro ma mi rest h
    have hbytes : magicDBPL ++ ([ma, mi] ++ rest)
        = 68 :: 66 :: 80 :: 76 :: ma :: mi :: rest := by
      simp [magicDBPL]
    have hp : pyRead (68 :: 66 :: 80 :: 76 :: ma :: mi :: rest) 0 4
        = magicDBPL := rfl
    have hv : readExactN (68 :: 66 :: 80 :: 76 :: ma :: mi :: rest) 4 2
        = .ok ([ma, mi], 6) := rfl
    rw [hbytes]
    unfold decodePlaylist
    simp only [hp, hv, ne_eq, not_true_eq_false, if_false, List.getD_cons_zero,
      List.getD_cons_succ]
    rcases h with h | h
    · rcases eq_or_ne ma 1 with hm | hm
      · exact absurd hm h
      · simp [hm]
    · rcases eq_or_ne ma 1 with hm | hm <;> simp [h, hm]

/-- Witness for C6: a stream with wrong magic and a `DBPL` stream with
major version 2 are both rejected. -/
theorem decode_rejects_bad_header_witness :
    decodePlaylist [1, 2, 3] = .error .invalidMagic
      ∧ decodePlaylist (magicDBPL ++ ([2, 2] ++ []))
          = .error (if 2 = 1 then .invalidMinor else .invalidMajor) :=
  ⟨decode_rejects_bad_header.1 [1, 2, 3] (by decide),
   decode_rejects_bad_header.2 2 2 [] (by decide)⟩

/-- Claim C2 (code bug): on the minor < 2 path with start sample 1, the
statement `track.flags |= Flag.IS_SUBTRACK` or-s the `int` flags field with
a plain `Enum` member, so the decode raises TypeError instead of completing
with the is-subtrack bit set. -/
theorem subtrack_v1_typeerror :
    decodePlaylist subtrackV1Bytes = .error .typeError := by rfl

/-- Counterexample to claim C1: a playlist-scope metadata entry declaring
key length 20000 makes the decode raise the fatal
`ValueError('invalid length')` instead of skipping the pair. -/
theorem playlist_meta_badkey_cex :
    decodePlaylist plBadKeyBytes = .error .invalidLength := by rfl

/-- Claim C1 (amended): a playlist-scope metadata entry whose declared key
length is negative or ≥ 20000 raises a fatal error aborting the decode —
the skip policy at playlist scope applies only to value lengths, where the
stream is advanced past the declared length and decoding continues. -/
theorem playlist_meta_badkey_fatal :
    (∀ (pre rest : List Nat) (m : List (PyStr × PyVal)) (c n : Nat),
      n < 65536 → (toSigned 16 n < 0 ∨ 20000 ≤ toSigned 16 n) →
      decodePlaylistMetaLoop (pre ++ (u16le n ++ rest)) (c + 1) m pre.length
        = .error .invalidLength)
    ∧ (∀ (pre kb rest : List Nat) (key : PyStr) (m : List (PyStr × PyVal))
        (c vl : Nat),
      kb.length < 20000 → utf8Decode kb = some key →
      20000 ≤ vl → vl < 32768 →
      decodePlaylistMetaLoop
          (pre ++ (u16le kb.length ++ (kb ++ (u16le vl ++ rest))))
          (c + 1) m pre.length
        = decodePlaylistMetaLoop
            (pre ++ (u16le kb.length ++ (kb ++ (u16le vl ++ rest))))
            c m (pre.length + 4 + kb.length + vl)) := by
  constructor
  · intro pre rest m c n hn hbad
    unfold decodePlaylistMetaLoop
    rw [readI16_raw_at pre rest n hn]
    simp only []
    rw [if_pos hbad]
  · intro pre kb rest key m c vl hkl hkey hvl hvl2
    have hkl32 : toSigned 16 kb.length = kb.length :=
      toSigned16_of_lt _ (by omega)
    have hread : pyRead (pre ++ (u16le kb.length ++ (kb ++ (u16le vl ++ rest))))
        (pre.length + 2) kb.length = kb := by
      have h0 := pyRead_at (pre ++ u16le kb.length) kb (u16le vl ++ rest)
      simp only [List.length_append, u16le_length, List.append_assoc] at h0
      simpa using h0
    have hv : readI16 (pre ++ (u16le kb.length ++ (kb ++ (u16le vl ++ rest))))
        (pre.length + 2 + kb.length)
        = .ok ((vl : Int), pre.length + 2 + kb.length + 2) := by
      have h0 := readI16_raw_at (pre ++ (u16le kb.length ++ kb)) rest vl (by omega)
      simp only [List.length_append, u16le_length, List.append_assoc,
        toSigned16_of_lt vl hvl2] at h0
      simpa [Nat.add_assoc] using h0
    simp only [decodePlaylistMetaLoop,
      readI16_raw_at pre (kb ++ (u16le vl ++ rest)) kb.length
        (by omega : kb.length < 65536), hkl32]
    rw [if_neg (by omega)]
    simp only [Int.toNat_natCast, hread, hkey, hv]
    rw [if_pos (by omega)]
    rw [if_neg (by omega)]
    congr 1
    push_cast
    omega

/-- Witness for the amended C1: key length 20000 is fatal; a value length
20000 skips 20000 bytes and continues. -/
theorem playlist_meta_badkey_fatal_witness :
    decodePlaylistMetaLoop (([] : List Nat) ++ (u16le 20000 ++ [])) 1 []
        ([] : List Nat).length
        = .error .invalidLength
      ∧ decodePlaylistMetaLoop
          (([] : List Nat) ++ (u16le 1 ++ ([65] ++ (u16le 20000 ++ [])))) 1 []
          ([] : List Nat).length
        = decodePlaylistMetaLoop
            (([] : List Nat) ++ (u16le 1 ++ ([65] ++ (u16le 20000 ++ [])))) 0 []
            (([] : List Nat).length + 4 + ([65] : List Nat).length + 20000) :=
  ⟨playlist_meta_badkey_fatal.1 [] [] [] 0 20000 (by decide) (by decide),
   playlist_meta_badkey_fatal.2 [] [65] [] [65] [] 0 20000 (by decide) (by decide)
     (by decide) (by decide)⟩

/-- Claim C4: during track-scope metadata decode, a declared key length
≥ 20000 raises the fatal `ValueError('invalid key length')` (while any key
length < 20000, such as 19999, passes the check), whereas a declared value
length ≥ 20000 only skips the pair: the stream advances past the declared
length, the pair is absent from the track's metadata, and decoding of the
remaining entries continues. -/
theorem track_meta_key_fatal_value_skip :
    (∀ (pre rest : List Nat) (t : Track) (c kl : Nat),
      20000 ≤ kl → kl < 65536 →
      decodeTrackMetaLoop (pre ++ (u16le kl ++ rest)) (c + 1) t pre.length
        = .error .invalidKeyLength)
    ∧ (∀ (pre kb rest : List Nat) (key : PyStr) (t : Track) (c vl : Nat),
      kb.length < 20000 → utf8Decode kb = some key →
      20000 ≤ vl → vl < 65536 →
      decodeTrackMetaLoop
          (pre ++ (u16le kb.length ++ (kb ++ (u16le vl ++ rest))))
          (c + 1) t pre.length
        = decodeTrackMetaLoop
            (pre ++ (u16le kb.length ++ (kb ++ (u16le vl ++ rest))))
            c t (pre.length + 4 + kb.length + vl)) := by
  constructor
  · intro pre rest t c kl hkl hkl2
    simp only [decodeTrackMetaLoop, readU16_at pre rest kl hkl2]
    rw [if_pos hkl]
  · intro pre kb rest key t c vl hkl hkey hvl hvl2
    have hread : pyRead (pre ++ (u16le kb.length ++ (kb ++ (u16le vl ++ rest))))
        (pre.length + 2) kb.length = kb := by
      have h0 := pyRead_at (pre ++ u16le kb.length) kb (u16le vl ++ rest)
      simp only [List.length_append, u16le_length, List.append_assoc] at h0
      simpa using h0
    have hv : readU16 (pre ++ (u16le kb.length ++ (kb ++ (u16le vl ++ rest))))
        (pre.length + 2 + kb.length)
        = .ok (vl, pre.length + 2 + kb.length + 2) := by
      have h0 := readU16_at (pre ++ (u16le kb.length ++ kb)) rest vl hvl2
      simp only [List.length_append, u16le_length, List.append_assoc] at h0
      simpa [Nat.add_assoc] using h0
    simp only [decodeTrackMetaLoop,
      readU16_at pre (kb ++ (u16le vl ++ rest)) kb.length
        (by omega : kb.length < 65536)]
    rw [if_neg (by omega)]
    simp only [hread, hkey, hv]
    rw [if_pos hvl]
    congr 1
    omega

/-- Witness for C4: key length 20000 is fatal; value length 20000 under key
`"A"` skips and continues. -/
theorem track_meta_key_fatal_value_skip_witness :
    decodeTrackMetaLoop (([] : List Nat) ++ (u16le 20000 ++ [])) 1 Track.init
        ([] : List Nat).length
        = .error .invalidKeyLength
      ∧ decodeTrackMetaLoop
          (([] : List Nat) ++ (u16le 1 ++ ([65] ++ (u16le 20000 ++ [])))) 1
          Track.init ([] : List Nat).length
        = decodeTrackMetaLoop
            (([] : List Nat) ++ (u16le 1 ++ ([65] ++ (u16le 20000 ++ [])))) 0
            Track.init
            (([] : List Nat).length + 4 + ([65] : List Nat).length + 20000) :=
  ⟨track_meta_key_fatal_value_skip.1 [] [] Track.init 0 20000 (by decide)
      (by decide),
   track_meta_key_fatal_value_skip.2 [] [65] [] [65] Track.init 0 20000
      (by decide) (by decide) (by decide) (by decide)⟩

/-- Claim C5: in the minor ≤ 2 track layout, a declared decoder-name length
≥ 20 raises the fatal `ValueError('invalid decoder length')` before the name
is read, and the error propagates through the track loop, aborting the whole
playlist decode; a declared length of exactly 19 passes the check and the
track decode proceeds past the decoder field. -/
theorem decoder_len_boundary :
    (∀ (pre ub rest : List Nat) (u : PyStr) (minor d : Nat),
      minor ≤ 2 → ub.length < 65536 → utf8Decode ub = some u → 20 ≤ d →
      decodeTrack (pre ++ (u16le ub.length ++ (ub ++ ([d] ++ rest))))
          minor pre.length
        = .error .invalidDecoderLength)
    ∧ (∀ (pre ub db rest : List Nat) (u dec : PyStr) (minor nn : Nat),
      minor ≤ 2 → ub.length < 65536 → utf8Decode ub = some u →
      db.length = 19 → utf8Decode db = some dec → nn < 65536 →
      decodeTrack
          (pre ++ (u16le ub.length ++ (ub ++ ([19] ++ (db ++ (u16le nn ++ rest))))))
          minor pre.length
        = decodeTrackBody
            (pre ++ (u16le ub.length ++ (ub ++ ([19] ++ (db ++ (u16le nn ++ rest))))))
            minor { Track.init with uri := u, decoder := dec, num := toSigned 16 nn }
            (pre.length + 24 + ub.length))
    ∧ (∀ (bytes : List Nat) (minor n : Nat) (acc : List Track) (pos : Nat) (e : Err),
      decodeTrack bytes minor pos = .error e →
      decodeTracksLoop bytes minor (n + 1) acc pos = .error e) := by
  refine ⟨?_, ?_, ?_⟩
  · intro pre ub rest u minor d hminor hul hu hd
    unfold decodeTrack
    rw [if_pos hminor]
    have hreadu : pyRead (pre ++ (u16le ub.length ++ (ub ++ ([d] ++ rest))))
        (pre.length + 2) ub.length = ub := by
      have h0 := pyRead_at (pre ++ u16le ub.length) ub ([d] ++ rest)
      simp only [List.length_append, u16le_length, List.append_assoc] at h0
      simpa using h0
    have hd8 : readU8 (pre ++ (u16le ub.length ++ (ub ++ ([d] ++ rest))))
        (pre.length + 2 + ub.length)
        = .ok (d, pre.length + 2 + ub.length + 1) := by
      have h0 := readU8_at (pre ++ (u16le ub.length ++ ub)) rest d
      simp only [List.length_append, u16le_length, List.append_assoc] at h0
      simpa [Nat.add_assoc] using h0
    simp only [readU16_at pre (ub ++ ([d] ++ rest)) ub.length hul,
      hreadu, hu, hd8]
    rw [if_pos hd]
  · intro pre ub db rest u dec minor nn hminor hul hu hdb hdec hnn
    unfold decodeTrack
    rw [if_pos hminor]
    have hreadu : pyRead
        (pre ++ (u16le ub.length ++ (ub ++ ([19] ++ (db ++ (u16le nn ++ rest))))))
        (pre.length + 2) ub.length = ub := by
      have h0 := pyRead_at (pre ++ u16le ub.length) ub
        ([19] ++ (db ++ (u16le nn ++ rest)))
      simp only [List.length_append, u16le_length, List.append_assoc] at h0
      simpa using h0
    have hd8 : readU8
        (pre ++ (u16le ub.length ++ (ub ++ ([19] ++ (db ++ (u16le nn ++ rest))))))
        (pre.length + 2 + ub.length)
        = .ok (19, pre.length + 2 + ub.length + 1) := by
      have h0 := readU8_at (pre ++ (u16le ub.length ++ ub)) (db ++ (u16le nn ++ rest)) 19
      simp only [List.length_append, u16le_length, List.append_assoc] at h0
      simpa [Nat.add_assoc] using h0
    have hreadd : pyRead
        (pre ++ (u16le ub.length ++ (ub ++ ([19] ++ (db ++ (u16le nn ++ rest))))))
        (pre.length + 2 + ub.length + 1) 19 = db := by
      have h0 := pyRead_at (pre ++ (u16le ub.length ++ (ub ++ [19]))) db
        (u16le nn ++ rest)
      simp only [List.length_append, u16le_length, List.append_assoc,
        List.length_cons, List.length_nil, hdb] at h0
      simpa [Nat.add_assoc] using h0
    have hpos : (pre ++ (u16le ub.length ++ (ub ++ ([19] ++ db)))).length
        = pre.length + 2 + ub.length + 1 + db.length := by
      simp [u16le_length]
      omega
    have hread16 : readI16
        (pre ++ (u16le ub.length ++ (ub ++ ([19] ++ (db ++ (u16le nn ++ rest))))))
        (pre.length + 2 + ub.length + 1 + db.length)
        = .ok (toSigned 16 nn, pre.length + 2 + ub.length + 1 + db.length + 2) := by
      have h0 := readI16_raw_at (pre ++ (u16le ub.length ++ (ub ++ ([19] ++ db))))
        rest nn hnn
      rw [hpos] at h0
      simpa only [List.append_assoc, List.cons_append, List.nil_append] using h0
    simp only [readU16_at pre (ub ++ ([19] ++ (db ++ (u16le nn ++ rest))))
        ub.length hul, hreadu, hu, hd8]
    rw [if_neg (by omega)]
    simp only [if_pos (show (19 : Nat) ≠ 0 by omega)]
    simp only [hreadd, hdec, hread16]
    congr 1
    omega
  · intro bytes minor n acc pos e h
    simp only [decodeTracksLoop, h]

/-- Witness for C5: decoder length 20 on an empty uri is fatal; a 19-byte
decoder name decodes and the track decode proceeds; a failing track aborts
the loop. -/
theorem decoder_len_boundary_witness :
    decodeTrack (([] : List Nat) ++ (u16le 0 ++ ([] ++ ([20] ++ [])))) 2
        ([] : List Nat).length
      = .error .invalidDecoderLength
    ∧ decodeTrack
        (([] : List Nat)
          ++ (u16le 0 ++ ([] ++ ([19] ++ (List.replicate 19 97 ++ (u16le 0 ++ []))))))
        2 ([] : List Nat).length
      = decodeTrackBody
          (([] : List Nat)
            ++ (u16le 0 ++ ([] ++ ([19] ++ (List.replicate 19 97 ++ (u16le 0 ++ []))))))
          2 { Track.init with uri := [], decoder := List.replicate 19 97, num := toSigned 16 0 }
          (([] : List Nat).length + 24 + ([] : List Nat).length)
    ∧ decodeTracksLoop ([] : List Nat) 2 1 [] 0 = .error .structError :=
  ⟨decoder_len_boundary.1 [] [] [] [] 2 20 (by decide) (by decide) (by decide)
      (by decide),
   decoder_len_boundary.2.1 [] [] (List.replicate 19 97) [] []
      (List.replicate 19 97) 2 0 (by decide) (by decide) (by decide) (by decide)
      (by decide) (by decide),
   decoder_len_boundary.2.2 [] 2 0 [] 0 .structError rfl⟩

/-- Counterexample to claim C7: a successfully read track-scope pair whose
key is the empty string is not stored verbatim — `key[0]` raises a fatal
IndexError and the whole decode aborts. -/
theorem track_meta_empty_key_cex :
    decodePlaylist emptyKeyBytes = .error .indexError := by rfl

/-- Claim C7 (amended): a successfully read track-scope pair with key
`:STARTSAMPLE` or `:ENDSAMPLE` has its value parsed as an integer and written
through the setter (dedicated field plus shadow metadata entry) instead of
being stored as an ordinary entry; every other **nonempty** key — including
other colon-prefixed keys — is stored verbatim in the generic metadata map
(an empty key raises a fatal IndexError). -/
theorem track_meta_interception :
    (∀ (pre kb vb rest : List Nat) (key : PyStr) (t : Track) (c : Nat) (n : Int),
      kb.length < 20000 → vb.length < 20000 → utf8Decode kb = some key →
      key = sSS → parseInt vb = some n →
      decodeTrackMetaLoop
          (pre ++ (u16le kb.length ++ (kb ++ (u16le vb.length ++ (vb ++ rest)))))
          (c + 1) t pre.length
        = decodeTrackMetaLoop
            (pre ++ (u16le kb.length ++ (kb ++ (u16le vb.length ++ (vb ++ rest)))))
            c (t.set_startsample n) (pre.length + 4 + kb.length + vb.length))
    ∧ (∀ (pre kb vb rest : List Nat) (key : PyStr) (t : Track) (c : Nat) (n : Int),
      kb.length < 20000 → vb.length < 20000 → utf8Decode kb = some key →
      key = sES → parseInt vb = some n →
      decodeTrackMetaLoop
          (pre ++ (u16le kb.length ++ (kb ++ (u16le vb.length ++ (vb ++ rest)))))
          (c + 1) t pre.length
        = decodeTrackMetaLoop
            (pre ++ (u16le kb.length ++ (kb ++ (u16le vb.length ++ (vb ++ rest)))))
            c (t.set_endsample n) (pre.length + 4 + kb.length + vb.length))
    ∧ (∀ (pre kb vb rest : List Nat) (key v : PyStr) (t : Track) (c : Nat),
      kb.length < 20000 → vb.length < 20000 → utf8Decode kb = some key →
      key ≠ [] → key ≠ sSS → key ≠ sES → utf8Decode vb = some v →
      decodeTrackMetaLoop
          (pre ++ (u16le kb.length ++ (kb ++ (u16le vb.length ++ (vb ++ rest)))))
          (c + 1) t pre.length
        = decodeTrackMetaLoop
            (pre ++ (u16le kb.length ++ (kb ++ (u16le vb.length ++ (vb ++ rest)))))
            c { t with meta := dictInsert t.meta key (.str v) }
            (pre.length + 4 + kb.length + vb.length)) := by
  have step : ∀ (pre kb vb rest : List Nat) (key : PyStr) (t : Track) (c : Nat),
      kb.length < 20000 → vb.length < 20000 → utf8Decode kb = some key →
      decodeTrackMetaLoop
          (pre ++ (u16le kb.length ++ (kb ++ (u16le vb.length ++ (vb ++ rest)))))
          (c + 1) t pre.length
        = (match key with
            | [] => .error .indexError
            | c0 :: _ =>
              if c0 = 58 then
                if key = sSS then
                  match parseInt vb with
                  | none => .error .intValueError
                  | some n =>
                    decodeTrackMetaLoop
                      (pre ++ (u16le kb.length ++ (kb ++ (u16le vb.length ++ (vb ++ rest)))))
                      c (t.set_startsample n) (pre.length + 2 + kb.length + 2 + vb.length)
                else if key = sES then
                  match parseInt vb with
                  | none => .error .intValueError
                  | some n =>
                    decodeTrackMetaLoop
                      (pre ++ (u16le kb.length ++ (kb ++ (u16le vb.length ++ (vb ++ rest)))))
                      c (t.set_endsample n) (pre.length + 2 + kb.length + 2 + vb.length)
                else
                  match utf8Decode vb with
                  | none => .error .unicodeDecodeError
                  | some v =>
                    decodeTrackMetaLoop
                      (pre ++ (u16le kb.length ++ (kb ++ (u16le vb.length ++ (vb ++ rest)))))
                      c { t with meta := dictInsert t.meta key (.str v) }
                      (pre.length + 2 + kb.length + 2 + vb.length)
              else
                match utf8Decode vb with
                | none => .error .unicodeDecodeError
                | some v =>
                  decodeTrackMetaLoop
                    (pre ++ (u16le kb.length ++ (kb ++ (u16le vb.length ++ (vb ++ rest)))))
                    c { t with meta := dictInsert t.meta key (.str v) }
                    (pre.length + 2 + kb.length + 2 + vb.length)) := by
    intro pre kb vb rest key t c hkl hvl hkey
    have hread : pyRead
        (pre ++ (u16le kb.length ++ (kb ++ (u16le vb.length ++ (vb ++ rest)))))
        (pre.length + 2) kb.length = kb := by
      have h0 := pyRead_at (pre ++ u16le kb.length) kb
        (u16le vb.length ++ (vb ++ rest))
      simp only [List.length_append, u16le_length, List.append_assoc] at h0
      simpa using h0
    have hv16 : readU16
        (pre ++ (u16le kb.length ++ (kb ++ (u16le vb.length ++ (vb ++ rest)))))
        (pre.length + 2 + kb.length)
        = .ok (vb.length, pre.length + 2 + kb.length + 2) := by
      have h0 := readU16_at (pre ++ (u16le kb.length ++ kb)) (vb ++ rest)
        vb.length (by omega)
      simp only [List.length_append, u16le_length, List.append_assoc] at h0
      simpa [Nat.add_assoc] using h0
    have hreadv : pyRead
        (pre ++ (u16le kb.length ++ (kb ++ (u16le vb.length ++ (vb ++ rest)))))
        (pre.length + 2 + kb.length + 2) vb.length = vb := by
      have h0 := pyRead_at (pre ++ (u16le kb.length ++ (kb ++ u16le vb.length)))
        vb rest
      simp only [List.length_append, u16le_length, List.append_assoc] at h0
      simpa [Nat.add_assoc] using h0
    simp only [decodeTrackMetaLoop,
      readU16_at pre (kb ++ (u16le vb.length ++ (vb ++ rest))) kb.length
        (by omega : kb.length < 65536)]
    rw [if_neg (by omega)]
    simp only [hread, hkey, hv16]
    rw [if_neg (by omega)]
    simp only [hreadv]
  refine ⟨?_, ?_, ?_⟩
  · intro pre kb vb rest key t c n hkl hvl hkey hkeq hpi
    subst hkeq
    rw [step pre kb vb rest sSS t c hkl hvl hkey]
    have hne : sSS = 58 :: [83, 84, 65, 82, 84, 83, 65, 77, 80, 76, 69] := rfl
    rw [hne]
    simp only [↓reduceIte, ← hne, hpi]
    have hpos : pre.length + 2 + kb.length + 2 + vb.length
        = pre.length + 4 + kb.length + vb.length := by omega
    rw [hpos]
  · intro pre kb vb rest key t c n hkl hvl hkey hkeq hpi
    subst hkeq
    rw [step pre kb vb rest sES t c hkl hvl hkey]
    have hne : sES = 58 :: [69, 78, 68, 83, 65, 77, 80, 76, 69] := rfl
    rw [hne]
    simp only [↓reduceIte, ← hne, hpi]
    have hpos : pre.length + 2 + kb.length + 2 + vb.length
        = pre.length + 4 + kb.length + vb.length := by omega
    rw [hpos]
    rw [if_neg (by decide : ¬sES = sSS)]
  · intro pre kb vb rest key v t c hkl hvl hkey hne hnss hnes hv
    rw [step pre kb vb rest key t c hkl hvl hkey]
    obtain ⟨c0, kt, rfl⟩ : ∃ c0 kt, key = c0 :: kt := by
      cases key with
      | nil => exact absurd rfl hne
      | cons a b => exact ⟨a, b, rfl⟩
    simp only []
    have hpos : pre.length + 2 + kb.length + 2 + vb.length
        = pre.length + 4 + kb.length + vb.length := by omega
    by_cases hc0 : c0 = 58
    · rw [if_pos hc0, if_neg hnss, if_neg hnes, hv, hpos]
    · rw [if_neg hc0, hv, hpos]

/-- Witness for the amended C7: `:STARTSAMPLE ↦ "7"` goes through the setter,
`:ENDSAMPLE ↦ "-3"` likewise, and the colon key `":A"` is stored verbatim. -/
theorem track_meta_interception_witness :
    decodeTrackMetaLoop
        (([] : List Nat) ++ (u16le sSS.length ++ (sSS ++ (u16le ([55] : List Nat).length ++ ([55] ++ [])))))
        1 Track.init ([] : List Nat).length
      = decodeTrackMetaLoop
          (([] : List Nat) ++ (u16le sSS.length ++ (sSS ++ (u16le ([55] : List Nat).length ++ ([55] ++ [])))))
          0 (Track.init.set_startsample 7)
          (([] : List Nat).length + 4 + sSS.length + ([55] : List Nat).length)
    ∧ decodeTrackMetaLoop
        (([] : List Nat) ++ (u16le sES.length ++ (sES ++ (u16le ([45, 51] : List Nat).length ++ ([45, 51] ++ [])))))
        1 Track.init ([] : List Nat).length
      = decodeTrackMetaLoop
          (([] : List Nat) ++ (u16le sES.length ++ (sES ++ (u16le ([45, 51] : List Nat).length ++ ([45, 51] ++ [])))))
          0 (Track.init.set_endsample (-3))
          (([] : List Nat).length + 4 + sES.length + ([45, 51] : List Nat).length)
    ∧ decodeTrackMetaLoop
        (([] : List Nat) ++ (u16le ([58, 65] : List Nat).length ++ ([58, 65] ++ (u16le ([120] : List Nat).length ++ ([120] ++ [])))))
        1 Track.init ([] : List Nat).length
      = decodeTrackMetaLoop
          (([] : List Nat) ++ (u16le ([58, 65] : List Nat).length ++ ([58, 65] ++ (u16le ([120] : List Nat).length ++ ([120] ++ [])))))
          0 { Track.init with meta := dictInsert Track.init.meta [58, 65] (.str [120]) }
          (([] : List Nat).length + 4 + ([58, 65] : List Nat).length + ([120] : List Nat).length) :=
  ⟨track_meta_interception.1 [] sSS [55] [] sSS Track.init 0 7 (by decide)
      (by decide) (by decide) (by decide) (by decide),
   track_meta_interception.2.1 [] sES [45, 51] [] sES Track.init 0 (-3)
      (by decide) (by decide) (by decide) (by decide) (by decide),
   track_meta_interception.2.2 [] [58, 65] [120] [] [58, 65] [120] Track.init 0
      (by decide) (by decide) (by decide) (by decide) (by decide) (by decide)
      (by decide)⟩

/-! ### Inversion lemmas for the scalar encoders -/

theorem packU16_ok (n : Nat) (b : List Nat) (h : packU16 n = .ok b) :
    n < 65536 ∧ b = u16le n := by
  unfold packU16 at h
  split at h
  · exact ⟨by assumption, by injection h with h2; exact h2.symm⟩
  · exact Except.noConfusion h

theorem packU32_ok (n : Nat) (b : List Nat) (h : packU32 n = .ok b) :
    n < 4294967296 ∧ b = u32le n := by
  unfold packU32 at h
  split at h
  · exact ⟨by assumption, by injection h with h2; exact h2.symm⟩
  · exact Except.noConfusion h

theorem packI16_ok (i : Int) (b : List Nat) (h : packI16 i = .ok b) :
    -32768 ≤ i ∧ i < 32768 ∧ b = u16le (toUnsigned 16 i) := by
  unfold packI16 at h
  split at h
  · rename_i hc
    exact ⟨hc.1, hc.2, by injection h with h2; exact h2.symm⟩
  · exact Except.noConfusion h

theorem packI32_ok (i : Int) (b : List Nat) (h : packI32 i = .ok b) :
    -2147483648 ≤ i ∧ i < 2147483648 ∧ b = u32le (toUnsigned 32 i) := by
  unfold packI32 at h
  split at h
  · rename_i hc
    exact ⟨hc.1, hc.2, by injection h with h2; exact h2.symm⟩
  · exact Except.noConfusion h

theorem appendByte_ok (n : Nat) (b : List Nat) (h : appendByte n = .ok b) :
    n < 256 ∧ b = [n] := by
  unfold appendByte at h
  split at h
  · exact ⟨by assumption, by injection h with h2; exact h2.symm⟩
  · exact Except.noConfusion h

/-! ### Lemmas about UTF-8 encoding -/

theorem utf8Encode_nil : utf8Encode [] = [] := rfl

theorem utf8Encode_cons (c : Nat) (s : PyStr) :
    utf8Encode (c :: s) = utf8EncodeChar c ++ utf8Encode s := by
  simp [utf8Encode]

theorem utf8EncodeChar_length_pos (c : Nat) : 0 < (utf8EncodeChar c).length := by
  unfold utf8EncodeChar
  split_ifs <;> simp

theorem utf8Encode_eq_nil_iff (s : PyStr) : utf8Encode s = [] ↔ s = [] := by
  cases s with
  | nil => simp [utf8Encode_nil]
  | cons c s =>
    rw [utf8Encode_cons]
    constructor
    · intro h
      exfalso
      have hpos := utf8EncodeChar_length_pos c
      have h2 : (utf8EncodeChar c).length + (utf8Encode s).length = 0 := by
        rw [← List.length_append, h]
        rfl
      omega
    · intro h
      exact List.noConfusion h

theorem utf8Encode_guard (s : PyStr) :
    (if s.length ≠ 0 then utf8Encode s else []) = utf8Encode s := by
  cases s with
  | nil => simp [utf8Encode_nil]
  | cons c s => simp

theorem self_guard (l : List Nat) :
    (if l.length ≠ 0 then l else []) = l := by
  cases l with
  | nil => simp
  | cons c s => simp

theorem ascii_encode_char (c : Nat) (h : c < 128) : utf8EncodeChar c = [c] := by
  unfold utf8EncodeChar
  rw [if_pos h]

theorem ascii_encode (s : PyStr) (h : ∀ c ∈ s, c < 128) : utf8Encode s = s := by
  induction s with
  | nil => rfl
  | cons c t ih =>
    rw [utf8Encode_cons, ascii_encode_char c (h c (by simp)),
      ih (fun x hx => h x (by simp [hx]))]
    rfl

/-- Claim C9: `Playlist.save` computes metadata length prefixes from the
character counts of the strings before encoding, so whenever key and value
consist only of characters that encode to one byte each, the written prefix
equals the number of bytes written; `Track.pack` computes them from the
already-encoded byte strings, so there they always equal the bytes written. -/
theorem meta_prefix_char_vs_byte :
    (∀ (k : PyStr) (v : PyVal) (e : List Nat),
      savePlaylistMetaEntry k v = .ok e →
      e = u16le k.length ++ utf8Encode k
          ++ u16le (pyStrOf v).length ++ utf8Encode (pyStrOf v))
    ∧ (∀ (k : PyStr) (v : PyVal) (e : List Nat),
      (∀ c ∈ k, c < 128) → (∀ c ∈ pyStrOf v, c < 128) →
      savePlaylistMetaEntry k v = .ok e →
      e = u16le (utf8Encode k).length ++ utf8Encode k
          ++ u16le (utf8Encode (pyStrOf v)).length ++ utf8Encode (pyStrOf v))
    ∧ (∀ (k : PyStr) (v : PyVal) (e : List Nat),
      packTrackMetaEntry k v = .ok e →
      e = u16le (utf8Encode k).length ++ utf8Encode k
          ++ u16le (utf8Encode (pyStrOf v)).length ++ utf8Encode (pyStrOf v)) := by
  have base : ∀ (k : PyStr) (v : PyVal) (e : List Nat),
      savePlaylistMetaEntry k v = .ok e →
      e = u16le k.length ++ utf8Encode k
          ++ u16le (pyStrOf v).length ++ utf8Encode (pyStrOf v) := by
    intro k v e h
    unfold savePlaylistMetaEntry at h
    obtain ⟨klb, hq1, h⟩ := bindE_ok _ _ _ h
    obtain ⟨vlb, hq2, h⟩ := bindE_ok _ _ _ h
    injection h with h2
    obtain ⟨-, rfl⟩ := packU16_ok _ _ hq1
    obtain ⟨-, rfl⟩ := packU16_ok _ _ hq2
    rw [← h2, utf8Encode_guard, utf8Encode_guard]
  refine ⟨base, ?_, ?_⟩
  · intro k v e hk hv h
    have hlk : (utf8Encode k).length = k.length := by
      rw [ascii_encode k hk]
    have hlv : (utf8Encode (pyStrOf v)).length = (pyStrOf v).length := by
      rw [ascii_encode _ hv]
    rw [hlk, hlv]
    exact base k v e h
  · intro k v e h
    unfold packTrackMetaEntry at h
    obtain ⟨klb, hq1, h⟩ := bindE_ok _ _ _ h
    obtain ⟨vlb, hq2, h⟩ := bindE_ok _ _ _ h
    injection h with h2
    obtain ⟨-, rfl⟩ := packU16_ok _ _ hq1
    obtain ⟨-, rfl⟩ := packU16_ok _ _ hq2
    rw [← h2]
    rw [show (if (utf8Encode k).length ≠ 0 then utf8Encode k else [])
        = utf8Encode k from self_guard _]
    rw [show (if (utf8Encode (pyStrOf v)).length ≠ 0 then utf8Encode (pyStrOf v) else [])
        = utf8Encode (pyStrOf v) from self_guard _]

/-- Witness for C9 at the ASCII entry `A ↦ xy` for the playlist scope and the
non-ASCII entry `é ↦ 7` (stored as the int 7) for the track scope. -/
theorem meta_prefix_char_vs_byte_witness :
    ([2, 0, 65, 66, 1, 0, 120] : List Nat)
        = u16le ([65, 66] : PyStr).length ++ utf8Encode [65, 66]
          ++ u16le (pyStrOf (.str [120])).length ++ utf8Encode (pyStrOf (.str [120]))
      ∧ ([2, 0, 65, 66, 1, 0, 120] : List Nat)
        = u16le (utf8Encode [65, 66]).length ++ utf8Encode [65, 66]
          ++ u16le (utf8Encode (pyStrOf (.str [120]))).length
          ++ utf8Encode (pyStrOf (.str [120]))
      ∧ ([2, 0, 195, 169, 1, 0, 55] : List Nat)
        = u16le (utf8Encode [233]).length ++ utf8Encode [233]
          ++ u16le (utf8Encode (pyStrOf (.int 7))).length
          ++ utf8Encode (pyStrOf (.int 7)) :=
  ⟨meta_prefix_char_vs_byte.1 [65, 66] (.str [120]) [2, 0, 65, 66, 1, 0, 120] rfl,
   meta_prefix_char_vs_byte.2.1 [65, 66] (.str [120]) [2, 0, 65, 66, 1, 0, 120]
      (by decide) (by decide) rfl,
   meta_prefix_char_vs_byte.2.2 [233] (.int 7) [2, 0, 195, 169, 1, 0, 55] rfl⟩

/-! ### Dict lemmas -/

theorem dictLookup_insert_self (m : List (PyStr × PyVal)) (k : PyStr) (v : PyVal) :
    dictLookup (dictInsert m k v) k = some v := by
  induction m with
  | nil => simp [dictInsert, dictLookup]
  | cons p rest ih =>
    obtain ⟨k0, v0⟩ := p
    by_cases hk : k0 = k
    · simp [dictInsert, dictLookup, hk]
    · simp [dictInsert, dictLookup, hk, ih]

/-- Inversion for `Track.pack`: a successful pack is the concatenation of the
field encodings, and every field encoder succeeded. -/
theorem pack_ok_shape (t : Track) (B : List Nat) (h : t.pack = .ok B) :
    ∃ (u : PyStr) (ulb dlb nb ssb esb ftlb flb : List Nat)
      (wm : List (PyStr × PyVal)) (mcb mb : List Nat),
      t.get_uri = .str u
      ∧ packU16 (utf8Encode u).length = .ok ulb
      ∧ (if t.decoder ≠ [] then appendByte (utf8Encode t.decoder).length
         else .ok [0]) = .ok dlb
      ∧ packI16 t.num = .ok nb
      ∧ packI32Val t.get_startsample = .ok ssb
      ∧ packI32Val t.get_endsample = .ok esb
      ∧ appendByte (utf8Encode t.filetype).length = .ok ftlb
      ∧ packU32 t.flags = .ok flb
      ∧ writableMeta t.meta = .ok wm
      ∧ packI16 (wm.length : Int) = .ok mcb
      ∧ packList (fun p => packTrackMetaEntry p.1 p.2) wm = .ok mb
      ∧ B = ulb ++ utf8Encode u ++ dlb
            ++ (if t.decoder ≠ [] then utf8Encode t.decoder else [])
            ++ nb ++ ssb ++ esb ++ u32le t.duration ++ ftlb
            ++ (if t.filetype ≠ [] then utf8Encode t.filetype else [])
            ++ u32le t.replaygain_albumgain ++ u32le t.replaygain_albumpeak
            ++ u32le t.replaygain_trackgain ++ u32le t.replaygain_trackpeak
            ++ flb ++ mcb ++ mb := by
  unfold Track.pack at h
  cases hu : t.get_uri with
  | int n => rw [hu] at h; exact Except.noConfusion h
  | str u =>
    rw [hu] at h
    simp only [] at h
    obtain ⟨ulb, hq1, h⟩ := bindE_ok _ _ _ h
    obtain ⟨dlb, hq2, h⟩ := bindE_ok _ _ _ h
    obtain ⟨nb, hq3, h⟩ := bindE_ok _ _ _ h
    obtain ⟨ssb, hq4, h⟩ := bindE_ok _ _ _ h
    obtain ⟨esb, hq5, h⟩ := bindE_ok _ _ _ h
    obtain ⟨ftlb, hq6, h⟩ := bindE_ok _ _ _ h
    obtain ⟨flb, hq7, h⟩ := bindE_ok _ _ _ h
    obtain ⟨wm, hq8, h⟩ := bindE_ok _ _ _ h
    obtain ⟨mcb, hq9, h⟩ := bindE_ok _ _ _ h
    obtain ⟨mb, hq10, h⟩ := bindE_ok _ _ _ h
    injection h with h2
    exact ⟨u, ulb, dlb, nb, ssb, esb, ftlb, flb, wm, mcb, mb,
      rfl, hq1, hq2, hq3, hq4, hq5, hq6, hq7, hq8, hq9, hq10, h2.symm⟩

/-- Claim C10: a Track maintains a `:URI` shadow metadata entry: `set_uri`
writes both the field and `meta[':URI']`; `get_uri` returns the shadow entry
when present, falling back to the field; and `Track.pack` writes the
shadow-aware `get_uri` into the uri section, so a `:URI` metadata entry
overrides the field in the encoded bytes. -/
theorem uri_shadow :
    (∀ (t : Track) (u : PyStr),
      (t.set_uri u).uri = u ∧ dictLookup (t.set_uri u).meta sURI = some (.str u))
    ∧ (∀ (t : Track) (v : PyVal), dictLookup t.meta sURI = some v → t.get_uri = v)
    ∧ (∀ t : Track, dictLookup t.meta sURI = none → t.get_uri = .str t.uri)
    ∧ (∀ (t : Track) (s : PyStr) (B : List Nat),
      dictLookup t.meta sURI = some (.str s) → t.pack = .ok B →
      B.take (2 + (utf8Encode s).length)
        = u16le (utf8Encode s).length ++ utf8Encode s) := by
  refine ⟨?_, ?_, ?_, ?_⟩
  · intro t u
    exact ⟨rfl, dictLookup_insert_self t.meta sURI (.str u)⟩
  · intro t v h
    unfold Track.get_uri
    rw [h]
  · intro t h
    unfold Track.get_uri
    rw [h]
  · intro t s B hlook hpack
    obtain ⟨u, ulb, dlb, nb, ssb, esb, ftlb, flb, wm, mcb, mb,
      hu, hq1, hq2, hq3, hq4, hq5, hq6, hq7, hq8, hq9, hq10, hB⟩ :=
      pack_ok_shape t B hpack
    have hus : PyVal.str u = PyVal.str s := by
      rw [← hu]
      unfold Track.get_uri
      rw [hlook]
    rw [PyVal.str.injEq] at hus
    subst hus
    obtain ⟨hlen, rfl⟩ := packU16_ok _ _ hq1
    rw [hB]
    simp only [List.append_assoc]
    rw [show 2 + (utf8Encode u).length
        = (u16le (utf8Encode u).length).length + (utf8Encode u).length from by
      rw [u16le_length]]
    rw [List.take_append]
    rw [List.take_left]

/-- Witness for C10 on a track whose field says `"b"` but whose `:URI` shadow
entry says `"a"`: the setter, both getter branches, and the packed bytes. -/
theorem uri_shadow_witness :
    ((Track.init.set_uri [97]).uri = [97]
      ∧ dictLookup (Track.init.set_uri [97]).meta sURI = some (.str [97]))
    ∧ uriShadowTrack.get_uri = .str [97]
    ∧ Track.init.get_uri = .str Track.init.uri
    ∧ uriShadowPacked.take (2 + (utf8Encode [97]).length)
        = u16le (utf8Encode [97]).length ++ utf8Encode [97] :=
  ⟨uri_shadow.1 Track.init [97],
   uri_shadow.2.1 uriShadowTrack (.str [97]) (by decide),
   uri_shadow.2.2.1 Track.init (by decide),
   uri_shadow.2.2.2 uriShadowTrack [97] uriShadowPacked (by decide) (by rfl)⟩

/-! ### UTF-8 round-trip lemmas -/

theorem utf8DecodeAux_encodeInv :
    ∀ (fuel : Nat) (B : List Nat) (s : PyStr),
      utf8DecodeAux fuel B = some s → utf8Encode s = B := by
  intro fuel
  induction fuel with
  | zero =>
    intro B s hdec
    cases B with
    | nil =>
      unfold utf8DecodeAux at hdec
      injection hdec with h2
      subst h2
      rfl
    | cons b rest => exact Option.noConfusion hdec
  | succ n ih =>
    intro B s hdec
    cases B with
    | nil =>
      unfold utf8DecodeAux at hdec
      injection hdec with h2
      subst h2
      rfl
    | cons b rest =>
      unfold utf8DecodeAux at hdec
      by_cases h1 : b < 128
      · rw [if_pos h1] at hdec
        obtain ⟨s1, hs1, rfl⟩ := Option.map_eq_some'.mp hdec
        rw [utf8Encode_cons, ascii_encode_char b h1, ih rest s1 hs1]
        rfl
      · rw [if_neg h1] at hdec
        by_cases h2 : b < 194
        · rw [if_pos h2] at hdec
          exact Option.noConfusion hdec
        · rw [if_neg h2] at hdec
          by_cases h3 : b < 224
          · rw [if_pos h3] at hdec
            cases rest with
            | nil =>
              simp only [] at hdec
              exact Option.noConfusion hdec
            | cons b1 rest1 =>
              simp only [] at hdec
              by_cases hc1 : isCont b1 = true
              · rw [if_pos hc1] at hdec
                simp only [isCont, Bool.and_eq_true, decide_eq_true_eq] at hc1
                obtain ⟨s1, hs1, rfl⟩ := Option.map_eq_some'.mp hdec
                rw [utf8Encode_cons, ih rest1 s1 hs1]
                unfold utf8EncodeChar
                rw [if_neg (by omega), if_pos (by omega)]
                have e1 : 192 + ((b - 192) * 64 + (b1 - 128)) / 64 = b := by omega
                have e2 : 128 + ((b - 192) * 64 + (b1 - 128)) % 64 = b1 := by omega
                rw [e1, e2]
                rfl
              · rw [if_neg hc1] at hdec
                exact Option.noConfusion hdec
          · rw [if_neg h3] at hdec
            by_cases h4 : b < 240
            · rw [if_pos h4] at hdec
              cases rest with
              | nil => simp only [] at hdec; exact Option.noConfusion hdec
              | cons b1 rest1 =>
                cases rest1 with
                | nil => simp only [] at hdec; exact Option.noConfusion hdec
                | cons b2 rest2 =>
                  simp only [] at hdec
                  by_cases hc1 : ((if b = 224 then 160 ≤ b1 && b1 < 192
                      else if b = 237 then 128 ≤ b1 && b1 < 160
                      else isCont b1) && isCont b2) = true
                  · rw [if_pos hc1] at hdec
                    have hb1 : 128 ≤ b1 ∧ b1 < 192 ∧ (b = 224 → 160 ≤ b1)
                        ∧ (b = 237 → b1 < 160) ∧ 128 ≤ b2 ∧ b2 < 192 := by
                      rcases eq_or_ne b 224 with hb | hb
                      · rw [if_pos hb] at hc1
                        simp only [isCont, Bool.and_eq_true, decide_eq_true_eq] at hc1
                        exact ⟨by omega, by omega, fun _ => by omega,
                          fun h => by omega, by omega, by omega⟩
                      · rw [if_neg hb] at hc1
                        rcases eq_or_ne b 237 with hb2 | hb2
                        · rw [if_pos hb2] at hc1
                          simp only [isCont, Bool.and_eq_true, decide_eq_true_eq] at hc1
                          exact ⟨by omega, by omega, fun h => absurd h hb,
                            fun _ => by omega, by omega, by omega⟩
                        · rw [if_neg hb2] at hc1
                          simp only [isCont, Bool.and_eq_true, decide_eq_true_eq] at hc1
                          exact ⟨by omega, by omega, fun h => absurd h hb,
                            fun h => absurd h hb2, by omega, by omega⟩
                    obtain ⟨s1, hs1, rfl⟩ := Option.map_eq_some'.mp hdec
                    rw [utf8Encode_cons, ih rest2 s1 hs1]
                    unfold utf8EncodeChar
                    obtain ⟨g1, g2, g3, g4, g5, g6⟩ := hb1
                    have hval : 2048 ≤ (b - 224) * 4096 + (b1 - 128) * 64 + (b2 - 128)
                        ∧ (b - 224) * 4096 + (b1 - 128) * 64 + (b2 - 128) < 65536 := by
                      rcases eq_or_ne b 224 with hb | hb
                      · have := g3 hb
                        omega
                      · omega
                    rw [if_neg (by omega), if_neg (by omega), if_pos (by omega)]
                    have e1 : 224 + ((b - 224) * 4096 + (b1 - 128) * 64 + (b2 - 128)) / 4096
                        = b := by omega
                    have e2 : 128 + ((b - 224) * 4096 + (b1 - 128) * 64 + (b2 - 128)) / 64 % 64
                        = b1 := by omega
                    have e3 : 128 + ((b - 224) * 4096 + (b1 - 128) * 64 + (b2 - 128)) % 64
                        = b2 := by omega
                    rw [e1, e2, e3]
                    rfl
                  · rw [if_neg hc1] at hdec
                    exact Option.noConfusion hdec
            · rw [if_neg h4] at hdec
              by_cases h5 : b < 245
              · rw [if_pos h5] at hdec
                cases rest with
                | nil => simp only [] at hdec; exact Option.noConfusion hdec
                | cons b1 rest1 =>
                  cases rest1 with
                  | nil => simp only [] at hdec; exact Option.noConfusion hdec
                  | cons b2 rest2 =>
                    cases rest2 with
                    | nil => simp only [] at hdec; exact Option.noConfusion hdec
                    | cons b3 rest3 =>
                      simp only [] at hdec
                      by_cases hc1 : ((if b = 240 then 144 ≤ b1 && b1 < 192
                          else if b = 244 then 128 ≤ b1 && b1 < 144
                          else isCont b1) && isCont b2 && isCont b3) = true
                      · rw [if_pos hc1] at hdec
                        have hb1 : 128 ≤ b1 ∧ b1 < 192 ∧ (b = 240 → 144 ≤ b1)
                            ∧ (b = 244 → b1 < 144) ∧ 128 ≤ b2 ∧ b2 < 192
                            ∧ 128 ≤ b3 ∧ b3 < 192 := by
                          rcases eq_or_ne b 240 with hb | hb
                          · rw [if_pos hb] at hc1
                            simp only [isCont, Bool.and_eq_true, decide_eq_true_eq] at hc1
                            exact ⟨by omega, by omega, fun _ => by omega,
                              fun h => by omega, by omega, by omega, by omega, by omega⟩
                          · rw [if_neg hb] at hc1
                            rcases eq_or_ne b 244 with hb2 | hb2
                            · rw [if_pos hb2] at hc1
                              simp only [isCont, Bool.and_eq_true, decide_eq_true_eq] at hc1
                              exact ⟨by omega, by omega, fun h => absurd h hb,
                                fun _ => by omega, by omega, by omega, by omega, by omega⟩
                            · rw [if_neg hb2] at hc1
                              simp only [isCont, Bool.and_eq_true, decide_eq_true_eq] at hc1
                              exact ⟨by omega, by omega, fun h => absurd h hb,
                                fun h => absurd h hb2, by omega, by omega, by omega, by omega⟩
                        obtain ⟨s1, hs1, rfl⟩ := Option.map_eq_some'.mp hdec
                        rw [utf8Encode_cons, ih rest3 s1 hs1]
                        unfold utf8EncodeChar
                        obtain ⟨g1, g2, g3, g4, g5, g6, g7, g8⟩ := hb1
                        have hval : 65536 ≤ (b - 240) * 262144 + (b1 - 128) * 4096
                              + (b2 - 128) * 64 + (b3 - 128) := by
                          rcases eq_or_ne b 240 with hb | hb
                          · have := g3 hb
                            omega
                          · omega
                        rw [if_neg (by omega), if_neg (by omega), if_neg (by omega)]
                        have e1 : 240 + ((b - 240) * 262144 + (b1 - 128) * 4096
                            + (b2 - 128) * 64 + (b3 - 128)) / 262144 = b := by omega
                        have e2 : 128 + ((b - 240) * 262144 + (b1 - 128) * 4096
                            + (b2 - 128) * 64 + (b3 - 128)) / 4096 % 64 = b1 := by omega
                        have e3 : 128 + ((b - 240) * 262144 + (b1 - 128) * 4096
                            + (b2 - 128) * 64 + (b3 - 128)) / 64 % 64 = b2 := by omega
                        have e4 : 128 + ((b - 240) * 262144 + (b1 - 128) * 4096
                            + (b2 - 128) * 64 + (b3 - 128)) % 64 = b3 := by omega
                        rw [e1, e2, e3, e4]
                        rfl
                      · rw [if_neg hc1] at hdec
                        exact Option.noConfusion hdec
              · rw [if_neg h5] at hdec
                exact Option.noConfusion hdec

/-- Strict UTF-8 decoding inverts encoding: whatever the decoder accepts
re-encodes to exactly the consumed bytes. -/
theorem utf8Decode_encodeInv (B : List Nat) (s : PyStr)
    (h : utf8Decode B = some s) : utf8Encode s = B :=
  utf8DecodeAux_encodeInv B.length B s h

/-- Every string the decoder produces round-trips. -/
theorem strGood_of_decode (B : List Nat) (s : PyStr)
    (h : utf8Decode B = some s) : StrGood s := by
  unfold StrGood
  rw [utf8Decode_encodeInv B s h]
  exact h

theorem utf8DecodeAux_ascii :
    ∀ (fuel : Nat) (s : PyStr), s.length ≤ fuel → (∀ c ∈ s, c < 128) →
      utf8DecodeAux fuel s = some s := by
  intro fuel
  induction fuel with
  | zero =>
    intro s hlen _
    cases s with
    | nil => rfl
    | cons c t => simp at hlen
  | succ n ih =>
    intro s hlen h
    cases s with
    | nil => rfl
    | cons c t =>
      unfold utf8DecodeAux
      rw [if_pos (h c (by simp))]
      rw [ih t (by simp at hlen; omega) (fun x hx => h x (by simp [hx]))]
      rfl

/-- ASCII byte lists decode to themselves. -/
theorem utf8Decode_ascii (s : PyStr) (h : ∀ c ∈ s, c < 128) :
    utf8Decode s = some s :=
  utf8DecodeAux_ascii s.length s le_rfl h

/-- ASCII strings round-trip. -/
theorem strGood_of_ascii (s : PyStr) (h : ∀ c ∈ s, c < 128) : StrGood s := by
  unfold StrGood
  rw [ascii_encode s h]
  exact utf8Decode_ascii s h

/-- Byte length of a decoded string is bounded by the byte count consumed. -/
theorem utf8Encode_length_of_decode (B : List Nat) (s : PyStr)
    (h : utf8Decode B = some s) : (utf8Encode s).length = B.length := by
  rw [utf8Decode_encodeInv B s h]

/-! ### Decimal string lemmas -/

theorem digitsList_zero : digitsList 0 = [] := by
  rw [digitsList]
  simp

theorem digitsList_of_ne (n : Nat) (h : n ≠ 0) :
    digitsList n = digitsList (n / 10) ++ [48 + n % 10] := by
  conv_lhs => rw [digitsList]
  simp [h]

theorem natDigitsAux_eq :
    ∀ (fuel n : Nat) (acc : List Nat), n ≤ fuel →
      natDigitsAux fuel n acc = digitsList n ++ acc := by
  intro fuel
  induction fuel with
  | zero =>
    intro n acc h
    have hn : n = 0 := by omega
    subst hn
    rw [natDigitsAux, digitsList_zero]
    rfl
  | succ f ih =>
    intro n acc h
    rw [natDigitsAux]
    by_cases hn : n = 0
    · subst hn
      rw [digitsList_zero]
      simp
    · rw [if_neg hn]
      rw [ih (n / 10) _ (by omega)]
      rw [digitsList_of_ne n hn]
      simp

theorem natToStr_eq (n : Nat) :
    natToStr n = if n = 0 then [48] else digitsList n := by
  unfold natToStr
  by_cases h : n = 0
  · simp [h]
  · rw [if_neg h, if_neg h, natDigitsAux_eq n n [] le_rfl]
    simp

theorem digitsList_mem : ∀ (n : Nat), ∀ c ∈ digitsList n, 48 ≤ c ∧ c ≤ 57 := by
  intro n
  induction n using Nat.strong_induction_on with
  | _ n ih =>
    by_cases h : n = 0
    · subst h
      rw [digitsList_zero]
      simp
    · rw [digitsList_of_ne n h]
      intro c hc
      rw [List.mem_append] at hc
      rcases hc with hc | hc
      · exact ih (n / 10) (Nat.div_lt_self (Nat.pos_of_ne_zero h) (by omega)) c hc
      · simp at hc
        omega

theorem digitsList_foldl :
    ∀ (n : Nat) (acc : Nat),
      (digitsList n).foldl (fun a d => a * 10 + (d - 48)) acc
        = acc * 10 ^ (digitsList n).length + n := by
  intro n
  induction n using Nat.strong_induction_on with
  | _ n ih =>
    intro acc
    by_cases h : n = 0
    · subst h
      rw [digitsList_zero]
      simp
    · rw [digitsList_of_ne n h]
      rw [List.foldl_append]
      rw [ih (n / 10) (Nat.div_lt_self (Nat.pos_of_ne_zero h) (by omega)) acc]
      simp only [List.foldl_cons, List.foldl_nil, List.length_append,
        List.length_cons, List.length_nil]
      have hp : 10 ^ ((digitsList (n / 10)).length + (0 + 1))
          = 10 ^ (digitsList (n / 10)).length * 10 := by
        rw [pow_succ]
      rw [hp]
      have hm : n = n / 10 * 10 + n % 10 := by omega
      ring_nf
      omega

theorem digitsList_length_le :
    ∀ (k n : Nat), n < 10 ^ k → (digitsList n).length ≤ k := by
  intro k
  induction k with
  | zero =>
    intro n h
    have : n = 0 := by simpa using h
    subst this
    rw [digitsList_zero]
    simp
  | succ k ih =>
    intro n h
    by_cases hn : n = 0
    · subst hn
      rw [digitsList_zero]
      simp
    · rw [digitsList_of_ne n hn]
      simp only [List.length_append, List.length_cons, List.length_nil]
      have := ih (n / 10) (by
        have hlt : n < 10 ^ k * 10 := by
          rw [← pow_succ]
          exact h
        omega)
      omega

theorem parseDigits_natToStr (n : Nat) : parseDigits (natToStr n) = some n := by
  rw [natToStr_eq]
  by_cases h : n = 0
  · subst h
    rfl
  · rw [if_neg h]
    unfold parseDigits
    rw [if_pos]
    · rw [digitsList_foldl n 0]
      simp
    · constructor
      · rw [digitsList_of_ne n h]
        simp
      · rw [List.all_eq_true]
        intro c hc
        have := digitsList_mem n c hc
        simp [isDigit]
        omega

theorem natToStr_mem (n : Nat) : ∀ c ∈ natToStr n, 48 ≤ c ∧ c ≤ 57 := by
  rw [natToStr_eq]
  by_cases h : n = 0
  · simp [h]
  · rw [if_neg h]
    exact digitsList_mem n

theorem natToStr_ne_nil (n : Nat) : natToStr n ≠ [] := by
  rw [natToStr_eq]
  by_cases h : n = 0
  · simp [h]
  · rw [if_neg h]
    rw [digitsList_of_ne n h]
    simp

theorem intToStr_ascii (i : Int) : ∀ c ∈ intToStr i, c < 128 := by
  unfold intToStr
  by_cases h : i < 0
  · rw [if_pos h]
    intro c hc
    simp at hc
    rcases hc with hc | hc
    · omega
    · have := natToStr_mem _ c hc
      omega
  · rw [if_neg h]
    intro c hc
    have := natToStr_mem _ c hc
    omega

theorem dropWhile_no_ws (l : List Nat) (h : ∀ c ∈ l, isWs c = false) :
    l.dropWhile isWs = l := by
  cases l with
  | nil => rfl
  | cons c t =>
    rw [List.dropWhile_cons]
    simp [h c (by simp)]

theorem trim_no_ws (l : List Nat) (h : ∀ c ∈ l, isWs c = false) :
    ((l.dropWhile isWs).reverse.dropWhile isWs).reverse = l := by
  rw [dropWhile_no_ws l h]
  rw [dropWhile_no_ws l.reverse (fun c hc => h c (List.mem_reverse.mp hc))]
  exact List.reverse_reverse l

theorem intToStr_no_ws (i : Int) : ∀ c ∈ intToStr i, isWs c = false := by
  intro c hc
  have hb : c = 45 ∨ (48 ≤ c ∧ c ≤ 57) := by
    unfold intToStr at hc
    by_cases h : i < 0
    · rw [if_pos h] at hc
      simp at hc
      rcases hc with hc | hc
      · left
        exact hc
      · right
        exact natToStr_mem _ c hc
    · rw [if_neg h] at hc
      right
      exact natToStr_mem _ c hc
  simp only [isWs, Bool.or_eq_false_iff, decide_eq_false_iff_not]
  omega

theorem parseInt_intToStr (i : Int) : parseInt (intToStr i) = some i := by
  unfold parseInt
  rw [trim_no_ws _ (intToStr_no_ws i)]
  unfold intToStr
  by_cases h : i < 0
  · rw [if_pos h]
    simp only []
    rw [if_neg (by omega)]
    simp [parseDigits_natToStr]
    omega
  · rw [if_neg h]
    obtain ⟨d, rest, hd⟩ : ∃ d rest, natToStr i.toNat = d :: rest := by
      cases hns : natToStr i.toNat with
      | nil => exact absurd hns (natToStr_ne_nil _)
      | cons d rest => exact ⟨d, rest, rfl⟩
    have hdm := natToStr_mem i.toNat d (by rw [hd]; simp)
    rw [hd]
    simp only []
    rw [if_neg (by omega), if_neg (by omega)]
    rw [← hd]
    simp [parseDigits_natToStr]
    omega

theorem natToStr_length_le (n k : Nat) (hk : 1 ≤ k) (h : n < 10 ^ k) :
    (natToStr n).length ≤ k := by
  rw [natToStr_eq]
  by_cases hn : n = 0
  · simp [hn]
    omega
  · rw [if_neg hn]
    exact digitsList_length_le k n h

theorem intToStr_length_le_11 (i : Int)
    (h1 : -2147483648 ≤ i) (h2 : i < 2147483648) :
    (intToStr i).length ≤ 11 := by
  unfold intToStr
  by_cases h : i < 0
  · rw [if_pos h]
    simp only [List.length_cons]
    have hlt : (-i).toNat < 10 ^ 10 := by
      rw [show (10 : Nat) ^ 10 = 10000000000 from by norm_num]
      omega
    have := natToStr_length_le (-i).toNat 10 (by norm_num) hlt
    omega
  · rw [if_neg h]
    have hlt : i.toNat < 10 ^ 10 := by
      rw [show (10 : Nat) ^ 10 = 10000000000 from by norm_num]
      omega
    have := natToStr_length_le i.toNat 10 (by norm_num) hlt
    omega

/-- The written bytes of a stored value under i32 bounds stay far below the
metadata length limit when the value is an int. -/
theorem intVal_bytes_short (n : Int)
    (h1 : -2147483648 ≤ n) (h2 : n < 2147483648) :
    (utf8Encode (pyStrOf (.int n))).length < 20000 := by
  have ha := intToStr_ascii n
  unfold pyStrOf
  rw [ascii_encode _ ha]
  have := intToStr_length_le_11 n h1 h2
  omega

/-! ### Dict and writable-metadata lemmas -/

theorem dictInsert_cons_self (k : PyStr) (v0 v : PyVal)
    (rest : List (PyStr × PyVal)) :
    dictInsert ((k, v0) :: rest) k v = (k, v) :: rest := by
  simp [dictInsert]

theorem dictInsert_cons_ne (k0 : PyStr) (v0 : PyVal) (k : PyStr) (v : PyVal)
    (rest : List (PyStr × PyVal)) (h : k0 ≠ k) :
    dictInsert ((k0, v0) :: rest) k v = (k0, v0) :: dictInsert rest k v := by
  simp [dictInsert, h]

theorem dictInsert_append (m : List (PyStr × PyVal)) (k : PyStr) (v : PyVal)
    (h : k ∉ m.map Prod.fst) : dictInsert m k v = m ++ [(k, v)] := by
  induction m with
  | nil => rfl
  | cons p rest ih =>
    obtain ⟨k0, v0⟩ := p
    simp only [List.map_cons, List.mem_cons] at h
    push_neg at h
    rw [dictInsert_cons_ne k0 v0 k v rest (Ne.symm h.1)]
    rw [ih h.2]
    simp

theorem dictInsert_mem (m : List (PyStr × PyVal)) (k : PyStr) (v : PyVal) :
    ∀ p ∈ dictInsert m k v, p ∈ m ∨ p = (k, v) := by
  induction m with
  | nil =>
    intro p hp
    simp [dictInsert] at hp
    simp [hp]
  | cons q rest ih =>
    obtain ⟨k0, v0⟩ := q
    intro p hp
    by_cases hk : k0 = k
    · subst hk
      rw [dictInsert_cons_self] at hp
      rcases List.mem_cons.mp hp with hp | hp
      · right
        exact hp
      · left
        simp [hp]
    · rw [dictInsert_cons_ne k0 v0 k v rest hk] at hp
      rcases List.mem_cons.mp hp with hp | hp
      · left
        simp [hp]
      · rcases ih p hp with h2 | h2
        · left
          simp [h2]
        · right
          exact h2

theorem dictInsert_keys (m : List (PyStr × PyVal)) (k : PyStr) (v : PyVal) :
    (dictInsert m k v).map Prod.fst
      = if k ∈ m.map Prod.fst then m.map Prod.fst
        else m.map Prod.fst ++ [k] := by
  induction m with
  | nil => simp [dictInsert]
  | cons q rest ih =>
    obtain ⟨k0, v0⟩ := q
    by_cases hk : k0 = k
    · subst hk
      rw [dictInsert_cons_self]
      simp
    · rw [dictInsert_cons_ne k0 v0 k v rest hk]
      simp only [List.map_cons, List.mem_cons]
      rw [ih]
      by_cases hmem : k ∈ rest.map Prod.fst
      · simp [hmem, hk, Ne.symm hk]
      · simp [hmem, hk, Ne.symm hk]

theorem dictInsert_nodup (m : List (PyStr × PyVal)) (k : PyStr) (v : PyVal)
    (h : (m.map Prod.fst).Nodup) : ((dictInsert m k v).map Prod.fst).Nodup := by
  rw [dictInsert_keys]
  by_cases hmem : k ∈ m.map Prod.fst
  · simp [hmem, h]
  · simp only [hmem, if_false]
    rw [← List.concat_eq_append]
    exact h.concat hmem

theorem dictLookup_cons_self (k : PyStr) (v : PyVal)
    (rest : List (PyStr × PyVal)) :
    dictLookup ((k, v) :: rest) k = some v := by
  simp [dictLookup]

theorem dictLookup_cons_ne (k0 : PyStr) (v0 : PyVal) (k : PyStr)
    (rest : List (PyStr × PyVal)) (h : k0 ≠ k) :
    dictLookup ((k0, v0) :: rest) k = dictLookup rest k := by
  simp [dictLookup, h]

theorem writableMeta_ok_of_nonempty (m : List (PyStr × PyVal))
    (h : ∀ p ∈ m, p.1 ≠ []) : ∃ wm, writableMeta m = .ok wm := by
  induction m with
  | nil => exact ⟨[], rfl⟩
  | cons p rest ih =>
    obtain ⟨k, v⟩ := p
    obtain ⟨wr, hwr⟩ := ih (fun q hq => h q (by simp [hq]))
    cases k with
    | nil => exact absurd rfl (h (([], v)) (by simp))
    | cons c kt =>
      refine ⟨if c ≠ 95 ∧ c ≠ 33 then ((c :: kt, v) :: wr) else wr, ?_⟩
      unfold writableMeta
      rw [hwr]
      by_cases hc : c ≠ 95 ∧ c ≠ 33
      · simp [hc]
      · simp [hc]

theorem writableMeta_cons_keep (c : Nat) (kt : PyStr) (v : PyVal)
    (rest : List (PyStr × PyVal)) (wr : List (PyStr × PyVal))
    (hwr : writableMeta rest = .ok wr) (hc : c ≠ 95 ∧ c ≠ 33) :
    writableMeta ((c :: kt, v) :: rest) = .ok ((c :: kt, v) :: wr) := by
  unfold writableMeta
  rw [hwr]
  simp [hc]

theorem writableMeta_cons_drop (c : Nat) (kt : PyStr) (v : PyVal)
    (rest : List (PyStr × PyVal)) (wr : List (PyStr × PyVal))
    (hwr : writableMeta rest = .ok wr) (hc : ¬(c ≠ 95 ∧ c ≠ 33)) :
    writableMeta ((c :: kt, v) :: rest) = .ok wr := by
  unfold writableMeta
  rw [hwr]
  simp [hc]

theorem writableMeta_sublist (m wm : List (PyStr × PyVal))
    (h : writableMeta m = .ok wm) : wm.Sublist m := by
  induction m generalizing wm with
  | nil =>
    unfold writableMeta at h
    injection h with h2
    subst h2
    exact List.Sublist.refl []
  | cons p rest ih =>
    obtain ⟨k, v⟩ := p
    unfold writableMeta at h
    cases k with
    | nil => exact Except.noConfusion h
    | cons c kt =>
      cases hwr : writableMeta rest with
      | error e => rw [hwr] at h; exact Except.noConfusion h
      | ok wr =>
        rw [hwr] at h
        simp only [] at h
        by_cases hc : c ≠ 95 ∧ c ≠ 33
        · rw [if_pos hc] at h
          injection h with h2
          subst h2
          exact (ih wr hwr).cons₂ _
        · rw [if_neg hc] at h
          injection h with h2
          subst h2
          exact (ih _ hwr).cons _

theorem writableMeta_all_pass (m : List (PyStr × PyVal))
    (h : ∀ p ∈ m, ∃ c kt, p.1 = c :: kt ∧ c ≠ 95 ∧ c ≠ 33) :
    writableMeta m = .ok m := by
  induction m with
  | nil => rfl
  | cons p rest ih =>
    obtain ⟨k, v⟩ := p
    obtain ⟨c, kt, hk, hc⟩ := h (k, v) (by simp)
    simp only at hk
    subst hk
    exact writableMeta_cons_keep c kt v rest rest
      (ih (fun q hq => h q (by simp [hq]))) hc

/-! ### Entry encoder inversions -/

theorem packTrackMetaEntry_ok (k : PyStr) (v : PyVal) (e : List Nat)
    (h : packTrackMetaEntry k v = .ok e) :
    (utf8Encode k).length < 65536 ∧ (utf8Encode (pyStrOf v)).length < 65536
      ∧ e = u16le (utf8Encode k).length ++ (utf8Encode k
          ++ (u16le (utf8Encode (pyStrOf v)).length ++ utf8Encode (pyStrOf v))) := by
  unfold packTrackMetaEntry at h
  obtain ⟨klb, hq1, h⟩ := bindE_ok _ _ _ h
  obtain ⟨vlb, hq2, h⟩ := bindE_ok _ _ _ h
  injection h with h2
  obtain ⟨hb1, rfl⟩ := packU16_ok _ _ hq1
  obtain ⟨hb2, rfl⟩ := packU16_ok _ _ hq2
  refine ⟨hb1, hb2, ?_⟩
  rw [← h2, self_guard, self_guard]
  simp [List.append_assoc]

theorem savePlaylistMetaEntry_ok (k : PyStr) (v : PyVal) (e : List Nat)
    (h : savePlaylistMetaEntry k v = .ok e) :
    k.length < 65536 ∧ (pyStrOf v).length < 65536
      ∧ e = u16le k.length ++ (utf8Encode k
          ++ (u16le (pyStrOf v).length ++ utf8Encode (pyStrOf v))) := by
  unfold savePlaylistMetaEntry at h
  obtain ⟨klb, hq1, h⟩ := bindE_ok _ _ _ h
  obtain ⟨vlb, hq2, h⟩ := bindE_ok _ _ _ h
  injection h with h2
  obtain ⟨hb1, rfl⟩ := packU16_ok _ _ hq1
  obtain ⟨hb2, rfl⟩ := packU16_ok _ _ hq2
  refine ⟨hb1, hb2, ?_⟩
  rw [← h2, utf8Encode_guard, utf8Encode_guard]
  simp [List.append_assoc]

theorem packI32Val_ok (v : PyVal) (b : List Nat) (h : packI32Val v = .ok b) :
    ∃ n, v = .int n ∧ -2147483648 ≤ n ∧ n < 2147483648
      ∧ b = u32le (toUnsigned 32 n) := by
  cases v with
  | str s => exact Except.noConfusion h
  | int n =>
    obtain ⟨h1, h2, h3⟩ := packI32_ok n b h
    exact ⟨n, rfl, h1, h2, h3⟩

/-! ### Helpers for the round-trip development -/

theorem pyRead_length_le (bytes : List Nat) (pos n : Nat) :
    (pyRead bytes pos n).length ≤ n := by
  unfold pyRead
  simp

theorem dictLookup_mem (m : List (PyStr × PyVal)) (k : PyStr) (v : PyVal)
    (h : dictLookup m k = some v) : (k, v) ∈ m := by
  induction m with
  | nil => exact Option.noConfusion h
  | cons p rest ih =>
    obtain ⟨k0, v0⟩ := p
    by_cases hk : k0 = k
    · subst hk
      rw [dictLookup_cons_self] at h
      injection h with h2
      subst h2
      simp
    · rw [dictLookup_cons_ne k0 v0 k rest hk] at h
      exact List.mem_cons_of_mem _ (ih h)

theorem writableMeta_mem_pass (m wm : List (PyStr × PyVal))
    (h : writableMeta m = .ok wm) :
    ∀ p ∈ wm, ∃ c kt, p.1 = c :: kt ∧ c ≠ 95 ∧ c ≠ 33 := by
  induction m generalizing wm with
  | nil =>
    unfold writableMeta at h
    injection h with h2
    subst h2
    intro p hp
    exact absurd hp (List.not_mem_nil p)
  | cons q rest ih =>
    obtain ⟨k, v⟩ := q
    unfold writableMeta at h
    cases k with
    | nil => exact Except.noConfusion h
    | cons c kt =>
      cases hwr : writableMeta rest with
      | error e => rw [hwr] at h; exact Except.noConfusion h
      | ok wr =>
        rw [hwr] at h
        simp only [] at h
        by_cases hc : c ≠ 95 ∧ c ≠ 33
        · rw [if_pos hc] at h
          injection h with h2
          subst h2
          intro p hp
          rcases List.mem_cons.mp hp with hp | hp
          · exact ⟨c, kt, by rw [hp], hc.1, hc.2⟩
          · exact ih wr hwr p hp
        · rw [if_neg hc] at h
          injection h with h2
          subst h2
          exact ih _ hwr

theorem entryInv_val_good (p : PyStr × PyVal) (h : EntryInv p) :
    StrGood (pyStrOf p.2) := by
  obtain ⟨_, _, _, _, _, hstr⟩ := h
  cases hv : p.2 with
  | int n =>
    unfold pyStrOf
    exact strGood_of_ascii (intToStr n) (intToStr_ascii n)
  | str s =>
    unfold pyStrOf
    exact hstr s hv

/-- One iteration of the track-scope metadata loop on a stream laid out as a
length-prefixed key/value pair at the current position. -/
theorem metaLoop_step :
    ∀ (pre kb vb rest : List Nat) (key : PyStr) (t : Track) (c : Nat),
    kb.length < 20000 → vb.length < 20000 → utf8Decode kb = some key →
    decodeTrackMetaLoop
        (pre ++ (u16le kb.length ++ (kb ++ (u16le vb.length ++ (vb ++ rest)))))
        (c + 1) t pre.length
      = (match key with
          | [] => .error .indexError
          | c0 :: _ =>
            if c0 = 58 then
              if key = sSS then
                match parseInt vb with
                | none => .error .intValueError
                | some n =>
                  decodeTrackMetaLoop
                    (pre ++ (u16le kb.length ++ (kb ++ (u16le vb.length ++ (vb ++ rest)))))
                    c (t.set_startsample n) (pre.length + 2 + kb.length + 2 + vb.length)
              else if key = sES then
                match parseInt vb with
                | none => .error .intValueError
                | some n =>
                  decodeTrackMetaLoop
                    (pre ++ (u16le kb.length ++ (kb ++ (u16le vb.length ++ (vb ++ rest)))))
                    c (t.set_endsample n) (pre.length + 2 + kb.length + 2 + vb.length)
              else
                match utf8Decode vb with
                | none => .error .unicodeDecodeError
                | some v =>
                  decodeTrackMetaLoop
                    (pre ++ (u16le kb.length ++ (kb ++ (u16le vb.length ++ (vb ++ rest)))))
                    c { t with meta := dictInsert t.meta key (.str v) }
                    (pre.length + 2 + kb.length + 2 + vb.length)
            else
              match utf8Decode vb with
              | none => .error .unicodeDecodeError
              | some v =>
                decodeTrackMetaLoop
                  (pre ++ (u16le kb.length ++ (kb ++ (u16le vb.length ++ (vb ++ rest)))))
                  c { t with meta := dictInsert t.meta key (.str v) }
                  (pre.length + 2 + kb.length + 2 + vb.length)) := by
  intro pre kb vb rest key t c hkl hvl hkey
  have hread : pyRead
      (pre ++ (u16le kb.length ++ (kb ++ (u16le vb.length ++ (vb ++ rest)))))
      (pre.length + 2) kb.length = kb := by
    have h0 := pyRead_at (pre ++ u16le kb.length) kb
      (u16le vb.length ++ (vb ++ rest))
    simp only [List.length_append, u16le_length, List.append_assoc] at h0
    simpa using h0
  have hv16 : readU16
      (pre ++ (u16le kb.length ++ (kb ++ (u16le vb.length ++ (vb ++ rest)))))
      (pre.length + 2 + kb.length)
      = .ok (vb.length, pre.length + 2 + kb.length + 2) := by
    have h0 := readU16_at (pre ++ (u16le kb.length ++ kb)) (vb ++ rest)
      vb.length (by omega)
    simp only [List.length_append, u16le_length, List.append_assoc] at h0
    simpa [Nat.add_assoc] using h0
  have hreadv : pyRead
      (pre ++ (u16le kb.length ++ (kb ++ (u16le vb.length ++ (vb ++ rest)))))
      (pre.length + 2 + kb.length + 2) vb.length = vb := by
    have h0 := pyRead_at (pre ++ (u16le kb.length ++ (kb ++ u16le vb.length)))
      vb rest
    simp only [List.length_append, u16le_length, List.append_assoc] at h0
    simpa [Nat.add_assoc] using h0
  simp only [decodeTrackMetaLoop,
    readU16_at pre (kb ++ (u16le vb.length ++ (vb ++ rest))) kb.length
      (by omega : kb.length < 65536)]
  rw [if_neg (by omega)]
  simp only [hread, hkey, hv16]
  rw [if_neg (by omega)]
  simp only [hreadv]

/-- Counterexample to claim C3 as written: the playlist whose only
playlist-scope metadata entry has the non-ASCII key `"é"` decodes, saves
(with a character-count key prefix of 1 but two key bytes), and the saved
bytes fail to re-decode with UnicodeDecodeError. -/
theorem roundtrip_nonascii_cex :
    decodePlaylist nonAsciiMetaBytes = .ok nonAsciiPl
    ∧ nonAsciiPl.save = .ok nonAsciiSaved
    ∧ decodePlaylist nonAsciiSaved = .error .unicodeDecodeError :=
  ⟨rfl, rfl, rfl⟩

theorem applyEntry_sSS (t : Track) (v : PyVal) :
    applyEntry t sSS v = t.set_startsample (intOfVal v) := by
  simp [applyEntry]

theorem applyEntry_sES (t : Track) (v : PyVal) :
    applyEntry t sES v = t.set_endsample (intOfVal v) := by
  unfold applyEntry
  rw [if_neg (by decide), if_pos rfl]

theorem applyEntry_other (t : Track) (k : PyStr) (v : PyVal)
    (hss : k ≠ sSS) (hes : k ≠ sES) :
    applyEntry t k v = { t with meta := dictInsert t.meta k (.str (pyStrOf v)) } := by
  unfold applyEntry
  rw [if_neg hss, if_neg hes]

theorem foldl_applyEntry_fields (es : List (PyStr × PyVal))
    (h : ∀ p ∈ es, p.1 ≠ sSS ∧ p.1 ≠ sES) :
    ∀ t : Track,
      (es.foldl (fun s p => applyEntry s p.1 p.2) t).flags = t.flags
      ∧ (es.foldl (fun s p => applyEntry s p.1 p.2) t).meta
          = es.foldl (fun m p => dictInsert m p.1 (.str (pyStrOf p.2))) t.meta := by
  induction es with
  | nil => intro t; exact ⟨rfl, rfl⟩
  | cons p tl ih =>
    intro t
    obtain ⟨hss, hes⟩ := h p (by simp)
    have ih2 := ih (fun q hq => h q (by simp [hq]))
      { t with meta := dictInsert t.meta p.1 (.str (pyStrOf p.2)) }
    simp only [List.foldl_cons, applyEntry_other t p.1 p.2 hss hes]
    exact ⟨ih2.1, ih2.2⟩

theorem foldl_dictInsert_shadow (es : List (PyStr × PyVal))
    (h : ∀ p ∈ es, p.1 ≠ sSS ∧ p.1 ≠ sES) (a b : PyVal) :
    ∀ tail0 : List (PyStr × PyVal),
      es.foldl (fun m p => dictInsert m p.1 (.str (pyStrOf p.2)))
          ((sSS, a) :: (sES, b) :: tail0)
        = (sSS, a) :: (sES, b)
            :: es.foldl (fun m p => dictInsert m p.1 (.str (pyStrOf p.2))) tail0 := by
  induction es with
  | nil => intro tail0; rfl
  | cons p tl ih =>
    intro tail0
    obtain ⟨hss, hes⟩ := h p (by simp)
    simp only [List.foldl_cons]
    rw [dictInsert_cons_ne sSS a p.1 _ _ (Ne.symm hss),
        dictInsert_cons_ne sES b p.1 _ _ (Ne.symm hes)]
    exact ih (fun q hq => h q (by simp [hq])) _

theorem foldl_dictInsert_fresh (es : List (PyStr × PyVal))
    (hnd : (es.map Prod.fst).Nodup) :
    ∀ m0 : List (PyStr × PyVal), (∀ k ∈ es.map Prod.fst, k ∉ m0.map Prod.fst) →
      es.foldl (fun m p => dictInsert m p.1 (.str (pyStrOf p.2))) m0
        = m0 ++ es.map (fun p => (p.1, PyVal.str (pyStrOf p.2))) := by
  induction es with
  | nil => intro m0 _; simp
  | cons p tl ih =>
    intro m0 hdisj
    simp only [List.map_cons, List.nodup_cons] at hnd
    simp only [List.foldl_cons]
    rw [dictInsert_append m0 p.1 _ (hdisj p.1 (by simp))]
    rw [ih hnd.2 (m0 ++ [(p.1, PyVal.str (pyStrOf p.2))])
      (fun k hk => by
        simp only [List.map_append, List.mem_append] at *
        intro hc
        rcases hc with hc | hc
        · exact hdisj k (by simp [hk]) hc
        · simp only [List.map_cons, List.map_nil, List.mem_singleton] at hc
          subst hc
          exact hnd.1 hk)]
    simp

theorem map_strOf_id (es : List (PyStr × PyVal))
    (h : ∀ p ∈ es, ∃ s, p.2 = PyVal.str s) :
    es.map (fun p => (p.1, PyVal.str (pyStrOf p.2))) = es := by
  induction es with
  | nil => rfl
  | cons p tl ih =>
    obtain ⟨s, hs⟩ := h p (by simp)
    simp only [List.map_cons]
    rw [ih (fun q hq => h q (by simp [hq]))]
    obtain ⟨k, v⟩ := p
    simp only at hs
    subst hs
    rfl

theorem writableMeta_cons_colon (k kt : PyStr) (hk : k = 58 :: kt)
    (v : PyVal) (rest wr : List (PyStr × PyVal))
    (hwr : writableMeta rest = .ok wr) :
    writableMeta ((k, v) :: rest) = .ok ((k, v) :: wr) := by
  subst hk
  exact writableMeta_cons_keep 58 kt v rest wr hwr (by decide)

theorem foldl_applyEntry_match (t tBase : Track) (n1 n2 : Int)
    (tail wtail : List (PyStr × PyVal))
    (hmeta : t.meta = (sSS, .int n1) :: (sES, .int n2) :: tail)
    (htail : ∀ p ∈ tail, p.1 ≠ sSS ∧ p.1 ≠ sES ∧ EntryInv p ∧ ∃ s, p.2 = PyVal.str s)
    (hnd : (tail.map Prod.fst).Nodup)
    (hwt : writableMeta tail = .ok wtail)
    (hbm : tBase.meta = [(sSS, .int n1), (sES, .int n2)])
    (hbf : tBase.flags = t.flags) :
    trackMatch t (List.foldl (fun s p => applyEntry s p.1 p.2) tBase
      ((sSS, .int n1) :: (sES, .int n2) :: wtail)) := by
  have hsub := writableMeta_sublist tail wtail hwt
  have htailw : ∀ p ∈ wtail, p.1 ≠ sSS ∧ p.1 ≠ sES ∧ EntryInv p
      ∧ ∃ s, p.2 = PyVal.str s := fun p hp => htail p (hsub.subset hp)
  have hndw : (wtail.map Prod.fst).Nodup := hnd.sublist (hsub.map Prod.fst)
  simp only [List.foldl_cons]
  rw [applyEntry_sSS, applyEntry_sES]
  simp only [intOfVal]
  have hB2meta : ((tBase.set_startsample n1).set_endsample n2).meta
      = [(sSS, PyVal.int n1), (sES, PyVal.int n2)] := by
    simp only [Track.set_startsample, Track.set_endsample]
    rw [hbm]
    rw [dictInsert_cons_self, dictInsert_cons_ne _ _ _ _ _ (by decide : sSS ≠ sES),
      dictInsert_cons_self]
  have hB2flags : ((tBase.set_startsample n1).set_endsample n2).flags
      = tBase.flags := rfl
  obtain ⟨hfl, hme⟩ := foldl_applyEntry_fields wtail
    (fun p hp => ⟨(htailw p hp).1, (htailw p hp).2.1⟩)
    ((tBase.set_startsample n1).set_endsample n2)
  have hMeta2 : (wtail.foldl (fun s p => applyEntry s p.1 p.2)
      ((tBase.set_startsample n1).set_endsample n2)).meta
      = (sSS, PyVal.int n1) :: (sES, PyVal.int n2) :: wtail := by
    rw [hme, hB2meta]
    rw [show ([(sSS, PyVal.int n1), (sES, PyVal.int n2)]
          : List (PyStr × PyVal))
        = (sSS, PyVal.int n1) :: (sES, PyVal.int n2) :: [] from rfl]
    rw [foldl_dictInsert_shadow wtail
      (fun p hp => ⟨(htailw p hp).1, (htailw p hp).2.1⟩) _ _ []]
    rw [foldl_dictInsert_fresh wtail hndw [] (fun k _ => by simp)]
    rw [List.nil_append]
    rw [map_strOf_id wtail (fun p hp => (htailw p hp).2.2.2)]
  have hpass := writableMeta_mem_pass tail wtail hwt
  have hwt2 : writableMeta wtail = .ok wtail := writableMeta_all_pass wtail hpass
  refine ⟨?_, ?_, ?_, ?_⟩
  · rw [hfl, hB2flags, hbf]
  · unfold Track.get_startsample
    rw [hMeta2, hmeta]
    rw [dictLookup_cons_self, dictLookup_cons_self]
  · unfold Track.get_endsample
    rw [hMeta2, hmeta]
    rw [dictLookup_cons_ne _ _ _ _ (by decide : sSS ≠ sES),
      dictLookup_cons_ne _ _ _ _ (by decide : sSS ≠ sES),
      dictLookup_cons_self, dictLookup_cons_self]
  · rw [hMeta2, hmeta]
    have hinL : writableMeta ((sES, PyVal.int n2) :: wtail)
        = .ok ((sES, PyVal.int n2) :: wtail) :=
      writableMeta_cons_colon sES [69, 78, 68, 83, 65, 77, 80, 76, 69] rfl
        (PyVal.int n2) wtail wtail hwt2
    have hinR : writableMeta ((sES, PyVal.int n2) :: tail)
        = .ok ((sES, PyVal.int n2) :: wtail) :=
      writableMeta_cons_colon sES [69, 78, 68, 83, 65, 77, 80, 76, 69] rfl
        (PyVal.int n2) tail wtail hwt
    rw [writableMeta_cons_colon sSS [83, 84, 65, 82, 84, 83, 65, 77, 80, 76, 69]
        rfl (PyVal.int n1) _ _ hinL,
      writableMeta_cons_colon sSS [83, 84, 65, 82, 84, 83, 65, 77, 80, 76, 69]
        rfl (PyVal.int n1) _ _ hinR]

/-- Re-decoding the bytes `Track.pack`'s metadata loop wrote replays each
entry onto the track under construction. -/
theorem trackMetaLoop_sim :
    ∀ (entries : List (PyStr × PyVal)) (mb : List Nat) (t : Track)
      (pre rest : List Nat),
      packList (fun p => packTrackMetaEntry p.1 p.2) entries = .ok mb →
      (∀ p ∈ entries, EntryInv p) →
      decodeTrackMetaLoop (pre ++ (mb ++ rest)) entries.length t pre.length
        = .ok (entries.foldl (fun s p => applyEntry s p.1 p.2) t,
               pre.length + mb.length) := by
  intro entries
  induction entries with
  | nil =>
    intro mb t pre rest hpk hinv
    unfold packList at hpk
    injection hpk with h2
    subst h2
    simp [decodeTrackMetaLoop]
  | cons p tl ih =>
    intro mb t pre rest hpk hinv
    obtain ⟨k, v⟩ := p
    unfold packList at hpk
    obtain ⟨b, hb, hpk⟩ := bindE_ok _ _ _ hpk
    obtain ⟨bs, hbs, hpk⟩ := bindE_ok _ _ _ hpk
    injection hpk with h2
    subst h2
    obtain ⟨hklen, hvlen, hbshape⟩ := packTrackMetaEntry_ok k v b hb
    have hEntry := hinv (k, v) (by simp)
    obtain ⟨hne, hgood, hklt, hvlt, hshadow, hstrs⟩ := hinv (k, v) (by simp)
    simp only at hne hgood hklt hvlt hshadow hstrs
    have hstream : pre ++ ((b ++ bs) ++ rest)
        = pre ++ (u16le (utf8Encode k).length ++ (utf8Encode k
            ++ (u16le (utf8Encode (pyStrOf v)).length
            ++ (utf8Encode (pyStrOf v) ++ (bs ++ rest))))) := by
      rw [hbshape]
      simp [List.append_assoc]
    have harr : pre ++ (u16le (utf8Encode k).length ++ (utf8Encode k
            ++ (u16le (utf8Encode (pyStrOf v)).length
            ++ (utf8Encode (pyStrOf v) ++ (bs ++ rest)))))
        = (pre ++ b) ++ (bs ++ rest) := by
      rw [hbshape]
      simp [List.append_assoc]
    have hpos : pre.length + 2 + (utf8Encode k).length + 2
          + (utf8Encode (pyStrOf v)).length = (pre ++ b).length := by
      rw [hbshape]
      simp [List.length_append, u16le_length]
      omega
    have hpos2 : (pre ++ b).length + bs.length = pre.length + (b ++ bs).length := by
      simp [List.length_append]
      omega
    have hkdec : utf8Decode (utf8Encode k) = some k := hgood
    rw [List.length_cons, hstream,
      metaLoop_step pre (utf8Encode k) (utf8Encode (pyStrOf v)) (bs ++ rest)
        k t tl.length hklt hvlt hkdec]
    simp only [List.foldl_cons]
    by_cases hss : k = sSS
    · subst hss
      obtain ⟨n, hn⟩ := hshadow (Or.inl rfl)
      subst hn
      have hev : utf8Encode (pyStrOf (PyVal.int n)) = intToStr n := by
        unfold pyStrOf
        exact ascii_encode _ (intToStr_ascii n)
      have hpi : parseInt (utf8Encode (pyStrOf (PyVal.int n))) = some n := by
        rw [hev]
        exact parseInt_intToStr n
      have hne58 : sSS = 58 :: [83, 84, 65, 82, 84, 83, 65, 77, 80, 76, 69] := rfl
      rw [hne58]
      simp only [↓reduceIte, ← hne58, hpi]
      rw [applyEntry_sSS]
      simp only [intOfVal]
      rw [harr, hpos,
        ih bs (t.set_startsample n) (pre ++ b) rest hbs
          (fun q hq => hinv q (by simp [hq])),
        hpos2]
    · by_cases hes : k = sES
      · subst hes
        obtain ⟨n, hn⟩ := hshadow (Or.inr rfl)
        subst hn
        have hev : utf8Encode (pyStrOf (PyVal.int n)) = intToStr n := by
          unfold pyStrOf
          exact ascii_encode _ (intToStr_ascii n)
        have hpi : parseInt (utf8Encode (pyStrOf (PyVal.int n))) = some n := by
          rw [hev]
          exact parseInt_intToStr n
        have hne58 : sES = 58 :: [69, 78, 68, 83, 65, 77, 80, 76, 69] := rfl
        rw [hne58]
        simp only [↓reduceIte, ← hne58, hpi]
        rw [if_neg (by decide : ¬sES = sSS)]
        rw [applyEntry_sES]
        simp only [intOfVal]
        rw [harr, hpos,
          ih bs (t.set_endsample n) (pre ++ b) rest hbs
            (fun q hq => hinv q (by simp [hq])),
          hpos2]
      · have hvdec : utf8Decode (utf8Encode (pyStrOf v)) = some (pyStrOf v) :=
          entryInv_val_good (k, v) hEntry
        obtain ⟨c0, kt, rfl⟩ : ∃ c0 kt, k = c0 :: kt := by
          cases k with
          | nil => exact absurd rfl hne
          | cons a b2 => exact ⟨a, b2, rfl⟩
        simp only []
        rw [applyEntry_other t (c0 :: kt) v hss hes]
        by_cases hc0 : c0 = 58
        · rw [if_pos hc0, if_neg hss, if_neg hes, hvdec]
          simp only []
          rw [harr, hpos,
            ih bs _ (pre ++ b) rest hbs (fun q hq => hinv q (by simp [hq])),
            hpos2]
        · rw [if_neg hc0, hvdec]
          simp only []
          rw [harr, hpos,
            ih bs _ (pre ++ b) rest hbs (fun q hq => hinv q (by simp [hq])),
            hpos2]

theorem dictInsert_shadow_pair (a b : PyVal) :
    dictInsert (dictInsert [] sSS a) sES b = [(sSS, a), (sES, b)] := by
  rw [show dictInsert ([] : List (PyStr × PyVal)) sSS a = [(sSS, a)] from rfl,
    dictInsert_cons_ne sSS a sES b [] (by decide)]
  rfl

set_option maxHeartbeats 2000000 in
/-- Re-decoding the body section `Track.pack` wrote (samples through
metadata) at minor version 2 rebuilds a track matching the packed one. -/
theorem packBody_sim (t : Track) (n1 n2 : Int)
    (tail wtail wm : List (PyStr × PyVal)) (mb : List Nat) (t0 : Track)
    (pre rest : List Nat)
    (hmeta : t.meta = (sSS, .int n1) :: (sES, .int n2) :: tail)
    (htail : ∀ p ∈ tail, p.1 ≠ sSS ∧ p.1 ≠ sES ∧ EntryInv p ∧ ∃ s, p.2 = PyVal.str s)
    (hnd : (tail.map Prod.fst).Nodup)
    (hwt : writableMeta tail = .ok wtail)
    (hwm : wm = (sSS, PyVal.int n1) :: (sES, PyVal.int n2) :: wtail)
    (hEwm : ∀ p ∈ wm, EntryInv p)
    (hn1a : -2147483648 ≤ n1) (hn1b : n1 < 2147483648)
    (hn2a : -2147483648 ≤ n2) (hn2b : n2 < 2147483648)
    (hfl : t.flags < 4294967296)
    (hwma : -32768 ≤ (wm.length : Int)) (hwmb : (wm.length : Int) < 32768)
    (hftg : StrGood t.filetype)
    (hmb : packList (fun p => packTrackMetaEntry p.1 p.2) wm = .ok mb)
    (h0meta : t0.meta = []) (h0ft : t0.filetype = []) :
    ∃ t2, decodeTrackBody
        (pre ++ (u32le (toUnsigned 32 n1) ++ (u32le (toUnsigned 32 n2)
          ++ (u32le t.duration ++ ([(utf8Encode t.filetype).length]
          ++ (utf8Encode t.filetype
          ++ (u32le t.replaygain_albumgain ++ (u32le t.replaygain_albumpeak
          ++ (u32le t.replaygain_trackgain ++ (u32le t.replaygain_trackpeak
          ++ (u32le t.flags ++ (u16le (toUnsigned 16 (wm.length : Int))
          ++ (mb ++ rest)))))))))))))
        2 t0 pre.length
      = .ok (t2, pre.length + 35 + (utf8Encode t.filetype).length + mb.length)
      ∧ trackMatch t t2 := by
  unfold decodeTrackBody
  have h8 : readExactN
      (pre ++ (u32le (toUnsigned 32 n1) ++ (u32le (toUnsigned 32 n2)
        ++ (u32le t.duration ++ ([(utf8Encode t.filetype).length]
        ++ (utf8Encode t.filetype
        ++ (u32le t.replaygain_albumgain ++ (u32le t.replaygain_albumpeak
        ++ (u32le t.replaygain_trackgain ++ (u32le t.replaygain_trackpeak
        ++ (u32le t.flags ++ (u16le (toUnsigned 16 (wm.length : Int))
        ++ (mb ++ rest)))))))))))))
      pre.length 8
      = .ok (u32le (toUnsigned 32 n1) ++ u32le (toUnsigned 32 n2),
          pre.length + 8) := by
    have h0 := readExactN_at pre
      (u32le (toUnsigned 32 n1) ++ u32le (toUnsigned 32 n2))
      (u32le t.duration ++ ([(utf8Encode t.filetype).length]
        ++ (utf8Encode t.filetype
        ++ (u32le t.replaygain_albumgain ++ (u32le t.replaygain_albumpeak
        ++ (u32le t.replaygain_trackgain ++ (u32le t.replaygain_trackpeak
        ++ (u32le t.flags ++ (u16le (toUnsigned 16 (wm.length : Int))
        ++ (mb ++ rest))))))))))
    simp only [List.length_append, u32le_length, List.append_assoc] at h0
    simpa using h0
  rw [h8]
  simp only []
  rw [List.take_left' (u32le_length (toUnsigned 32 n1)),
    List.drop_left' (u32le_length (toUnsigned 32 n1)),
    leNat_u32le _ (toUnsigned32_lt n1), leNat_u32le _ (toUnsigned32_lt n2),
    toSigned32_toUnsigned32 n1 hn1a hn1b, toSigned32_toUnsigned32 n2 hn2a hn2b]
  have h4dur : readExactN
      (pre ++ (u32le (toUnsigned 32 n1) ++ (u32le (toUnsigned 32 n2)
        ++ (u32le t.duration ++ ([(utf8Encode t.filetype).length]
        ++ (utf8Encode t.filetype
        ++ (u32le t.replaygain_albumgain ++ (u32le t.replaygain_albumpeak
        ++ (u32le t.replaygain_trackgain ++ (u32le t.replaygain_trackpeak
        ++ (u32le t.flags ++ (u16le (toUnsigned 16 (wm.length : Int))
        ++ (mb ++ rest)))))))))))))
      (pre.length + 8) 4
      = .ok (u32le t.duration, pre.length + 12) := by
    have h0 := readExactN_at
      (pre ++ (u32le (toUnsigned 32 n1) ++ u32le (toUnsigned 32 n2)))
      (u32le t.duration)
      ([(utf8Encode t.filetype).length]
        ++ (utf8Encode t.filetype
        ++ (u32le t.replaygain_albumgain ++ (u32le t.replaygain_albumpeak
        ++ (u32le t.replaygain_trackgain ++ (u32le t.replaygain_trackpeak
        ++ (u32le t.flags ++ (u16le (toUnsigned 16 (wm.length : Int))
        ++ (mb ++ rest)))))))))
    simp only [List.length_append, u32le_length, List.append_assoc] at h0
    simpa [Nat.add_assoc] using h0
  rw [h4dur]
  simp only []
  rw [if_pos (le_refl 2)]
  have hftl8 : readU8
      (pre ++ (u32le (toUnsigned 32 n1) ++ (u32le (toUnsigned 32 n2)
        ++ (u32le t.duration ++ ([(utf8Encode t.filetype).length]
        ++ (utf8Encode t.filetype
        ++ (u32le t.replaygain_albumgain ++ (u32le t.replaygain_albumpeak
        ++ (u32le t.replaygain_trackgain ++ (u32le t.replaygain_trackpeak
        ++ (u32le t.flags ++ (u16le (toUnsigned 16 (wm.length : Int))
        ++ (mb ++ rest)))))))))))))
      (pre.length + 12)
      = .ok ((utf8Encode t.filetype).length, pre.length + 13) := by
    have h0 := readU8_at
      (pre ++ (u32le (toUnsigned 32 n1) ++ (u32le (toUnsigned 32 n2)
        ++ u32le t.duration)))
      (utf8Encode t.filetype
        ++ (u32le t.replaygain_albumgain ++ (u32le t.replaygain_albumpeak
        ++ (u32le t.replaygain_trackgain ++ (u32le t.replaygain_trackpeak
        ++ (u32le t.flags ++ (u16le (toUnsigned 16 (wm.length : Int))
        ++ (mb ++ rest))))))))
      (utf8Encode t.filetype).length
    simp only [List.length_append, u32le_length, List.append_assoc] at h0
    simpa [Nat.add_assoc] using h0
  rw [hftl8]
  simp only []
  have hftb : pyRead
      (pre ++ (u32le (toUnsigned 32 n1) ++ (u32le (toUnsigned 32 n2)
        ++ (u32le t.duration ++ ([(utf8Encode t.filetype).length]
        ++ (utf8Encode t.filetype
        ++ (u32le t.replaygain_albumgain ++ (u32le t.replaygain_albumpeak
        ++ (u32le t.replaygain_trackgain ++ (u32le t.replaygain_trackpeak
        ++ (u32le t.flags ++ (u16le (toUnsigned 16 (wm.length : Int))
        ++ (mb ++ rest)))))))))))))
      (pre.length + 13) (utf8Encode t.filetype).length
      = utf8Encode t.filetype := by
    have h0 := pyRead_at
      (pre ++ (u32le (toUnsigned 32 n1) ++ (u32le (toUnsigned 32 n2)
        ++ (u32le t.duration ++ [(utf8Encode t.filetype).length]))))
      (utf8Encode t.filetype)
      (u32le t.replaygain_albumgain ++ (u32le t.replaygain_albumpeak
        ++ (u32le t.replaygain_trackgain ++ (u32le t.replaygain_trackpeak
        ++ (u32le t.flags ++ (u16le (toUnsigned 16 (wm.length : Int))
        ++ (mb ++ rest)))))))
    simp only [List.length_append, u32le_length, List.length_cons,
      List.length_nil, List.append_assoc] at h0
    simpa [Nat.add_assoc] using h0
  rw [hftb]
  simp only [Track.set_startsample, Track.set_endsample]
  have hftcase : (if (utf8Encode t.filetype).length ≠ 0
      then utf8Decode (utf8Encode t.filetype)
      else some t0.filetype) = some t.filetype := by
    by_cases hfe : t.filetype = []
    · rw [if_neg (by simp [hfe, utf8Encode_nil]), h0ft, hfe]
    · rw [if_pos (by
        rw [Ne, List.length_eq_zero, utf8Encode_eq_nil_iff]
        exact hfe)]
      exact hftg
  rw [hftcase]
  simp only []
  have h16 : readExactN
      (pre ++ (u32le (toUnsigned 32 n1) ++ (u32le (toUnsigned 32 n2)
        ++ (u32le t.duration ++ ([(utf8Encode t.filetype).length]
        ++ (utf8Encode t.filetype
        ++ (u32le t.replaygain_albumgain ++ (u32le t.replaygain_albumpeak
        ++ (u32le t.replaygain_trackgain ++ (u32le t.replaygain_trackpeak
        ++ (u32le t.flags ++ (u16le (toUnsigned 16 (wm.length : Int))
        ++ (mb ++ rest)))))))))))))
      (pre.length + 13 + (utf8Encode t.filetype).length) 16
      = .ok (u32le t.replaygain_albumgain ++ (u32le t.replaygain_albumpeak
          ++ (u32le t.replaygain_trackgain ++ u32le t.replaygain_trackpeak)),
          pre.length + 29 + (utf8Encode t.filetype).length) := by
    have h0 := readExactN_at
      (pre ++ (u32le (toUnsigned 32 n1) ++ (u32le (toUnsigned 32 n2)
        ++ (u32le t.duration ++ ([(utf8Encode t.filetype).length]
        ++ utf8Encode t.filetype)))))
      (u32le t.replaygain_albumgain ++ (u32le t.replaygain_albumpeak
        ++ (u32le t.replaygain_trackgain ++ u32le t.replaygain_trackpeak)))
      (u32le t.flags ++ (u16le (toUnsigned 16 (wm.length : Int))
        ++ (mb ++ rest)))
    have hml : (u32le t.replaygain_albumgain ++ (u32le t.replaygain_albumpeak
        ++ (u32le t.replaygain_trackgain ++ u32le t.replaygain_trackpeak))).length
        = 16 := by
      simp [u32le_length]
    have hpl : (pre ++ (u32le (toUnsigned 32 n1) ++ (u32le (toUnsigned 32 n2)
        ++ (u32le t.duration ++ ([(utf8Encode t.filetype).length]
        ++ utf8Encode t.filetype))))).length
        = pre.length + 13 + (utf8Encode t.filetype).length := by
      simp only [List.length_append, List.length_cons, List.length_nil,
        u32le_length]
      omega
    rw [hml, hpl] at h0
    rw [show pre.length + 13 + (utf8Encode t.filetype).length + 16
        = pre.length + 29 + (utf8Encode t.filetype).length from by omega] at h0
    simpa only [List.append_assoc, List.cons_append, List.nil_append] using h0
  rw [h16]
  simp only []
  rw [if_pos (le_refl 2)]
  have h32fl : readU32
      (pre ++ (u32le (toUnsigned 32 n1) ++ (u32le (toUnsigned 32 n2)
        ++ (u32le t.duration ++ ([(utf8Encode t.filetype).length]
        ++ (utf8Encode t.filetype
        ++ (u32le t.replaygain_albumgain ++ (u32le t.replaygain_albumpeak
        ++ (u32le t.replaygain_trackgain ++ (u32le t.replaygain_trackpeak
        ++ (u32le t.flags ++ (u16le (toUnsigned 16 (wm.length : Int))
        ++ (mb ++ rest)))))))))))))
      (pre.length + 29 + (utf8Encode t.filetype).length)
      = .ok (t.flags, pre.length + 33 + (utf8Encode t.filetype).length) := by
    have h0 := readU32_at
      (pre ++ (u32le (toUnsigned 32 n1) ++ (u32le (toUnsigned 32 n2)
        ++ (u32le t.duration ++ ([(utf8Encode t.filetype).length]
        ++ (utf8Encode t.filetype
        ++ (u32le t.replaygain_albumgain ++ (u32le t.replaygain_albumpeak
        ++ (u32le t.replaygain_trackgain ++ u32le t.replaygain_trackpeak)))))))))
      (u16le (toUnsigned 16 (wm.length : Int)) ++ (mb ++ rest))
      t.flags hfl
    have hpl : (pre ++ (u32le (toUnsigned 32 n1) ++ (u32le (toUnsigned 32 n2)
        ++ (u32le t.duration ++ ([(utf8Encode t.filetype).length]
        ++ (utf8Encode t.filetype
        ++ (u32le t.replaygain_albumgain ++ (u32le t.replaygain_albumpeak
        ++ (u32le t.replaygain_trackgain ++ u32le t.replaygain_trackpeak))))))))).length
        = pre.length + 29 + (utf8Encode t.filetype).length := by
      simp only [List.length_append, List.length_cons, List.length_nil,
        u32le_length]
      omega
    rw [hpl] at h0
    rw [show pre.length + 29 + (utf8Encode t.filetype).length + 4
        = pre.length + 33 + (utf8Encode t.filetype).length from by omega] at h0
    simpa only [List.append_assoc, List.cons_append, List.nil_append] using h0
  rw [h32fl]
  simp only []
  have hi16 : readI16
      (pre ++ (u32le (toUnsigned 32 n1) ++ (u32le (toUnsigned 32 n2)
        ++ (u32le t.duration ++ ([(utf8Encode t.filetype).length]
        ++ (utf8Encode t.filetype
        ++ (u32le t.replaygain_albumgain ++ (u32le t.replaygain_albumpeak
        ++ (u32le t.replaygain_trackgain ++ (u32le t.replaygain_trackpeak
        ++ (u32le t.flags ++ (u16le (toUnsigned 16 (wm.length : Int))
        ++ (mb ++ rest)))))))))))))
      (pre.length + 33 + (utf8Encode t.filetype).length)
      = .ok ((wm.length : Int),
          pre.length + 35 + (utf8Encode t.filetype).length) := by
    have h0 := readI16_raw_at
      (pre ++ (u32le (toUnsigned 32 n1) ++ (u32le (toUnsigned 32 n2)
        ++ (u32le t.duration ++ ([(utf8Encode t.filetype).length]
        ++ (utf8Encode t.filetype
        ++ (u32le t.replaygain_albumgain ++ (u32le t.replaygain_albumpeak
        ++ (u32le t.replaygain_trackgain ++ (u32le t.replaygain_trackpeak
        ++ u32le t.flags))))))))))
      (mb ++ rest)
      (toUnsigned 16 (wm.length : Int)) (toUnsigned16_lt _)
    have hpl : (pre ++ (u32le (toUnsigned 32 n1) ++ (u32le (toUnsigned 32 n2)
        ++ (u32le t.duration ++ ([(utf8Encode t.filetype).length]
        ++ (utf8Encode t.filetype
        ++ (u32le t.replaygain_albumgain ++ (u32le t.replaygain_albumpeak
        ++ (u32le t.replaygain_trackgain ++ (u32le t.replaygain_trackpeak
        ++ u32le t.flags)))))))))).length
        = pre.length + 33 + (utf8Encode t.filetype).length := by
      simp only [List.length_append, List.length_cons, List.length_nil,
        u32le_length]
      omega
    rw [hpl] at h0
    rw [show pre.length + 33 + (utf8Encode t.filetype).length + 2
        = pre.length + 35 + (utf8Encode t.filetype).length from by omega] at h0
    rw [toSigned16_toUnsigned16 _ hwma hwmb] at h0
    simpa only [List.append_assoc, List.cons_append, List.nil_append] using h0
  rw [hi16]
  simp only []
  rw [show ((wm.length : Int)).toNat = wm.length from by omega]
  have hstr : pre ++ (u32le (toUnsigned 32 n1) ++ (u32le (toUnsigned 32 n2)
        ++ (u32le t.duration ++ ([(utf8Encode t.filetype).length]
        ++ (utf8Encode t.filetype
        ++ (u32le t.replaygain_albumgain ++ (u32le t.replaygain_albumpeak
        ++ (u32le t.replaygain_trackgain ++ (u32le t.replaygain_trackpeak
        ++ (u32le t.flags ++ (u16le (toUnsigned 16 (wm.length : Int))
        ++ (mb ++ rest))))))))))))
      = (pre ++ (u32le (toUnsigned 32 n1) ++ (u32le (toUnsigned 32 n2)
        ++ (u32le t.duration ++ ([(utf8Encode t.filetype).length]
        ++ (utf8Encode t.filetype
        ++ (u32le t.replaygain_albumgain ++ (u32le t.replaygain_albumpeak
        ++ (u32le t.replaygain_trackgain ++ (u32le t.replaygain_trackpeak
        ++ (u32le t.flags ++ u16le (toUnsigned 16 (wm.length : Int)))))))))))))
        ++ (mb ++ rest) := by
    simp [List.append_assoc]
  have hlen2 : (pre ++ (u32le (toUnsigned 32 n1) ++ (u32le (toUnsigned 32 n2)
        ++ (u32le t.duration ++ ([(utf8Encode t.filetype).length]
        ++ (utf8Encode t.filetype
        ++ (u32le t.replaygain_albumgain ++ (u32le t.replaygain_albumpeak
        ++ (u32le t.replaygain_trackgain ++ (u32le t.replaygain_trackpeak
        ++ (u32le t.flags ++ u16le (toUnsigned 16 (wm.length : Int))))))))))))).length
      = pre.length + 35 + (utf8Encode t.filetype).length := by
    simp only [List.length_append, u32le_length, u16le_length,
      List.length_cons, List.length_nil]
    omega
  rw [hstr, ← hlen2]
  rw [trackMetaLoop_sim wm mb _ _ rest hmb hEwm]
  refine ⟨_, rfl, ?_⟩
  rw [hwm]
  apply foldl_applyEntry_match t _ n1 n2 tail wtail hmeta htail hnd hwt
  · split_ifs <;> simp [h0meta, dictInsert_shadow_pair]
  · rfl


set_option maxHeartbeats 2000000 in
/-- Re-decoding the bytes `Track.pack` wrote for a decoder-produced track at
minor version 2 yields a matching track and consumes exactly those bytes. -/
theorem packTrack_sim (t : Track) (tb : List Nat) (pre rest : List Nat)
    (hpk : Track.pack t = .ok tb) (hinv : TrackInv t) :
    ∃ t2, decodeTrack (pre ++ (tb ++ rest)) 2 pre.length
        = .ok (t2, pre.length + tb.length) ∧ trackMatch t t2 := by
  obtain ⟨hshape, huriG, hdecG, hdecL, hftG⟩ := hinv
  obtain ⟨n1, n2, tail, hmeta, htail, hnd⟩ := hshape
  obtain ⟨u, ulb, dlb, nb, ssb, esb, ftlb, flb, wm, mcb, mb,
    hu, hq1, hq2, hq3, hq4, hq5, hq6, hq7, hq8, hq9, hq10, hB⟩ :=
    pack_ok_shape t tb hpk
  obtain ⟨hul, rfl⟩ := packU16_ok _ _ hq1
  obtain ⟨hnuma, hnumb, rfl⟩ := packI16_ok _ _ hq3
  have hgss : t.get_startsample = PyVal.int n1 := by
    unfold Track.get_startsample
    rw [hmeta, dictLookup_cons_self]
  have hges : t.get_endsample = PyVal.int n2 := by
    unfold Track.get_endsample
    rw [hmeta, dictLookup_cons_ne _ _ _ _ (by decide : sSS ≠ sES),
      dictLookup_cons_self]
  obtain ⟨m1, hm1, hn1a, hn1b, rfl⟩ := packI32Val_ok _ _ hq4
  rw [hgss, PyVal.int.injEq] at hm1
  subst hm1
  obtain ⟨m2, hm2, hn2a, hn2b, rfl⟩ := packI32Val_ok _ _ hq5
  rw [hges, PyVal.int.injEq] at hm2
  subst hm2
  obtain ⟨hftl, rfl⟩ := appendByte_ok _ _ hq6
  obtain ⟨hfl, rfl⟩ := packU32_ok _ _ hq7
  obtain ⟨hwma, hwmb, rfl⟩ := packI16_ok _ _ hq9
  have hug : StrGood u := by
    unfold Track.get_uri at hu
    cases hlk : dictLookup t.meta sURI with
    | none =>
      rw [hlk] at hu
      simp only [] at hu
      rw [PyVal.str.injEq] at hu
      rw [← hu]
      exact huriG
    | some v =>
      rw [hlk] at hu
      simp only [] at hu
      have hmem := dictLookup_mem _ _ _ hlk
      rw [hmeta] at hmem
      rcases List.mem_cons.mp hmem with hc | hmem
      · rw [Prod.mk.injEq] at hc
        exact absurd hc.1 (by decide)
      rcases List.mem_cons.mp hmem with hc | hmem
      · rw [Prod.mk.injEq] at hc
        exact absurd hc.1 (by decide)
      obtain ⟨_, _, hE, _⟩ := htail _ hmem
      obtain ⟨_, _, _, _, _, hstr⟩ := hE
      exact hstr u (by rw [← hu])
  obtain ⟨wtail, hwt⟩ := writableMeta_ok_of_nonempty tail
    (fun p hp => ((htail p hp).2.2.1).1)
  have hq8a : writableMeta t.meta
      = .ok ((sSS, PyVal.int n1) :: (sES, PyVal.int n2) :: wtail) := by
    rw [hmeta]
    exact writableMeta_cons_colon sSS [83, 84, 65, 82, 84, 83, 65, 77, 80, 76, 69]
      rfl (PyVal.int n1) ((sES, PyVal.int n2) :: tail)
      ((sES, PyVal.int n2) :: wtail)
      (writableMeta_cons_colon sES [69, 78, 68, 83, 65, 77, 80, 76, 69]
        rfl (PyVal.int n2) tail wtail hwt)
  have hwm : wm = (sSS, PyVal.int n1) :: (sES, PyVal.int n2) :: wtail := by
    rw [hq8] at hq8a
    exact Except.ok.inj hq8a
  have hEwm : ∀ p ∈ wm, EntryInv p := by
    rw [hwm]
    intro p hp
    rcases List.mem_cons.mp hp with hc | hp
    · subst hc
      show sSS ≠ [] ∧ StrGood sSS ∧ (utf8Encode sSS).length < 20000
        ∧ (utf8Encode (pyStrOf (PyVal.int n1))).length < 20000
        ∧ ((sSS = sSS ∨ sSS = sES) → ∃ m, PyVal.int n1 = PyVal.int m)
        ∧ (∀ s2, PyVal.int n1 = PyVal.str s2 → StrGood s2)
      exact ⟨by decide, strGood_of_ascii sSS (by decide), by decide,
        intVal_bytes_short n1 hn1a hn1b, fun _ => ⟨n1, rfl⟩,
        fun s2 hs => PyVal.noConfusion hs⟩
    rcases List.mem_cons.mp hp with hc | hp
    · subst hc
      show sES ≠ [] ∧ StrGood sES ∧ (utf8Encode sES).length < 20000
        ∧ (utf8Encode (pyStrOf (PyVal.int n2))).length < 20000
        ∧ ((sES = sSS ∨ sES = sES) → ∃ m, PyVal.int n2 = PyVal.int m)
        ∧ (∀ s2, PyVal.int n2 = PyVal.str s2 → StrGood s2)
      exact ⟨by decide, strGood_of_ascii sES (by decide), by decide,
        intVal_bytes_short n2 hn2a hn2b, fun _ => ⟨n2, rfl⟩,
        fun s2 hs => PyVal.noConfusion hs⟩
    · exact ((htail p ((writableMeta_sublist tail wtail hwt).subset hp)).2.2).1
  have hdlb : dlb = [(utf8Encode t.decoder).length] := by
    by_cases hdn : t.decoder = []
    · rw [if_neg (fun h => h hdn)] at hq2
      rw [hdn, utf8Encode_nil]
      exact (Except.ok.inj hq2).symm
    · rw [if_pos hdn] at hq2
      exact (appendByte_ok _ _ hq2).2
  have hedc : (if t.decoder ≠ [] then utf8Encode t.decoder else [])
      = utf8Encode t.decoder := by
    by_cases hdn : t.decoder = [] <;> simp [hdn, utf8Encode_nil]
  have heft : (if t.filetype ≠ [] then utf8Encode t.filetype else [])
      = utf8Encode t.filetype := by
    by_cases hfn : t.filetype = [] <;> simp [hfn, utf8Encode_nil]
  rw [hB, hdlb, hedc, heft]
  simp only [List.append_assoc]
  set BB := pre ++ (u16le (utf8Encode u).length ++ (utf8Encode u ++ ([(utf8Encode t.decoder).length] ++ (utf8Encode t.decoder ++ (u16le (toUnsigned 16 t.num) ++ (u32le (toUnsigned 32 n1) ++ (u32le (toUnsigned 32 n2) ++ (u32le t.duration ++ ([(utf8Encode t.filetype).length] ++ (utf8Encode t.filetype ++ (u32le t.replaygain_albumgain ++ (u32le t.replaygain_albumpeak ++ (u32le t.replaygain_trackgain ++ (u32le t.replaygain_trackpeak ++ (u32le t.flags ++ (u16le (toUnsigned 16 (wm.length : Int)) ++ (mb ++ (rest)))))))))))))))))) with hBB
  unfold decodeTrack
  rw [if_pos (le_refl 2)]
  have hu16 : readU16 BB pre.length
      = .ok ((utf8Encode u).length, pre.length + 2) := by
    rw [hBB]
    exact readU16_at pre _ (utf8Encode u).length hul
  rw [hu16]
  simp only []
  have hru : pyRead BB (pre.length + 2) (utf8Encode u).length
      = utf8Encode u := by
    rw [hBB]
    have h0 := pyRead_at (pre ++ u16le (utf8Encode u).length) (utf8Encode u)
      ([(utf8Encode t.decoder).length] ++ (utf8Encode t.decoder ++ (u16le (toUnsigned 16 t.num) ++ (u32le (toUnsigned 32 n1) ++ (u32le (toUnsigned 32 n2) ++ (u32le t.duration ++ ([(utf8Encode t.filetype).length] ++ (utf8Encode t.filetype ++ (u32le t.replaygain_albumgain ++ (u32le t.replaygain_albumpeak ++ (u32le t.replaygain_trackgain ++ (u32le t.replaygain_trackpeak ++ (u32le t.flags ++ (u16le (toUnsigned 16 (wm.length : Int)) ++ (mb ++ (rest))))))))))))))))
    have hpl : (pre ++ u16le (utf8Encode u).length).length
        = pre.length + 2 := by
      simp [u16le_length]
    rw [hpl] at h0
    simpa only [List.append_assoc, List.cons_append, List.nil_append] using h0
  have hudec : utf8Decode (utf8Encode u) = some u := hug
  rw [hru, hudec]
  simp only []
  have hr8 : readU8 BB (pre.length + 2 + (utf8Encode u).length)
      = .ok ((utf8Encode t.decoder).length,
        pre.length + 2 + (utf8Encode u).length + 1) := by
    rw [hBB]
    have h0 := readU8_at (pre ++ (u16le (utf8Encode u).length ++ (utf8Encode u)))
      (utf8Encode t.decoder ++ (u16le (toUnsigned 16 t.num) ++ (u32le (toUnsigned 32 n1) ++ (u32le (toUnsigned 32 n2) ++ (u32le t.duration ++ ([(utf8Encode t.filetype).length] ++ (utf8Encode t.filetype ++ (u32le t.replaygain_albumgain ++ (u32le t.replaygain_albumpeak ++ (u32le t.replaygain_trackgain ++ (u32le t.replaygain_trackpeak ++ (u32le t.flags ++ (u16le (toUnsigned 16 (wm.length : Int)) ++ (mb ++ (rest)))))))))))))))
      (utf8Encode t.decoder).length
    have hpl : (pre ++ (u16le (utf8Encode u).length ++ (utf8Encode u))).length
        = pre.length + 2 + (utf8Encode u).length := by
      simp only [List.length_append, u16le_length]
      omega
    rw [hpl] at h0
    simpa only [List.append_assoc, List.cons_append, List.nil_append] using h0
  rw [hr8]
  simp only []
  rw [if_neg (by omega : ¬20 ≤ (utf8Encode t.decoder).length)]
  have hrd : pyRead BB (pre.length + 2 + (utf8Encode u).length + 1)
      (utf8Encode t.decoder).length = utf8Encode t.decoder := by
    rw [hBB]
    have h0 := pyRead_at (pre ++ (u16le (utf8Encode u).length ++ (utf8Encode u ++ ([(utf8Encode t.decoder).length]))))
      (utf8Encode t.decoder)
      (u16le (toUnsigned 16 t.num) ++ (u32le (toUnsigned 32 n1) ++ (u32le (toUnsigned 32 n2) ++ (u32le t.duration ++ ([(utf8Encode t.filetype).length] ++ (utf8Encode t.filetype ++ (u32le t.replaygain_albumgain ++ (u32le t.replaygain_albumpeak ++ (u32le t.replaygain_trackgain ++ (u32le t.replaygain_trackpeak ++ (u32le t.flags ++ (u16le (toUnsigned 16 (wm.length : Int)) ++ (mb ++ (rest))))))))))))))
    have hpl : (pre ++ (u16le (utf8Encode u).length ++ (utf8Encode u ++ ([(utf8Encode t.decoder).length])))).length
        = pre.length + 2 + (utf8Encode u).length + 1 := by
      simp only [List.length_append, u16le_length, List.length_cons,
        List.length_nil]
      omega
    rw [hpl] at h0
    simpa only [List.append_assoc, List.cons_append, List.nil_append] using h0
  rw [hrd]
  have hdcase : (if (utf8Encode t.decoder).length ≠ 0
      then utf8Decode (utf8Encode t.decoder)
      else some Track.init.decoder) = some t.decoder := by
    by_cases hdn : t.decoder = []
    · rw [if_neg (by simp [hdn, utf8Encode_nil]), hdn]
      rfl
    · rw [if_pos (by
        rw [Ne, List.length_eq_zero, utf8Encode_eq_nil_iff]
        exact hdn)]
      exact hdecG
  rw [hdcase]
  simp only []
  have hp4 : (if (utf8Encode t.decoder).length ≠ 0
      then pre.length + 2 + (utf8Encode u).length + 1
        + (utf8Encode t.decoder).length
      else pre.length + 2 + (utf8Encode u).length + 1)
      = pre.length + 2 + (utf8Encode u).length + 1
        + (utf8Encode t.decoder).length := by
    by_cases h0 : (utf8Encode t.decoder).length = 0
    · rw [if_neg (fun h => h h0), h0]
    · rw [if_pos h0]
  rw [hp4]
  have hri16 : readI16 BB
      (pre.length + 2 + (utf8Encode u).length + 1 + (utf8Encode t.decoder).length)
      = .ok (t.num, pre.length + 2 + (utf8Encode u).length + 1
          + (utf8Encode t.decoder).length + 2) := by
    rw [hBB]
    have h0 := readI16_raw_at (pre ++ (u16le (utf8Encode u).length ++ (utf8Encode u ++ ([(utf8Encode t.decoder).length] ++ (utf8Encode t.decoder)))))
      (u32le (toUnsigned 32 n1) ++ (u32le (toUnsigned 32 n2) ++ (u32le t.duration ++ ([(utf8Encode t.filetype).length] ++ (utf8Encode t.filetype ++ (u32le t.replaygain_albumgain ++ (u32le t.replaygain_albumpeak ++ (u32le t.replaygain_trackgain ++ (u32le t.replaygain_trackpeak ++ (u32le t.flags ++ (u16le (toUnsigned 16 (wm.length : Int)) ++ (mb ++ (rest)))))))))))))
      (toUnsigned 16 t.num) (toUnsigned16_lt _)
    have hpl : (pre ++ (u16le (utf8Encode u).length ++ (utf8Encode u ++ ([(utf8Encode t.decoder).length] ++ (utf8Encode t.decoder))))).length
        = pre.length + 2 + (utf8Encode u).length + 1
          + (utf8Encode t.decoder).length := by
      simp only [List.length_append, u16le_length, List.length_cons,
        List.length_nil]
      omega
    rw [hpl] at h0
    rw [toSigned16_toUnsigned16 _ hnuma hnumb] at h0
    simpa only [List.append_assoc, List.cons_append, List.nil_append] using h0
  rw [hri16]
  simp only []
  have hsplit : BB = (pre ++ (u16le (utf8Encode u).length ++ (utf8Encode u ++ ([(utf8Encode t.decoder).length] ++ (utf8Encode t.decoder ++ (u16le (toUnsigned 16 t.num)))))))
      ++ (u32le (toUnsigned 32 n1) ++ (u32le (toUnsigned 32 n2) ++ (u32le t.duration ++ ([(utf8Encode t.filetype).length] ++ (utf8Encode t.filetype ++ (u32le t.replaygain_albumgain ++ (u32le t.replaygain_albumpeak ++ (u32le t.replaygain_trackgain ++ (u32le t.replaygain_trackpeak ++ (u32le t.flags ++ (u16le (toUnsigned 16 (wm.length : Int)) ++ (mb ++ (rest))))))))))))) := by
    rw [hBB]
    simp [List.append_assoc]
  have hpre5 : (pre ++ (u16le (utf8Encode u).length ++ (utf8Encode u ++ ([(utf8Encode t.decoder).length] ++ (utf8Encode t.decoder ++ (u16le (toUnsigned 16 t.num))))))).length
      = pre.length + 2 + (utf8Encode u).length + 1
        + (utf8Encode t.decoder).length + 2 := by
    simp only [List.length_append, u16le_length, List.length_cons,
      List.length_nil]
    omega
  rw [hsplit, ← hpre5]
  obtain ⟨t2, hdec2, hmatch⟩ := packBody_sim t n1 n2 tail wtail wm mb
    { Track.init with uri := u, decoder := t.decoder, num := t.num }
    (pre ++ (u16le (utf8Encode u).length ++ (utf8Encode u ++ ([(utf8Encode t.decoder).length] ++ (utf8Encode t.decoder ++ (u16le (toUnsigned 16 t.num)))))))
    rest hmeta htail hnd hwt hwm hEwm hn1a hn1b hn2a hn2b hfl hwma hwmb
    hftG hq10 rfl rfl
  rw [hdec2]
  refine ⟨t2, ?_, hmatch⟩
  have hfin : (pre ++ (u16le (utf8Encode u).length ++ (utf8Encode u ++ ([(utf8Encode t.decoder).length] ++ (utf8Encode t.decoder ++ (u16le (toUnsigned 16 t.num))))))).length + 35
        + (utf8Encode t.filetype).length + mb.length
      = pre.length + (u16le (utf8Encode u).length ++ (utf8Encode u ++ ([(utf8Encode t.decoder).length] ++ (utf8Encode t.decoder ++ (u16le (toUnsigned 16 t.num) ++ (u32le (toUnsigned 32 n1) ++ (u32le (toUnsigned 32 n2) ++ (u32le t.duration ++ ([(utf8Encode t.filetype).length] ++ (utf8Encode t.filetype ++ (u32le t.replaygain_albumgain ++ (u32le t.replaygain_albumpeak ++ (u32le t.replaygain_trackgain ++ (u32le t.replaygain_trackpeak ++ (u32le t.flags ++ (u16le (toUnsigned 16 (wm.length : Int)) ++ (mb))))))))))))))))).length := by
    simp only [List.length_append, u16le_length, u32le_length,
      List.length_cons, List.length_nil]
    omega
  rw [hfin]

/-- Re-decoding the concatenated packed tracks yields matching tracks in
order. -/
theorem tracksLoop_sim :
    ∀ (ts : List Track) (tbAll : List Nat) (pre rest : List Nat)
      (acc : List Track),
      packList Track.pack ts = .ok tbAll →
      (∀ t ∈ ts, TrackInv t) →
      ∃ ts2, decodeTracksLoop (pre ++ (tbAll ++ rest)) 2 ts.length acc pre.length
          = .ok (acc ++ ts2, pre.length + tbAll.length)
        ∧ List.Forall₂ trackMatch ts ts2 := by
  intro ts
  induction ts with
  | nil =>
    intro tbAll pre rest acc hpk hinv
    unfold packList at hpk
    injection hpk with h2
    subst h2
    exact ⟨[], by simp [decodeTracksLoop], List.Forall₂.nil⟩
  | cons t tl ih =>
    intro tbAll pre rest acc hpk hinv
    unfold packList at hpk
    obtain ⟨tb, htb, hpk⟩ := bindE_ok _ _ _ hpk
    obtain ⟨tbs, htbs, hpk⟩ := bindE_ok _ _ _ hpk
    injection hpk with h2
    subst h2
    obtain ⟨t2, hdec, hmatch⟩ := packTrack_sim t tb pre (tbs ++ rest) htb
      (hinv t (by simp))
    obtain ⟨ts2, hloop, hmatches⟩ := ih tbs (pre ++ tb) rest (acc ++ [t2])
      htbs (fun q hq => hinv q (by simp [hq]))
    refine ⟨t2 :: ts2, ?_, List.Forall₂.cons hmatch hmatches⟩
    rw [List.length_cons, List.append_assoc tb tbs rest]
    simp only [decodeTracksLoop]
    rw [hdec]
    simp only []
    rw [show pre ++ (tb ++ (tbs ++ rest)) = (pre ++ tb) ++ (tbs ++ rest) from by
      simp [List.append_assoc]]
    rw [show pre.length + tb.length = (pre ++ tb).length from by simp]
    rw [hloop]
    have h1 : (acc ++ [t2]) ++ ts2 = acc ++ t2 :: ts2 := by simp
    have h2 : (pre ++ tb).length + tbs.length = pre.length + (tb ++ tbs).length := by
      simp only [List.length_append]
      omega
    rw [h1, h2]

/-- Re-decoding the playlist-scope metadata bytes written by `Playlist.save`
rebuilds the same entries, provided all keys and values are ASCII. -/
theorem plMetaLoop_sim :
    ∀ (entries : List (PyStr × PyVal)) (mbAll : List Nat) (pre rest : List Nat)
      (m0 : List (PyStr × PyVal)),
      packList (fun p => savePlaylistMetaEntry p.1 p.2) entries = .ok mbAll →
      (∀ p ∈ entries, PlMetaInv p) →
      (∀ p ∈ entries, (∀ c ∈ p.1, c < 128) ∧ (∀ c ∈ pyStrOf p.2, c < 128)) →
      ((entries.map Prod.fst).Nodup) →
      (∀ k0 ∈ entries.map Prod.fst, k0 ∉ m0.map Prod.fst) →
      decodePlaylistMetaLoop (pre ++ (mbAll ++ rest)) entries.length m0 pre.length
        = .ok (m0 ++ entries, pre.length + mbAll.length) := by
  intro entries
  induction entries with
  | nil =>
    intro mbAll pre rest m0 hpk _ _ _ _
    unfold packList at hpk
    injection hpk with h2
    subst h2
    simp [decodePlaylistMetaLoop]
  | cons p tl ih =>
    intro mbAll pre rest m0 hpk hinv hascii hndk hdisj
    obtain ⟨k, v⟩ := p
    unfold packList at hpk
    obtain ⟨b, hb, hpk⟩ := bindE_ok _ _ _ hpk
    obtain ⟨bs, hbs, hpk⟩ := bindE_ok _ _ _ hpk
    injection hpk with h2
    subst h2
    obtain ⟨hkles, hvles, hbshape⟩ := savePlaylistMetaEntry_ok k v b hb
    obtain ⟨hkg, hklt, s, hvs, hsg, hslt⟩ := hinv (k, v) (by simp)
    obtain ⟨hka, hva⟩ := hascii (k, v) (by simp)
    simp only [] at hka hva hvs
    subst hvs
    have hpys : pyStrOf (PyVal.str s) = s := rfl
    rw [hpys] at hva hbshape
    have hek : utf8Encode k = k := ascii_encode k hka
    have hes : utf8Encode s = s := ascii_encode s hva
    rw [hek] at hklt
    rw [hes] at hslt
    rw [hek, hes] at hbshape
    have hkey : utf8Decode k = some k := utf8Decode_ascii k hka
    have hval : utf8Decode s = some s := utf8Decode_ascii s hva
    have hstream : pre ++ ((b ++ bs) ++ rest)
        = pre ++ (u16le k.length ++ (k ++ (u16le s.length ++ (s ++ (bs ++ rest))))) := by
      rw [hbshape]
      simp [List.append_assoc]
    rw [List.length_cons, hstream]
    simp only [decodePlaylistMetaLoop]
    have hrk : readI16
        (pre ++ (u16le k.length ++ (k ++ (u16le s.length ++ (s ++ (bs ++ rest))))))
        pre.length = .ok ((k.length : Int), pre.length + 2) := by
      have h0 := readI16_raw_at pre
        (k ++ (u16le s.length ++ (s ++ (bs ++ rest)))) k.length (by omega)
      rw [toSigned16_of_lt k.length (by omega)] at h0
      exact h0
    rw [hrk]
    simp only []
    rw [if_neg (by
      push_neg
      constructor
      · omega
      · omega)]
    rw [show ((k.length : Int)).toNat = k.length from by omega]
    have hrkb : pyRead
        (pre ++ (u16le k.length ++ (k ++ (u16le s.length ++ (s ++ (bs ++ rest))))))
        (pre.length + 2) k.length = k := by
      have h0 := pyRead_at (pre ++ u16le k.length) k
        (u16le s.length ++ (s ++ (bs ++ rest)))
      have hpl : (pre ++ u16le k.length).length = pre.length + 2 := by
        simp [u16le_length]
      rw [hpl] at h0
      simpa only [List.append_assoc, List.cons_append, List.nil_append] using h0
    rw [hrkb, hkey]
    simp only []
    have hrv16 : readI16
        (pre ++ (u16le k.length ++ (k ++ (u16le s.length ++ (s ++ (bs ++ rest))))))
        (pre.length + 2 + k.length)
        = .ok ((s.length : Int), pre.length + 2 + k.length + 2) := by
      have h0 := readI16_raw_at (pre ++ (u16le k.length ++ k))
        (s ++ (bs ++ rest)) s.length (by omega)
      have hpl : (pre ++ (u16le k.length ++ k)).length
          = pre.length + 2 + k.length := by
        simp only [List.length_append, u16le_length]
        omega
      rw [hpl, toSigned16_of_lt s.length (by omega)] at h0
      simpa only [List.append_assoc, List.cons_append, List.nil_append] using h0
    rw [hrv16]
    simp only []
    rw [if_neg (by
      push_neg
      constructor
      · omega
      · omega)]
    rw [show ((s.length : Int)).toNat = s.length from by omega]
    have hrvb : pyRead
        (pre ++ (u16le k.length ++ (k ++ (u16le s.length ++ (s ++ (bs ++ rest))))))
        (pre.length + 2 + k.length + 2) s.length = s := by
      have h0 := pyRead_at (pre ++ (u16le k.length ++ (k ++ u16le s.length))) s
        (bs ++ rest)
      have hpl : (pre ++ (u16le k.length ++ (k ++ u16le s.length))).length
          = pre.length + 2 + k.length + 2 := by
        simp only [List.length_append, u16le_length]
        omega
      rw [hpl] at h0
      simpa only [List.append_assoc, List.cons_append, List.nil_append] using h0
    rw [hrvb, hval]
    simp only []
    rw [dictInsert_append m0 k (PyVal.str s) (hdisj k (by simp))]
    have harr : pre ++ (u16le k.length ++ (k ++ (u16le s.length ++ (s ++ (bs ++ rest)))))
        = (pre ++ b) ++ (bs ++ rest) := by
      rw [hbshape]
      simp [List.append_assoc]
    have hpos : pre.length + 2 + k.length + 2 + s.length = (pre ++ b).length := by
      rw [hbshape]
      simp only [List.length_append, u16le_length]
      omega
    rw [harr, hpos]
    simp only [List.map_cons, List.nodup_cons] at hndk
    rw [ih bs (pre ++ b) rest (m0 ++ [(k, PyVal.str s)]) hbs
      (fun q hq => hinv q (by simp [hq]))
      (fun q hq => hascii q (by simp [hq]))
      hndk.2
      (fun k0 hk0 => by
        simp only [List.map_append, List.mem_append, List.map_cons,
          List.map_nil, List.mem_singleton]
        push_neg
        constructor
        · exact hdisj k0 (by simp [hk0])
        · intro hc
          subst hc
          exact absurd hk0 hndk.1)]
    have h1 : (m0 ++ [(k, PyVal.str s)]) ++ tl = m0 ++ ((k, PyVal.str s) :: tl) := by
      simp
    have h2 : (pre ++ b).length + bs.length = pre.length + (b ++ bs).length := by
      simp only [List.length_append]
      omega
    rw [h1, h2]

/-! ### Invariant extraction from the decoder -/

theorem metaShape_pair (a b : Int) :
    MetaShape [(sSS, PyVal.int a), (sES, PyVal.int b)] :=
  ⟨a, b, [], rfl, fun p hp => absurd hp (List.not_mem_nil p), List.nodup_nil⟩

theorem metaShape_set_ss (m : List (PyStr × PyVal)) (n : Int)
    (h : MetaShape m) : MetaShape (dictInsert m sSS (PyVal.int n)) := by
  obtain ⟨a, b, tail, rfl, htl, hnd⟩ := h
  rw [dictInsert_cons_self]
  exact ⟨n, b, tail, rfl, htl, hnd⟩

theorem metaShape_set_es (m : List (PyStr × PyVal)) (n : Int)
    (h : MetaShape m) : MetaShape (dictInsert m sES (PyVal.int n)) := by
  obtain ⟨a, b, tail, rfl, htl, hnd⟩ := h
  rw [dictInsert_cons_ne _ _ _ _ _ (by decide : sSS ≠ sES),
    dictInsert_cons_self]
  exact ⟨a, n, tail, rfl, htl, hnd⟩

theorem metaShape_insert (m : List (PyStr × PyVal)) (key : PyStr) (s : PyStr)
    (h : MetaShape m) (hkss : key ≠ sSS) (hkes : key ≠ sES) (hknil : key ≠ [])
    (hkG : StrGood key) (hklen : (utf8Encode key).length < 20000)
    (hsG : StrGood s) (hslen : (utf8Encode s).length < 20000) :
    MetaShape (dictInsert m key (PyVal.str s)) := by
  obtain ⟨a, b, tail, rfl, htl, hnd⟩ := h
  rw [dictInsert_cons_ne _ _ _ _ _ (Ne.symm hkss),
    dictInsert_cons_ne _ _ _ _ _ (Ne.symm hkes)]
  refine ⟨a, b, dictInsert tail key (PyVal.str s), rfl, ?_,
    dictInsert_nodup _ _ _ hnd⟩
  intro p hp
  rcases dictInsert_mem tail key (PyVal.str s) p hp with hp2 | hp2
  · exact htl p hp2
  · subst hp2
    refine ⟨hkss, hkes, ⟨hknil, hkG, hklen, hslen,
      fun hor => hor.elim (fun he => absurd he hkss) (fun he => absurd he hkes),
      fun s2 hs2 => ?_⟩, ⟨s, rfl⟩⟩
    rw [PyVal.str.injEq] at hs2
    rw [← hs2]
    exact hsG

set_option maxHeartbeats 1000000 in
/-- The track-scope metadata loop preserves the decoder's track invariant. -/
theorem decodeTrackMetaLoop_inv (bytes : List Nat) :
    ∀ (c : Nat) (t : Track) (pos : Nat) (t2 : Track) (p2 : Nat),
      decodeTrackMetaLoop bytes c t pos = .ok (t2, p2) →
      MetaShape t.meta → StrGood t.uri → StrGood t.decoder →
      (utf8Encode t.decoder).length < 20 → StrGood t.filetype →
      TrackInv t2 := by
  intro c
  induction c with
  | zero =>
    intro t pos t2 p2 h hm hu hd hdl hf
    unfold decodeTrackMetaLoop at h
    injection h with h2
    rw [Prod.mk.injEq] at h2
    obtain ⟨h3, _⟩ := h2
    subst h3
    exact ⟨hm, hu, hd, hdl, hf⟩
  | succ c ih =>
    intro t pos t2 p2 h hm hu hd hdl hf
    simp only [decodeTrackMetaLoop] at h
    cases hq1 : readU16 bytes pos with
    | error e => rw [hq1] at h; exact Except.noConfusion h
    | ok pr =>
      obtain ⟨kl, p1⟩ := pr
      rw [hq1] at h
      simp only [] at h
      by_cases hkl : 20000 ≤ kl
      · rw [if_pos hkl] at h
        exact Except.noConfusion h
      rw [if_neg hkl] at h
      cases hq2 : utf8Decode (pyRead bytes p1 kl) with
      | none => rw [hq2] at h; exact Except.noConfusion h
      | some key =>
        rw [hq2] at h
        simp only [] at h
        cases hq3 : readU16 bytes (p1 + (pyRead bytes p1 kl).length) with
        | error e => rw [hq3] at h; exact Except.noConfusion h
        | ok pr2 =>
          obtain ⟨vl, p3⟩ := pr2
          rw [hq3] at h
          simp only [] at h
          by_cases hvl : 20000 ≤ vl
          · rw [if_pos hvl] at h
            exact ih t _ t2 p2 h hm hu hd hdl hf
          rw [if_neg hvl] at h
          have hkG : StrGood key := strGood_of_decode _ _ hq2
          have hklen : (utf8Encode key).length < 20000 := by
            rw [utf8Encode_length_of_decode _ _ hq2]
            have := pyRead_length_le bytes p1 kl
            omega
          cases key with
          | nil => exact Except.noConfusion h
          | cons c0 kt =>
            simp only [] at h
            by_cases hc0 : c0 = 58
            · rw [if_pos hc0] at h
              by_cases hss : c0 :: kt = sSS
              · rw [if_pos hss] at h
                cases hq4 : parseInt (pyRead bytes p3 vl) with
                | none => rw [hq4] at h; exact Except.noConfusion h
                | some n =>
                  rw [hq4] at h
                  simp only [] at h
                  exact ih _ _ t2 p2 h (metaShape_set_ss t.meta n hm)
                    hu hd hdl hf
              rw [if_neg hss] at h
              by_cases hes : c0 :: kt = sES
              · rw [if_pos hes] at h
                cases hq4 : parseInt (pyRead bytes p3 vl) with
                | none => rw [hq4] at h; exact Except.noConfusion h
                | some n =>
                  rw [hq4] at h
                  simp only [] at h
                  exact ih _ _ t2 p2 h (metaShape_set_es t.meta n hm)
                    hu hd hdl hf
              rw [if_neg hes] at h
              cases hq5 : utf8Decode (pyRead bytes p3 vl) with
              | none => rw [hq5] at h; exact Except.noConfusion h
              | some v =>
                rw [hq5] at h
                simp only [] at h
                refine ih _ _ t2 p2 h ?_ hu hd hdl hf
                exact metaShape_insert t.meta (c0 :: kt) v hm hss hes
                  (by simp) (strGood_of_decode _ _ hq2)
                  hklen (strGood_of_decode _ _ hq5)
                  (by
                    rw [utf8Encode_length_of_decode _ _ hq5]
                    have := pyRead_length_le bytes p3 vl
                    omega)
            · rw [if_neg hc0] at h
              have hss : c0 :: kt ≠ sSS := by
                intro he
                rw [show sSS = 58 :: [83, 84, 65, 82, 84, 83, 65, 77, 80, 76, 69]
                  from rfl] at he
                injection he with h1 _
                exact hc0 h1
              have hes : c0 :: kt ≠ sES := by
                intro he
                rw [show sES = 58 :: [69, 78, 68, 83, 65, 77, 80, 76, 69]
                  from rfl] at he
                injection he with h1 _
                exact hc0 h1
              cases hq5 : utf8Decode (pyRead bytes p3 vl) with
              | none => rw [hq5] at h; exact Except.noConfusion h
              | some v =>
                rw [hq5] at h
                simp only [] at h
                refine ih _ _ t2 p2 h ?_ hu hd hdl hf
                exact metaShape_insert t.meta (c0 :: kt) v hm hss hes
                  (by simp) (strGood_of_decode _ _ hq2)
                  hklen (strGood_of_decode _ _ hq5)
                  (by
                    rw [utf8Encode_length_of_decode _ _ hq5]
                    have := pyRead_length_le bytes p3 vl
                    omega)

set_option maxHeartbeats 2000000 in
/-- Decoding a track body from a fresh track yields an invariant-satisfying
track, for every minor version. -/
theorem decodeTrackBody_inv (bytes : List Nat) (minor : Nat) (t : Track)
    (pos : Nat) (t2 : Track) (pf : Nat)
    (h : decodeTrackBody bytes minor t pos = .ok (t2, pf))
    (hm : t.meta = []) (hu : StrGood t.uri) (hd : StrGood t.decoder)
    (hdl : (utf8Encode t.decoder).length < 20) (hf : StrGood t.filetype) :
    TrackInv t2 := by
  unfold decodeTrackBody at h
  cases hq1 : readExactN bytes pos 8 with
  | error e => rw [hq1] at h; exact Except.noConfusion h
  | ok pr =>
    obtain ⟨sb, p1⟩ := pr
    rw [hq1] at h
    simp only [] at h
    cases hq2 : readExactN bytes p1 4 with
    | error e => rw [hq2] at h; exact Except.noConfusion h
    | ok pr2 =>
      obtain ⟨db, pd⟩ := pr2
      rw [hq2] at h
      simp only [] at h
      by_cases hmin : minor ≤ 2
      · rw [if_pos hmin] at h
        cases hq3 : readU8 bytes pd with
        | error e => rw [hq3] at h; exact Except.noConfusion h
        | ok pr3 =>
          obtain ⟨ftl, p3⟩ := pr3
          rw [hq3] at h
          simp only [] at h
          by_cases hftl : ftl ≠ 0
          · rw [if_pos hftl] at h
            cases hq4 : utf8Decode (pyRead bytes p3 ftl) with
            | none => rw [hq4] at h; exact Except.noConfusion h
            | some ft =>
              rw [hq4] at h
              simp only [] at h
              cases hq5 : readExactN bytes (p3 + (pyRead bytes p3 ftl).length) 16 with
              | error e => rw [hq5] at h; exact Except.noConfusion h
              | ok pr5 =>
                obtain ⟨gb, p5⟩ := pr5
                rw [hq5] at h
                simp only [] at h
                split_ifs at h <;>
                  first
                  | (simp only [] at h
                     exact Except.noConfusion h)
                  | (simp only [] at h
                     cases hq6 : readU32 bytes p5 with
                     | error e =>
                       rw [hq6] at h
                       exact Except.noConfusion h
                     | ok pr6 =>
                       obtain ⟨fl, p7⟩ := pr6
                       rw [hq6] at h
                       simp only [] at h
                       cases hq7 : readI16 bytes p7 with
                       | error e =>
                         rw [hq7] at h
                         exact Except.noConfusion h
                       | ok pr7 =>
                         obtain ⟨mc, p9⟩ := pr7
                         rw [hq7] at h
                         simp only [] at h
                         refine decodeTrackMetaLoop_inv bytes mc.toNat _ p9
                           t2 pf h ?_ ?_ ?_ ?_ ?_
                         · simp only [Track.set_startsample,
                             Track.set_endsample, hm, dictInsert_shadow_pair]
                           exact metaShape_pair _ _
                         · exact hu
                         · exact hd
                         · exact hdl
                         · exact strGood_of_decode _ _ hq4)
                  | (simp only [] at h
                     cases hq7 : readI16 bytes p5 with
                     | error e =>
                       rw [hq7] at h
                       exact Except.noConfusion h
                     | ok pr7 =>
                       obtain ⟨mc, p9⟩ := pr7
                       rw [hq7] at h
                       simp only [] at h
                       refine decodeTrackMetaLoop_inv bytes mc.toNat _ p9
                         t2 pf h ?_ ?_ ?_ ?_ ?_
                       · simp only [Track.set_startsample,
                           Track.set_endsample, hm, dictInsert_shadow_pair]
                         exact metaShape_pair _ _
                       · exact hu
                       · exact hd
                       · exact hdl
                       · exact strGood_of_decode _ _ hq4)
          · rw [if_neg hftl] at h
            simp only [] at h
            cases hq5 : readExactN bytes (p3 + (pyRead bytes p3 ftl).length) 16 with
            | error e => rw [hq5] at h; exact Except.noConfusion h
            | ok pr5 =>
              obtain ⟨gb, p5⟩ := pr5
              rw [hq5] at h
              simp only [] at h
              split_ifs at h <;>
                first
                | (simp only [] at h
                   exact Except.noConfusion h)
                | (simp only [] at h
                   cases hq6 : readU32 bytes p5 with
                   | error e =>
                     rw [hq6] at h
                     exact Except.noConfusion h
                   | ok pr6 =>
                     obtain ⟨fl, p7⟩ := pr6
                     rw [hq6] at h
                     simp only [] at h
                     cases hq7 : readI16 bytes p7 with
                     | error e =>
                       rw [hq7] at h
                       exact Except.noConfusion h
                     | ok pr7 =>
                       obtain ⟨mc, p9⟩ := pr7
                       rw [hq7] at h
                       simp only [] at h
                       refine decodeTrackMetaLoop_inv bytes mc.toNat _ p9
                         t2 pf h ?_ ?_ ?_ ?_ ?_
                       · simp only [Track.set_startsample,
                           Track.set_endsample, hm, dictInsert_shadow_pair]
                         exact metaShape_pair _ _
                       · exact hu
                       · exact hd
                       · exact hdl
                       · exact hf)
                | (simp only [] at h
                   cases hq7 : readI16 bytes p5 with
                   | error e =>
                     rw [hq7] at h
                     exact Except.noConfusion h
                   | ok pr7 =>
                     obtain ⟨mc, p9⟩ := pr7
                     rw [hq7] at h
                     simp only [] at h
                     refine decodeTrackMetaLoop_inv bytes mc.toNat _ p9
                       t2 pf h ?_ ?_ ?_ ?_ ?_
                     · simp only [Track.set_startsample,
                         Track.set_endsample, hm, dictInsert_shadow_pair]
                       exact metaShape_pair _ _
                     · exact hu
                     · exact hd
                     · exact hdl
                     · exact hf)
      · rw [if_neg hmin] at h
        simp only [] at h
        rw [if_pos (by omega : 2 ≤ minor)] at h
        cases hq6 : readU32 bytes pd with
        | error e => rw [hq6] at h; exact Except.noConfusion h
        | ok pr6 =>
          obtain ⟨fl, p7⟩ := pr6
          rw [hq6] at h
          simp only [] at h
          cases hq7 : readI16 bytes p7 with
          | error e => rw [hq7] at h; exact Except.noConfusion h
          | ok pr7 =>
            obtain ⟨mc, p9⟩ := pr7
            rw [hq7] at h
            simp only [] at h
            refine decodeTrackMetaLoop_inv bytes mc.toNat _ p9 t2 pf h
              ?_ ?_ ?_ ?_ ?_
            · simp only [Track.set_startsample, Track.set_endsample, hm,
                dictInsert_shadow_pair]
              exact metaShape_pair _ _
            · exact hu
            · exact hd
            · exact hdl
            · exact hf

/-- Every track the decoder produces satisfies the track invariant. -/
theorem decodeTrack_inv (bytes : List Nat) (minor : Nat) (pos : Nat)
    (t2 : Track) (pf : Nat)
    (h : decodeTrack bytes minor pos = .ok (t2, pf)) : TrackInv t2 := by
  unfold decodeTrack at h
  by_cases hmin : minor ≤ 2
  · rw [if_pos hmin] at h
    cases hq1 : readU16 bytes pos with
    | error e => rw [hq1] at h; exact Except.noConfusion h
    | ok pr =>
      obtain ⟨ul, p1⟩ := pr
      rw [hq1] at h
      simp only [] at h
      cases hq2 : utf8Decode (pyRead bytes p1 ul) with
      | none => rw [hq2] at h; exact Except.noConfusion h
      | some u =>
        rw [hq2] at h
        simp only [] at h
        cases hq3 : readU8 bytes (p1 + (pyRead bytes p1 ul).length) with
        | error e => rw [hq3] at h; exact Except.noConfusion h
        | ok pr3 =>
          obtain ⟨dl, p3⟩ := pr3
          rw [hq3] at h
          simp only [] at h
          by_cases hdl : 20 ≤ dl
          · rw [if_pos hdl] at h
            exact Except.noConfusion h
          rw [if_neg hdl] at h
          by_cases hdl0 : dl ≠ 0
          · rw [if_pos hdl0] at h
            cases hq4 : utf8Decode (pyRead bytes p3 dl) with
            | none => rw [hq4] at h; exact Except.noConfusion h
            | some dec =>
              rw [hq4] at h
              simp only [] at h
              cases hq5 : readI16 bytes
                  (if dl ≠ 0 then p3 + (pyRead bytes p3 dl).length else p3) with
              | error e => rw [hq5] at h; exact Except.noConfusion h
              | ok pr5 =>
                obtain ⟨num, p5⟩ := pr5
                rw [hq5] at h
                simp only [] at h
                refine decodeTrackBody_inv bytes minor _ p5 t2 pf h rfl
                  (strGood_of_decode _ _ hq2) (strGood_of_decode _ _ hq4)
                  ?_ (by rfl)
                rw [utf8Encode_length_of_decode _ _ hq4]
                have := pyRead_length_le bytes p3 dl
                omega
          · rw [if_neg hdl0] at h
            simp only [] at h
            cases hq5 : readI16 bytes
                (if dl ≠ 0 then p3 + (pyRead bytes p3 dl).length else p3) with
            | error e => rw [hq5] at h; exact Except.noConfusion h
            | ok pr5 =>
              obtain ⟨num, p5⟩ := pr5
              rw [hq5] at h
              simp only [] at h
              refine decodeTrackBody_inv bytes minor _ p5 t2 pf h rfl
                (strGood_of_decode _ _ hq2) (by rfl)
                (by show (utf8Encode ([] : PyStr)).length < 20; decide) (by rfl)
  · rw [if_neg hmin] at h
    exact decodeTrackBody_inv bytes minor _ pos t2 pf h rfl (by rfl) (by rfl)
      (by show (utf8Encode ([] : PyStr)).length < 20; decide) (by rfl)

/-- Every track in the decoded track list satisfies the track invariant. -/
theorem decodeTracksLoop_inv (bytes : List Nat) (minor : Nat) :
    ∀ (n : Nat) (acc : List Track) (pos : Nat) (ts : List Track) (pf : Nat),
      decodeTracksLoop bytes minor n acc pos = .ok (ts, pf) →
      (∀ t ∈ acc, TrackInv t) → ∀ t ∈ ts, TrackInv t := by
  intro n
  induction n with
  | zero =>
    intro acc pos ts pf h hacc
    unfold decodeTracksLoop at h
    injection h with h2
    rw [Prod.mk.injEq] at h2
    obtain ⟨h3, _⟩ := h2
    subst h3
    exact hacc
  | succ n ih =>
    intro acc pos ts pf h hacc
    simp only [decodeTracksLoop] at h
    cases hq : decodeTrack bytes minor pos with
    | error e => rw [hq] at h; exact Except.noConfusion h
    | ok pr =>
      obtain ⟨t, p⟩ := pr
      rw [hq] at h
      simp only [] at h
      refine ih (acc ++ [t]) p ts pf h ?_
      intro q hq2
      rcases List.mem_append.mp hq2 with hq3 | hq3
      · exact hacc q hq3
      · rw [List.mem_singleton] at hq3
        subst hq3
        exact decodeTrack_inv bytes minor pos q p hq

/-- The playlist-scope metadata loop preserves the metadata invariant and
key distinctness. -/
theorem decodePlaylistMetaLoop_inv (bytes : List Nat) :
    ∀ (c : Nat) (m : List (PyStr × PyVal)) (pos : Nat)
      (m2 : List (PyStr × PyVal)) (pf : Nat),
      decodePlaylistMetaLoop bytes c m pos = .ok (m2, pf) →
      (∀ p ∈ m, PlMetaInv p) → ((m.map Prod.fst).Nodup) →
      (∀ p ∈ m2, PlMetaInv p) ∧ ((m2.map Prod.fst).Nodup) := by
  intro c
  induction c with
  | zero =>
    intro m pos m2 pf h hm hnd
    unfold decodePlaylistMetaLoop at h
    injection h with h2
    rw [Prod.mk.injEq] at h2
    obtain ⟨h3, _⟩ := h2
    subst h3
    exact ⟨hm, hnd⟩
  | succ c ih =>
    intro m pos m2 pf h hm hnd
    simp only [decodePlaylistMetaLoop] at h
    cases hq1 : readI16 bytes pos with
    | error e => rw [hq1] at h; exact Except.noConfusion h
    | ok pr =>
      obtain ⟨kl, p1⟩ := pr
      rw [hq1] at h
      simp only [] at h
      by_cases hkl : kl < 0 ∨ 20000 ≤ kl
      · rw [if_pos hkl] at h
        exact Except.noConfusion h
      rw [if_neg hkl] at h
      cases hq2 : utf8Decode (pyRead bytes p1 kl.toNat) with
      | none => rw [hq2] at h; exact Except.noConfusion h
      | some key =>
        rw [hq2] at h
        simp only [] at h
        cases hq3 : readI16 bytes (p1 + (pyRead bytes p1 kl.toNat).length) with
        | error e => rw [hq3] at h; exact Except.noConfusion h
        | ok pr3 =>
          obtain ⟨vl, p3⟩ := pr3
          rw [hq3] at h
          simp only [] at h
          by_cases hvl : vl < 0 ∨ 20000 ≤ vl
          · rw [if_pos hvl] at h
            by_cases hnp : (p3 : Int) + vl < 0
            · rw [if_pos hnp] at h
              exact Except.noConfusion h
            · rw [if_neg hnp] at h
              exact ih m _ m2 pf h hm hnd
          · rw [if_neg hvl] at h
            cases hq4 : utf8Decode (pyRead bytes p3 vl.toNat) with
            | none => rw [hq4] at h; exact Except.noConfusion h
            | some v =>
              rw [hq4] at h
              simp only [] at h
              refine ih _ _ m2 pf h ?_ (dictInsert_nodup _ _ _ hnd)
              intro p hp
              rcases dictInsert_mem m key (.str v) p hp with hp2 | hp2
              · exact hm p hp2
              · subst hp2
                push_neg at hkl hvl
                refine ⟨strGood_of_decode _ _ hq2, ?_, v,
                  rfl, strGood_of_decode _ _ hq4, ?_⟩
                · rw [utf8Encode_length_of_decode _ _ hq2]
                  have := pyRead_length_le bytes p1 kl.toNat
                  omega
                · rw [utf8Encode_length_of_decode _ _ hq4]
                  have := pyRead_length_le bytes p3 vl.toNat
                  omega

/-- Every playlist `Playlist.read` produces satisfies the playlist
invariant. -/
theorem decodePlaylist_inv (B : List Nat) (pl : Playlist)
    (h : decodePlaylist B = .ok pl) : PlaylistInv pl := by
  unfold decodePlaylist at h
  by_cases hmg : pyRead B 0 4 ≠ magicDBPL
  · rw [if_pos hmg] at h
    exact Except.noConfusion h
  rw [if_neg hmg] at h
  cases hq1 : readExactN B 4 2 with
  | error e => rw [hq1] at h; exact Except.noConfusion h
  | ok pr =>
    obtain ⟨vb, p1⟩ := pr
    rw [hq1] at h
    simp only [] at h
    by_cases hmj : vb.getD 0 0 ≠ 1
    · rw [if_pos hmj] at h
      exact Except.noConfusion h
    rw [if_neg hmj] at h
    by_cases hmn : vb.getD 1 0 < 1
    · rw [if_pos hmn] at h
      exact Except.noConfusion h
    rw [if_neg hmn] at h
    cases hq2 : readU32 B p1 with
    | error e => rw [hq2] at h; exact Except.noConfusion h
    | ok pr2 =>
      obtain ⟨tc, p2⟩ := pr2
      rw [hq2] at h
      simp only [] at h
      cases hq3 : decodeTracksLoop B (vb.getD 1 0) tc [] p2 with
      | error e => rw [hq3] at h; exact Except.noConfusion h
      | ok pr3 =>
        obtain ⟨tracks, p3⟩ := pr3
        rw [hq3] at h
        simp only [] at h
        by_cases hcnt : tc ≠ tracks.length
        · rw [if_pos hcnt] at h
          exact Except.noConfusion h
        rw [if_neg hcnt] at h
        cases hq4 : readU16 B p3 with
        | error e => rw [hq4] at h; exact Except.noConfusion h
        | ok pr4 =>
          obtain ⟨mc, p4⟩ := pr4
          rw [hq4] at h
          simp only [] at h
          cases hq5 : decodePlaylistMetaLoop B mc [] p4 with
          | error e => rw [hq5] at h; exact Except.noConfusion h
          | ok pr5 =>
            obtain ⟨meta, pf⟩ := pr5
            rw [hq5] at h
            simp only [] at h
            injection h with h2
            subst h2
            obtain ⟨hmeta, hndk⟩ := decodePlaylistMetaLoop_inv B mc [] p4
              meta pf hq5 (fun p hp => absurd hp (List.not_mem_nil p))
              List.nodup_nil
            exact ⟨decodeTracksLoop_inv B (vb.getD 1 0) tc [] p2 tracks p3 hq3
                (fun t ht => absurd ht (List.not_mem_nil t)),
              hmeta, hndk⟩

set_option maxHeartbeats 2000000 in
/-- Claim C3 (amended): re-encoding a decoded playlist writes the current
version 1.2 after the magic, and — provided every playlist-scope metadata
key and value consists of ASCII characters — the produced bytes decode
again to a playlist with the same track count and order, matching flags,
effective start/end samples and writable metadata per track, and identical
playlist metadata. (Without the ASCII proviso the claim fails: the
character-count length prefixes of `Playlist.save`'s metadata section
disagree with the UTF-8 byte count, see the counterexample.) -/
theorem save_roundtrip (B : List Nat) (pl : Playlist) (B2 : List Nat)
    (h1 : decodePlaylist B = .ok pl) (h2 : pl.save = .ok B2)
    (hascii : PlAsciiMeta pl) :
    B2.take 6 = magicDBPL ++ [1, 2]
    ∧ ∃ pl2, decodePlaylist B2 = .ok pl2
        ∧ pl2.major_version = 1 ∧ pl2.minor_version = 2
        ∧ List.Forall₂ trackMatch pl.tracks pl2.tracks
        ∧ pl2.tracks.length = pl.tracks.length
        ∧ pl2.meta = pl.meta := by
  obtain ⟨hptracks, hpmeta, hpnd⟩ := decodePlaylist_inv B pl h1
  obtain ⟨tcb, tb, mcb, mb, hq1, hq2, hq3, hq4, hB2⟩ := save_ok_shape pl B2 h2
  obtain ⟨htc, rfl⟩ := packU32_ok _ _ hq1
  obtain ⟨hmca, hmcb2, rfl⟩ := packI16_ok _ _ hq3
  subst hB2
  have hmcval : toUnsigned 16 ((pl.meta.length : Int)) = pl.meta.length := by
    unfold toUnsigned
    omega
  rw [hmcval]
  constructor
  · rw [show magicDBPL ++ [1, 2] ++ u32le pl.tracks.length ++ tb
        ++ u16le pl.meta.length ++ mb
        = (magicDBPL ++ [1, 2]) ++ (u32le pl.tracks.length ++ (tb
          ++ (u16le pl.meta.length ++ mb))) from by
      simp [List.append_assoc]]
    exact List.take_left' (by decide)
  rw [show magicDBPL ++ [1, 2] ++ u32le pl.tracks.length ++ tb
      ++ u16le pl.meta.length ++ mb
      = magicDBPL ++ ([1, 2] ++ (u32le pl.tracks.length ++ (tb ++ (u16le pl.meta.length ++ (mb))))) from by
    simp [List.append_assoc]]
  unfold decodePlaylist
  have hmagic : pyRead (magicDBPL ++ ([1, 2] ++ (u32le pl.tracks.length ++ (tb ++ (u16le pl.meta.length ++ (mb)))))) 0 4 = magicDBPL := by
    have h0 := pyRead_at ([] : List Nat) magicDBPL
      ([1, 2] ++ (u32le pl.tracks.length ++ (tb ++ (u16le pl.meta.length ++ (mb)))))
    simpa using h0
  rw [if_neg (fun hc => hc hmagic)]
  have hver : readExactN (magicDBPL ++ ([1, 2] ++ (u32le pl.tracks.length ++ (tb ++ (u16le pl.meta.length ++ (mb)))))) 4 2 = .ok ([1, 2], 6) := by
    have h0 := readExactN_at magicDBPL [1, 2]
      (u32le pl.tracks.length ++ (tb ++ (u16le pl.meta.length ++ (mb))))
    simpa using h0
  rw [hver]
  simp only []
  rw [show ([1, 2] : List Nat).getD 0 0 = 1 from rfl,
    show ([1, 2] : List Nat).getD 1 0 = 2 from rfl]
  rw [if_neg (by decide : ¬(1 : Nat) ≠ 1), if_neg (by decide : ¬(2 : Nat) < 1)]
  have htc32 : readU32 (magicDBPL ++ ([1, 2] ++ (u32le pl.tracks.length ++ (tb ++ (u16le pl.meta.length ++ (mb)))))) 6 = .ok (pl.tracks.length, 10) := by
    have h0 := readU32_at (magicDBPL ++ [1, 2])
      (tb ++ (u16le pl.meta.length ++ (mb))) pl.tracks.length htc
    have hpl : (magicDBPL ++ [1, 2]).length = 6 := by decide
    rw [hpl] at h0
    simpa only [List.append_assoc, List.cons_append, List.nil_append] using h0
  rw [htc32]
  simp only []
  obtain ⟨ts2, hloop, hmat⟩ := tracksLoop_sim pl.tracks tb
    (magicDBPL ++ ([1, 2] ++ u32le pl.tracks.length)) (u16le pl.meta.length ++ (mb)) [] hq2 hptracks
  rw [show (magicDBPL ++ ([1, 2] ++ (u32le pl.tracks.length ++ (tb ++ (u16le pl.meta.length ++ (mb))))))
      = (magicDBPL ++ ([1, 2] ++ u32le pl.tracks.length)) ++ (tb ++ (u16le pl.meta.length ++ (mb))) from by
    simp [List.append_assoc]]
  rw [show (10 : Nat) = (magicDBPL ++ ([1, 2] ++ u32le pl.tracks.length)).length from by
    simp only [List.length_append, u32le_length]
    decide]
  rw [hloop]
  simp only []
  have hlen2 : ts2.length = pl.tracks.length :=
    (List.Forall₂.length_eq hmat).symm
  rw [if_neg (by
    simp only [List.nil_append]
    omega)]
  have hmc16 : readU16 ((magicDBPL ++ ([1, 2] ++ u32le pl.tracks.length)) ++ (tb ++ (u16le pl.meta.length ++ (mb))))
      ((magicDBPL ++ ([1, 2] ++ u32le pl.tracks.length)).length + tb.length)
      = .ok (pl.meta.length, (magicDBPL ++ ([1, 2] ++ u32le pl.tracks.length)).length + tb.length + 2) := by
    have h0 := readU16_at ((magicDBPL ++ ([1, 2] ++ u32le pl.tracks.length)) ++ tb) mb
      pl.meta.length (by omega)
    have hpl : ((magicDBPL ++ ([1, 2] ++ u32le pl.tracks.length)) ++ tb).length = (magicDBPL ++ ([1, 2] ++ u32le pl.tracks.length)).length + tb.length := by
      simp only [List.length_append]
    rw [hpl] at h0
    simpa only [List.append_assoc, List.cons_append, List.nil_append] using h0
  rw [hmc16]
  simp only []
  have hplen5 : (magicDBPL ++ ([1, 2] ++ u32le pl.tracks.length)).length
        + tb.length + 2
      = (magicDBPL ++ ([1, 2] ++ (u32le pl.tracks.length
          ++ (tb ++ u16le pl.meta.length)))).length := by
    simp only [List.length_append, u16le_length, u32le_length]
    omega
  rw [show (magicDBPL ++ ([1, 2] ++ u32le pl.tracks.length)) ++ (tb ++ (u16le pl.meta.length ++ (mb)))
      = (magicDBPL ++ ([1, 2] ++ (u32le pl.tracks.length ++ (tb ++ u16le pl.meta.length)))) ++ (mb ++ ([] : List Nat)) from by
    simp [List.append_assoc]]
  rw [hplen5]
  rw [plMetaLoop_sim pl.meta mb (magicDBPL ++ ([1, 2] ++ (u32le pl.tracks.length ++ (tb ++ u16le pl.meta.length)))) ([] : List Nat) [] hq4 hpmeta
    (fun p hp => hascii p hp) hpnd (fun k0 _ hc => absurd hc (by simp))]
  simp only []
  refine ⟨_, rfl, rfl, rfl, ?_, ?_, ?_⟩
  · simpa using hmat
  · simp only [List.nil_append]
    exact hlen2
  · simp

/-- Witness for the amended C3 on the empty playlist: it decodes, saves to
the same header-only bytes, and re-decodes to an equivalent playlist. -/
theorem save_roundtrip_witness :
    emptyPlBytes.take 6 = magicDBPL ++ [1, 2]
    ∧ ∃ pl2, decodePlaylist emptyPlBytes = .ok pl2
        ∧ pl2.major_version = 1 ∧ pl2.minor_version = 2
        ∧ List.Forall₂ trackMatch emptyPl.tracks pl2.tracks
        ∧ pl2.tracks.length = emptyPl.tracks.length
        ∧ pl2.meta = emptyPl.meta :=
  save_roundtrip emptyPlBytes emptyPl emptyPlBytes (by rfl) (by rfl)
    (fun p hp => absurd hp (List.not_mem_nil p))
